import Mathlib

set_option autoImplicit false

/-!
The incremental image-load state machine of tasks/task_image.c.

A shallow embedding of `tasks/task_image.c` (RetroArch).  Every C function of the
file is a Lean function of the same name.  The image codec, the colour
conversion and the non-blocking reader live outside the file; they are the
fields of `Codec`, operating on an abstract external state `σ`, so a statement
quantified over `Codec σ` holds for every behaviour of those collaborators.
Calls made to them are returned as a chronological list of `Event`s, which is
what the statements about the number of calls count.

Pointers are natural numbers with `0` for `NULL`; the heap object behind
`nbio->data` is an `Option nbio_image_handle` (`none` for `NULL`).
`unsigned` is 32 bits wide, `size_t` values are natural numbers.
-/

namespace TaskImage

/-! ## Data model -/

/-- The `enum image_status_enum` of task_image.c, in declaration order. -/
inductive image_status_enum where
  | IMAGE_STATUS_POLL
  | IMAGE_STATUS_TRANSFER
  | IMAGE_STATUS_TRANSFER_PARSE
  | IMAGE_STATUS_PROCESS_TRANSFER
  | IMAGE_STATUS_PROCESS_TRANSFER_PARSE
  | IMAGE_STATUS_TRANSFER_PARSE_FREE
  deriving DecidableEq, Repr

open image_status_enum

/-- The integer value of a status enumerator (`IMAGE_STATUS_POLL = 0`, then counting up). -/
def image_status_enum.toNat : image_status_enum → Nat
  | IMAGE_STATUS_POLL => 0
  | IMAGE_STATUS_TRANSFER => 1
  | IMAGE_STATUS_TRANSFER_PARSE => 2
  | IMAGE_STATUS_PROCESS_TRANSFER => 3
  | IMAGE_STATUS_PROCESS_TRANSFER_PARSE => 4
  | IMAGE_STATUS_TRANSFER_PARSE_FREE => 5

/-- Modelled from the spec: the image formats {NONE, PNG, JPEG, BMP, TGA} of
`enum image_type_enum`; formats/image.h is not among the sources. -/
inductive image_type_enum where
  | IMAGE_TYPE_NONE
  | IMAGE_TYPE_PNG
  | IMAGE_TYPE_JPEG
  | IMAGE_TYPE_BMP
  | IMAGE_TYPE_TGA
  deriving DecidableEq, Repr

/-- Modelled from the spec: the reader-side format tag `enum nbio_type` stored in
`nbio->type`; tasks_internal.h is not among the sources.  Only the five
enumerators that task_image.c assigns are listed. -/
inductive nbio_type_enum where
  | NBIO_TYPE_NONE
  | NBIO_TYPE_PNG
  | NBIO_TYPE_JPEG
  | NBIO_TYPE_BMP
  | NBIO_TYPE_TGA
  deriving DecidableEq, Repr

open image_type_enum nbio_type_enum

/-- Modelled from the spec: the result codes of the codec's advance-decode,
{NEXT, END, PROCESS_ERROR, PROCESS_ERROR_END}.  formats/image.h is not among
the sources; the numbers are those of libretro-common's
`enum image_process_code`.  The code compares an `int` against them. -/
def IMAGE_PROCESS_ERROR : Int := -2

/-- Modelled from the spec: see `IMAGE_PROCESS_ERROR`. -/
def IMAGE_PROCESS_ERROR_END : Int := -1

/-- Modelled from the spec: see `IMAGE_PROCESS_ERROR`. -/
def IMAGE_PROCESS_NEXT : Int := 0

/-- Modelled from the spec: see `IMAGE_PROCESS_ERROR`. -/
def IMAGE_PROCESS_END : Int := 1

/-- Modelled from the spec: the image descriptor `struct texture_image`
(width, height, pixel buffer, pixel-format flag); formats/image.h is not among
the sources.  `pixels` is the pixel-buffer pointer. -/
structure texture_image where
  width : Nat
  height : Nat
  pixels : Nat
  supports_rgba : Bool
  deriving DecidableEq, Repr

/-- The functions task_image.c ever stores in `image->cb` (a `transfer_cb_t`):
`NULL`, `&cb_image_menu_thumbnail` and `&cb_image_menu_upload_generic`. -/
inductive image_cb_t where
  | NULL
  | cb_image_menu_thumbnail
  | cb_image_menu_upload_generic
  deriving DecidableEq, Repr

/-- The functions task_image.c stores in `nbio->cb`: `NULL` (from `calloc`) and
`&cb_nbio_image_menu_thumbnail`. -/
inductive nbio_cb_t where
  | NULL
  | cb_nbio_image_menu_thumbnail
  deriving DecidableEq, Repr

/-- The `struct nbio_image_handle` of task_image.c, field for field. -/
structure nbio_image_handle where
  type : image_type_enum
  ti : texture_image
  is_blocking : Bool
  is_blocking_on_processing : Bool
  is_finished : Bool
  cb : image_cb_t
  handle : Nat
  size : Nat
  processing_pos_increment : Nat
  pos_increment : Nat
  processing_final_state : Int
  status : image_status_enum
  deriving DecidableEq, Repr

/-- Modelled from the spec: the reader status tag `nbio->status`;
tasks_internal.h is not among the sources.  task_image.c only stores
`NBIO_STATUS_INIT`. -/
inductive nbio_status_enum where
  | NBIO_STATUS_POLL
  | NBIO_STATUS_INIT
  deriving DecidableEq, Repr

/-- Modelled from the spec: the fields of `nbio_handle_t` that task_image.c
reads or writes; tasks_internal.h is not among the sources.  `data` is the
owned image context (`none` is `NULL`), `handle` the reader's own handle. -/
structure nbio_handle_t where
  type : nbio_type_enum
  is_finished : Bool
  cb : nbio_cb_t
  data : Option nbio_image_handle
  handle : Nat
  status : nbio_status_enum
  supports_rgba_flag : Bool
  path : List Char
  deriving DecidableEq, Repr

/-- Modelled from the spec: the scheduler's handler slot of a task; the only
handler task_image.c installs is `task_file_load_handler`. -/
inductive task_handler_t where
  | NULL
  | task_file_load_handler
  deriving DecidableEq, Repr

/-- Modelled from the spec: the scheduler's cleanup slot of a task. -/
inductive task_cleanup_t where
  | NULL
  | task_image_load_free
  deriving DecidableEq, Repr

/-- Modelled from the spec: the fields of `retro_task_t` that task_image.c
reads or writes; the scheduler's header is not among the sources.
`state` is the owned `nbio_handle_t` (`none` is `NULL`); `cancelled` is what
`task_get_cancelled` reports; `data` records `task_set_data`: `none` when it
was never called, `some none` when it was called with `NULL`, `some (some ti)`
when it was called with a heap copy holding `ti`.  `callback` and `user_data`
are the caller's opaque values. -/
structure retro_task_t where
  state : Option nbio_handle_t
  cancelled : Bool
  data : Option (Option texture_image)
  handler : task_handler_t
  cleanup : task_cleanup_t
  callback : Nat
  user_data : Nat
  deriving DecidableEq, Repr

/-! ## External collaborators -/

/-- What one call of `image_transfer_process` hands back: its return value and
the values it leaves in its three output parameters (`&image->ti.pixels`,
`width`, `height`).  A codec that does not write an output returns the value
it was given. -/
structure process_out where
  retval : Int
  pixels : Nat
  width : Nat
  height : Nat
  deriving DecidableEq, Repr

/-- The collaborators of task_image.c, as functions on an external state `σ`
(arguments in the C order, the state first): the image codec
(`image_transfer_*`), the colour conversion (`image_texture_*`) and the
reader's buffer view (`nbio_get_ptr`, which returns the buffer pointer and the
byte count it stores through `len`). -/
structure Codec (σ : Type) where
  image_transfer_new : σ → image_type_enum → Nat × σ
  image_transfer_set_buffer_ptr : σ → Nat → image_type_enum → Nat → σ
  image_transfer_start : σ → Nat → image_type_enum → Bool × σ
  image_transfer_iterate : σ → Nat → image_type_enum → Bool × σ
  image_transfer_process : σ → Nat → image_type_enum → Nat → Nat → Nat → Nat → process_out × σ
  image_transfer_free : σ → Nat → image_type_enum → σ
  image_texture_set_color_shifts : σ → texture_image → (Nat × Nat × Nat × Nat) × texture_image × σ
  image_texture_color_convert : σ → (Nat × Nat × Nat × Nat) → texture_image → texture_image × σ
  nbio_get_ptr : σ → Nat → Nat → (Nat × Nat) × σ

/-- One call that leaves task_image.c, with the arguments and results the
theorems speak about. -/
inductive Event where
  | transfer_new (type : image_type_enum) (handle : Nat)
  | transfer_set_buffer_ptr (handle : Nat) (ptr : Nat)
  | transfer_start (handle : Nat) (ok : Bool)
  | transfer_iterate (handle : Nat) (ok : Bool)
  | transfer_process (handle : Nat) (retval : Int)
  | transfer_free (handle : Nat)
  | color_convert
  | get_ptr
  | call_cb (cb : image_cb_t)
  | free_image
  | free_nbio
  | nbio_free (handle : Nat)
  | free_task
  | task_push
  deriving DecidableEq, Repr

/-- The result of a C function of this file: its return value, the object it
works on after the call, the external state and the calls it made, oldest
first. -/
structure Ret (σ α β : Type) where
  val : α
  obj : β
  world : σ
  calls : List Event

/-! ## The functions of task_image.c -/

section Functions

variable {σ : Type}

/-- `cb_image_menu_upload_generic` (lines 58-88). -/
def cb_image_menu_upload_generic (c : Codec σ) (nbio : nbio_handle_t) (_len : Nat) (w : σ) :
    Ret σ Int nbio_handle_t :=
  match nbio.data with
  | none => ⟨-1, nbio, w, []⟩
  | some image =>
    if image.processing_final_state = IMAGE_PROCESS_ERROR
        ∨ image.processing_final_state = IMAGE_PROCESS_ERROR_END then
      ⟨-1, nbio, w, []⟩
    else
      let s := c.image_texture_set_color_shifts w image.ti
      let k := c.image_texture_color_convert s.2.2 s.1 s.2.1
      let image1 := { image with
        ti := k.1
        is_blocking_on_processing := false
        is_blocking := true
        is_finished := true }
      ⟨0, { nbio with data := some image1, is_finished := true }, k.2, [Event.color_convert]⟩

/-- `task_image_process` (lines 90-107).  The object of the result is the image
together with the caller's `width` and `height` variables after the call. -/
def task_image_process (c : Codec σ) (image : nbio_image_handle) (width height : Nat) (w : σ) :
    Ret σ Int (nbio_image_handle × Nat × Nat) :=
  let r := c.image_transfer_process w image.handle image.type image.ti.pixels image.size
    width height
  let o := r.1
  let image1 := { image with ti := { image.ti with pixels := o.pixels } }
  let ev := [Event.transfer_process image.handle o.retval]
  if o.retval = IMAGE_PROCESS_ERROR then
    ⟨IMAGE_PROCESS_ERROR, (image1, o.width, o.height), r.2, ev⟩
  else
    ⟨o.retval,
      ({ image1 with ti := { image1.ti with width := o.width, height := o.height } },
        o.width, o.height), r.2, ev⟩

/-- `task_image_menu_generic` (lines 109-128). -/
def task_image_menu_generic (c : Codec σ) (image : nbio_image_handle) (w : σ) :
    Ret σ Int nbio_image_handle :=
  let p := task_image_process c image 0 0 w
  let retval := p.val
  if retval = IMAGE_PROCESS_ERROR ∨ retval = IMAGE_PROCESS_ERROR_END then
    ⟨-1, p.obj.1, p.world, p.calls⟩
  else
    ⟨0, { p.obj.1 with
        is_blocking_on_processing := decide (retval ≠ IMAGE_PROCESS_END)
        is_finished := decide (retval = IMAGE_PROCESS_END) }, p.world, p.calls⟩

/-- `cb_image_menu_thumbnail` (lines 130-141). -/
def cb_image_menu_thumbnail (c : Codec σ) (nbio : nbio_handle_t) (_len : Nat) (w : σ) :
    Ret σ Int nbio_handle_t :=
  match nbio.data with
  | none => ⟨-1, nbio, w, []⟩
  | some image =>
    let g := task_image_menu_generic c image w
    if g.val ≠ 0 then
      ⟨-1, { nbio with data := some g.obj }, g.world, g.calls⟩
    else
      ⟨0, { nbio with data := some { g.obj with cb := image_cb_t.cb_image_menu_upload_generic } },
        g.world, g.calls⟩

/-- The `for` loop of `task_image_iterate_process_transfer` (lines 153-159) with
`n` iterations left; `retval`, `width` and `height` are the function's locals. -/
def process_transfer_loop (c : Codec σ) :
    Nat → Int → nbio_image_handle → Nat → Nat → σ → Ret σ Int (nbio_image_handle × Nat × Nat)
  | 0, retval, image, width, height, w => ⟨retval, (image, width, height), w, []⟩
  | n + 1, _, image, width, height, w =>
    let p := task_image_process c image width height w
    if p.val ≠ IMAGE_PROCESS_NEXT then p
    else
      let q := process_transfer_loop c n p.val p.obj.1 p.obj.2.1 p.obj.2.2 p.world
      ⟨q.val, q.obj, q.world, p.calls ++ q.calls⟩

/-- `task_image_iterate_process_transfer` (lines 143-166), for a non-null `image`. -/
def task_image_iterate_process_transfer (c : Codec σ) (image : nbio_image_handle) (w : σ) :
    Ret σ Int nbio_image_handle :=
  let l := process_transfer_loop c image.processing_pos_increment 0 image 0 0 w
  if l.val = IMAGE_PROCESS_NEXT then
    ⟨0, l.obj.1, l.world, l.calls⟩
  else
    ⟨-1, { l.obj.1 with processing_final_state := l.val }, l.world, l.calls⟩

/-- The `for` loop of `task_image_iterate_transfer` (lines 178-182) with `n`
iterations left; the value is `true` when the loop ran to its end and `false`
when it left through `goto error`. -/
def transfer_loop (c : Codec σ) (handle : Nat) (type : image_type_enum) :
    Nat → σ → Ret σ Bool Unit
  | 0, w => ⟨true, (), w, []⟩
  | n + 1, w =>
    let r := c.image_transfer_iterate w handle type
    if r.1 = false then
      ⟨false, (), r.2, [Event.transfer_iterate handle false]⟩
    else
      let q := transfer_loop c handle type n r.2
      ⟨q.val, (), q.world, Event.transfer_iterate handle true :: q.calls⟩

/-- `task_image_iterate_transfer` (lines 168-188), for a non-null `image`. -/
def task_image_iterate_transfer (c : Codec σ) (image : nbio_image_handle) (w : σ) :
    Ret σ Int nbio_image_handle :=
  if image.is_finished then
    ⟨0, image, w, []⟩
  else
    let l := transfer_loop c image.handle image.type image.pos_increment w
    ⟨if l.val then 0 else -1, image, l.world, l.calls⟩

/-- `task_image_load_free_internal` (lines 190-196). -/
def task_image_load_free_internal (c : Codec σ) (image : nbio_image_handle) (w : σ) :
    Ret σ Unit nbio_image_handle :=
  ⟨(), { image with handle := 0, cb := image_cb_t.NULL },
    c.image_transfer_free w image.handle image.type, [Event.transfer_free image.handle]⟩

/-- The conversion `(unsigned)x` of a `size_t` value: reduction modulo `2^32`. -/
def to_unsigned (x : Nat) : Nat := x % 2 ^ 32

/-- `cb_nbio_generic` (lines 217-248).  `len` is the value of `*len` on entry;
`nbio_get_ptr` overwrites it with the byte count of the read cycle. -/
def cb_nbio_generic (c : Codec σ) (nbio : nbio_handle_t) (len : Nat) (w : σ) :
    Ret σ Int nbio_handle_t :=
  let g := c.nbio_get_ptr w nbio.handle len
  let ptr := g.1.1
  let len1 := g.1.2
  match nbio.data with
  | none => ⟨-1, { nbio with data := none }, g.2, [Event.get_ptr]⟩
  | some image =>
    if ptr = 0 ∨ image.handle = 0 then
      let f := task_image_load_free_internal c image g.2
      ⟨-1, { nbio with data := none }, f.world, Event.get_ptr :: f.calls ++ [Event.free_image]⟩
    else
      let w1 := c.image_transfer_set_buffer_ptr g.2 image.handle image.type ptr
      let image1 := { image with
        size := len1
        pos_increment := if len1 / 2 ≠ 0 then to_unsigned (len1 / 2) else 1
        processing_pos_increment := if len1 / 4 ≠ 0 then to_unsigned (len1 / 4) else 1 }
      let s := c.image_transfer_start w1 image1.handle image1.type
      let ev := [Event.get_ptr, Event.transfer_set_buffer_ptr image.handle ptr,
        Event.transfer_start image1.handle s.1]
      if s.1 = false then
        let f := task_image_load_free_internal c image1 s.2
        ⟨-1, { nbio with data := none }, f.world, ev ++ f.calls ++ [Event.free_image]⟩
      else
        ⟨0, { nbio with
            data := some { image1 with is_blocking := false, is_finished := false }
            is_finished := true }, s.2, ev⟩

/-- `cb_nbio_image_menu_thumbnail` (lines 250-273), for a non-null `nbio`. -/
def cb_nbio_image_menu_thumbnail (c : Codec σ) (nbio : nbio_handle_t) (len : Nat) (w : σ) :
    Ret σ Int nbio_handle_t :=
  match nbio.data with
  | none => ⟨-1, nbio, w, []⟩
  | some image =>
    let n := c.image_transfer_new w image.type
    let handle := n.1
    if handle = 0 then
      ⟨-1, nbio, n.2, [Event.transfer_new image.type 0]⟩
    else
      let image1 := { image with
        handle := handle
        size := len
        cb := image_cb_t.cb_image_menu_thumbnail }
      let g := cb_nbio_generic c { nbio with data := some image1 } len n.2
      ⟨g.val, g.obj, g.world, Event.transfer_new image.type handle :: g.calls⟩

/-- The indirect call `image->cb(nbio, len)` of `task_image_load_handler`, for a
non-null `image->cb`. -/
def call_image_cb (c : Codec σ) (cb : image_cb_t) (nbio : nbio_handle_t) (len : Nat) (w : σ) :
    Ret σ Int nbio_handle_t :=
  match cb with
  | image_cb_t.NULL => ⟨0, nbio, w, []⟩
  | image_cb_t.cb_image_menu_thumbnail =>
    let r := cb_image_menu_thumbnail c nbio len w
    ⟨r.val, r.obj, r.world, Event.call_cb cb :: r.calls⟩
  | image_cb_t.cb_image_menu_upload_generic =>
    let r := cb_image_menu_upload_generic c nbio len w
    ⟨r.val, r.obj, r.world, Event.call_cb cb :: r.calls⟩

/-- The guarded callback invocation that opens the `IMAGE_STATUS_TRANSFER_PARSE`
and `IMAGE_STATUS_PROCESS_TRANSFER_PARSE` cases (lines 289-293 and 303-307):
`if (image->handle && image->cb) image->cb(nbio, 0)`.  The object of the
result is `nbio` together with what the local pointer `image` points to. -/
def invoke_cb (c : Codec σ) (nbio : nbio_handle_t) (image : nbio_image_handle) (w : σ) :
    Ret σ Unit (nbio_handle_t × nbio_image_handle) :=
  if image.handle ≠ 0 ∧ image.cb ≠ image_cb_t.NULL then
    let r := call_image_cb c image.cb nbio 0 w
    ⟨(), (r.obj, r.obj.data.getD image), r.world, r.calls⟩
  else
    ⟨(), (nbio, image), w, []⟩

/-- The `switch (image->status)` of `task_image_load_handler` (lines 280-315), for
`nbio->data` pointing to `image`. -/
def task_image_load_switch (c : Codec σ) (nbio : nbio_handle_t) (image : nbio_image_handle)
    (w : σ) : Ret σ Unit nbio_handle_t :=
  match image.status with
  | IMAGE_STATUS_PROCESS_TRANSFER =>
    let r := task_image_iterate_process_transfer c image w
    let image1 :=
      if r.val = -1 then { r.obj with status := IMAGE_STATUS_PROCESS_TRANSFER_PARSE } else r.obj
    ⟨(), { nbio with data := some image1 }, r.world, r.calls⟩
  | IMAGE_STATUS_TRANSFER_PARSE =>
    let r := invoke_cb c nbio image w
    let image1 :=
      if r.obj.2.is_blocking_on_processing then
        { r.obj.2 with status := IMAGE_STATUS_PROCESS_TRANSFER }
      else r.obj.2
    ⟨(), { r.obj.1 with data := some image1 }, r.world, r.calls⟩
  | IMAGE_STATUS_TRANSFER =>
    if !image.is_blocking then
      let r := task_image_iterate_transfer c image w
      let image1 :=
        if r.val = -1 then { r.obj with status := IMAGE_STATUS_TRANSFER_PARSE } else r.obj
      ⟨(), { nbio with data := some image1 }, r.world, r.calls⟩
    else
      ⟨(), nbio, w, []⟩
  | IMAGE_STATUS_PROCESS_TRANSFER_PARSE =>
    let r := invoke_cb c nbio image w
    ⟨(), { r.obj.1 with data := some r.obj.2 }, r.world, r.calls⟩
  | IMAGE_STATUS_TRANSFER_PARSE_FREE => ⟨(), nbio, w, []⟩
  | IMAGE_STATUS_POLL => ⟨(), nbio, w, []⟩

/-- The first half of `task_image_load_handler` (lines 277-315): the state
switch, run only when `nbio->data` is non-null. -/
def task_image_load_handler_switch (c : Codec σ) (nbio : nbio_handle_t) (w : σ) :
    Ret σ Unit nbio_handle_t :=
  match nbio.data with
  | some image => task_image_load_switch c nbio image w
  | none => ⟨(), nbio, w, []⟩

/-- The condition of the completion check (lines 317-319), on the context as the
switch left it. -/
def completion_condition (nbio : nbio_handle_t) (cancelled : Bool) : Bool :=
  nbio.is_finished
    && (match nbio.data with
        | some image => image.is_finished
        | none => false)
    && !cancelled

/-- The value handed to `task_set_data` (lines 321-326): the `malloc`ed copy of
`image->ti`, or `NULL` when `malloc` fails. -/
def completion_data (malloc_ok : Bool) (nbio : nbio_handle_t) : Option texture_image :=
  match nbio.data with
  | some image => if malloc_ok then some image.ti else none
  | none => none

/-- `task_image_load_handler` (lines 275-332).  `malloc_ok` tells whether the
`malloc` of the completion check succeeds.  The result is `none` when
`task->state` is `NULL`, which the function dereferences unconditionally. -/
def task_image_load_handler (c : Codec σ) (malloc_ok : Bool) (task : retro_task_t) (w : σ) :
    Option (Ret σ Bool retro_task_t) :=
  match task.state with
  | none => none
  | some nbio =>
    let s := task_image_load_handler_switch c nbio w
    if completion_condition s.obj task.cancelled then
      some ⟨false, { task with state := some s.obj, data := some (completion_data malloc_ok s.obj) },
        s.world, s.calls⟩
    else
      some ⟨true, { task with state := some s.obj }, s.world, s.calls⟩

/-- `task_image_load_free` (lines 198-215).  The task keeps pointing at the
released `nbio`, whose last contents are returned; the releases are in the
calls. -/
def task_image_load_free (c : Codec σ) (task : Option retro_task_t) (w : σ) :
    Ret σ Unit (Option retro_task_t) :=
  match task with
  | none => ⟨(), none, w, []⟩
  | some t =>
    match t.state with
    | none => ⟨(), some t, w, []⟩
    | some nbio =>
      let f : Ret σ Unit (Option nbio_image_handle) :=
        match nbio.data with
        | some image =>
          let r := task_image_load_free_internal c image w
          ⟨(), some r.obj, r.world, r.calls ++ [Event.free_image]⟩
        | none => ⟨(), none, w, []⟩
      ⟨(), some { t with state := some { nbio with data := none, handle := 0 } }, f.world,
        f.calls ++ [Event.nbio_free nbio.handle, Event.free_nbio]⟩

/-! ## Format inference and initiation -/

/-- The C library's `strstr` on strings as character lists: the tail of
`haystack` that starts at the first occurrence of `needle`, `none` (for
`NULL`) when there is none. -/
def strstr : List Char → List Char → Option (List Char)
  | [], needle => if needle = [] then some [] else none
  | h :: t, needle => if needle.isPrefixOf (h :: t) then some (h :: t) else strstr t needle

/-- The extension identifiers that task_image.c passes to `file_path_str`. -/
inductive file_path_enum where
  | FILE_PATH_PNG_EXTENSION
  | FILE_PATH_JPEG_EXTENSION
  | FILE_PATH_JPG_EXTENSION
  | FILE_PATH_BMP_EXTENSION
  | FILE_PATH_TGA_EXTENSION
  deriving DecidableEq, Repr

open file_path_enum

/-- Modelled from the spec: `file_path_str` of file_path_special.h, which is not
among the sources, on the five extension identifiers; the recognised
suffixes are png, jpeg, jpg, bmp and tga, each with its leading dot. -/
def file_path_str : file_path_enum → List Char
  | FILE_PATH_PNG_EXTENSION => ['.', 'p', 'n', 'g']
  | FILE_PATH_JPEG_EXTENSION => ['.', 'j', 'p', 'e', 'g']
  | FILE_PATH_JPG_EXTENSION => ['.', 'j', 'p', 'g']
  | FILE_PATH_BMP_EXTENSION => ['.', 'b', 'm', 'p']
  | FILE_PATH_TGA_EXTENSION => ['.', 't', 'g', 'a']

/-- The format inference of `task_push_image_load` (lines 357-380): the values
left in `nbio->type` and `image->type`. -/
def infer_type (fullpath : List Char) : nbio_type_enum × image_type_enum :=
  if (strstr fullpath (file_path_str FILE_PATH_PNG_EXTENSION)).isSome then
    (NBIO_TYPE_PNG, IMAGE_TYPE_PNG)
  else if (strstr fullpath (file_path_str FILE_PATH_JPEG_EXTENSION)).isSome
      || (strstr fullpath (file_path_str FILE_PATH_JPG_EXTENSION)).isSome then
    (NBIO_TYPE_JPEG, IMAGE_TYPE_JPEG)
  else if (strstr fullpath (file_path_str FILE_PATH_BMP_EXTENSION)).isSome then
    (NBIO_TYPE_BMP, IMAGE_TYPE_BMP)
  else if (strstr fullpath (file_path_str FILE_PATH_TGA_EXTENSION)).isSome then
    (NBIO_TYPE_TGA, IMAGE_TYPE_TGA)
  else
    (NBIO_TYPE_NONE, IMAGE_TYPE_NONE)

/-- A `calloc`ed `struct nbio_image_handle`: every field zero. -/
def calloc_image : nbio_image_handle :=
  { type := IMAGE_TYPE_NONE
    ti := ⟨0, 0, 0, false⟩
    is_blocking := false
    is_blocking_on_processing := false
    is_finished := false
    cb := image_cb_t.NULL
    handle := 0
    size := 0
    processing_pos_increment := 0
    pos_increment := 0
    processing_final_state := 0
    status := IMAGE_STATUS_POLL }

/-- A `calloc`ed `nbio_handle_t`: every field zero. -/
def calloc_nbio : nbio_handle_t :=
  { type := NBIO_TYPE_NONE
    is_finished := false
    cb := nbio_cb_t.NULL
    data := none
    handle := 0
    status := nbio_status_enum.NBIO_STATUS_POLL
    supports_rgba_flag := false
    path := [] }

/-- A `calloc`ed `retro_task_t`: every field zero. -/
def calloc_task : retro_task_t :=
  { state := none
    cancelled := false
    data := none
    handler := task_handler_t.NULL
    cleanup := task_cleanup_t.NULL
    callback := 0
    user_data := 0 }

/-- What `task_push_image_load` depends on besides its arguments: whether each
of its three `calloc`s succeeds, what `video_driver_supports_rgba` answers,
and `sizeof(nbio->path)`. -/
structure push_env where
  task_ok : Bool
  nbio_ok : Bool
  image_ok : Bool
  supports_rgba : Bool
  path_size : Nat

/-- The C library's `strlcpy` into a buffer of `size` bytes: the stored string. -/
def strlcpy (src : List Char) (size : Nat) : List Char := src.take (size - 1)

/-- `task_push_image_load` (lines 334-411).  The object of the result is the
task handed to `task_queue_ctl(TASK_QUEUE_CTL_PUSH, t)`, `none` when nothing
was pushed. -/
def task_push_image_load (c : Codec σ) (e : push_env) (fullpath : List Char) (cb user_data : Nat)
    (w : σ) : Ret σ Bool (Option retro_task_t) :=
  if !e.task_ok then
    ⟨false, none, w, []⟩
  else
    let t := calloc_task
    if !e.nbio_ok then
      let f := task_image_load_free c (some t) w
      ⟨false, none, f.world, f.calls ++ [Event.free_task]⟩
    else
      let nbio0 := { calloc_nbio with
        path := strlcpy fullpath e.path_size
        supports_rgba_flag := e.supports_rgba }
      if !e.image_ok then
        let f := task_image_load_free c (some t) w
        ⟨false, none, f.world, f.calls ++ [Event.free_task, Event.free_nbio]⟩
      else
        let ty := infer_type fullpath
        let image := { calloc_image with type := ty.2, status := IMAGE_STATUS_TRANSFER }
        let nbio := { nbio0 with
          type := ty.1
          data := some image
          is_finished := false
          cb := nbio_cb_t.cb_nbio_image_menu_thumbnail
          status := nbio_status_enum.NBIO_STATUS_INIT }
        let t1 := { t with
          state := some nbio
          handler := task_handler_t.task_file_load_handler
          cleanup := task_cleanup_t.task_image_load_free
          callback := cb
          user_data := user_data }
        ⟨true, some t1, w, [Event.task_push]⟩

/-! ## Sequences of polls -/

/-- What the scheduler and the allocator contribute to one poll: the value
`task_get_cancelled` reports during it and whether its `malloc` succeeds. -/
structure poll_input where
  cancelled : Bool
  malloc_ok : Bool
  deriving DecidableEq, Repr

/-- The polls `task_image_load_handler` is called with one after the other, one
per element of the list; the value lists the return values, oldest first.
`none` when a poll dereferences a null `task->state`. -/
def run_polls (c : Codec σ) : List poll_input → retro_task_t → σ →
    Option (Ret σ (List Bool) retro_task_t)
  | [], task, w => some ⟨[], task, w, []⟩
  | i :: is, task, w =>
    match task_image_load_handler c i.malloc_ok { task with cancelled := i.cancelled } w with
    | none => none
    | some r =>
      match run_polls c is r.obj r.world with
      | none => none
      | some q => some ⟨r.val :: q.val, q.obj, q.world, r.calls ++ q.calls⟩

/-- The reader's indirect call `nbio->cb(nbio, len)` when a read cycle has
completed. -/
def call_nbio_cb (c : Codec σ) (nbio : nbio_handle_t) (len : Nat) (w : σ) :
    Ret σ Int nbio_handle_t :=
  match nbio.cb with
  | nbio_cb_t.NULL => ⟨0, nbio, w, []⟩
  | nbio_cb_t.cb_nbio_image_menu_thumbnail => cb_nbio_image_menu_thumbnail c nbio len w

/-- The reader reports a completed read cycle to the task: `nbio->cb(nbio, len)`
on the task's `nbio`.  `none` when the task has no `nbio`. -/
def task_io_completion (c : Codec σ) (task : retro_task_t) (len : Nat) (w : σ) :
    Option (Ret σ Int retro_task_t) :=
  match task.state with
  | none => none
  | some nbio =>
    let r := call_nbio_cb c nbio len w
    some ⟨r.val, { task with state := some r.obj }, r.world, r.calls⟩

end Functions

/-! ## Observations on tasks and call lists -/

/-- The image context a task owns, when it has one. -/
def task_image (task : retro_task_t) : Option nbio_image_handle :=
  match task.state with
  | some nbio => nbio.data
  | none => none

/-- The `image->status` of the context a task owns. -/
def task_status (task : retro_task_t) : Option image_status_enum :=
  (task_image task).map (fun image => image.status)

/-- Whether a call is one of `image_transfer_iterate`. -/
def Event.is_iterate : Event → Bool
  | Event.transfer_iterate _ _ => true
  | _ => false

/-- Whether a call is one of `image_transfer_process`. -/
def Event.is_process : Event → Bool
  | Event.transfer_process _ _ => true
  | _ => false

/-- Whether a call is an invocation of `image->cb`. -/
def Event.is_call_cb : Event → Bool
  | Event.call_cb _ => true
  | _ => false

/-- Whether a call is one of `image_transfer_process` that returned
`IMAGE_PROCESS_ERROR` or `IMAGE_PROCESS_ERROR_END`. -/
def Event.is_process_error : Event → Bool
  | Event.transfer_process _ retval =>
    decide (retval = IMAGE_PROCESS_ERROR ∨ retval = IMAGE_PROCESS_ERROR_END)
  | _ => false

/-- That the two type tags written by the format inference name the same format. -/
def same_format : nbio_type_enum → image_type_enum → Bool
  | NBIO_TYPE_NONE, IMAGE_TYPE_NONE => true
  | NBIO_TYPE_PNG, IMAGE_TYPE_PNG => true
  | NBIO_TYPE_JPEG, IMAGE_TYPE_JPEG => true
  | NBIO_TYPE_BMP, IMAGE_TYPE_BMP => true
  | NBIO_TYPE_TGA, IMAGE_TYPE_TGA => true
  | _, _ => false

/-! ## Concrete collaborators, for evaluating the code -/

/-- The external state of `script_codec`: the byte count the reader reports and
the results the codec still has to give, in order. -/
structure script where
  len : Nat
  iterate : List Bool
  process : List process_out
  deriving DecidableEq, Repr

/-- A codec that plays back a script: `image_transfer_iterate` and
`image_transfer_process` give the next scripted result; when the script is
used up the former returns `false` and the latter `IMAGE_PROCESS_ERROR`,
writing no output.  Creation and start succeed, the reader has a buffer of
`len` bytes. -/
def script_codec : Codec script where
  image_transfer_new := fun w _ => (1, w)
  image_transfer_set_buffer_ptr := fun w _ _ _ => w
  image_transfer_start := fun w _ _ => (true, w)
  image_transfer_iterate := fun w _ _ =>
    match w.iterate with
    | [] => (false, w)
    | b :: bs => (b, { w with iterate := bs })
  image_transfer_process := fun w _ _ pixels _ width height =>
    match w.process with
    | [] => (⟨IMAGE_PROCESS_ERROR, pixels, width, height⟩, w)
    | o :: os => (o, { w with process := os })
  image_transfer_free := fun w _ _ => w
  image_texture_set_color_shifts := fun w ti => ((0, 8, 16, 24), ti, w)
  image_texture_color_convert := fun w _ ti => (ti, w)
  nbio_get_ptr := fun w _ _ => ((1, w.len), w)

/-- An image context in the middle of a load, used to evaluate the handler:
handle `1`, step sizes 2 and 1. -/
def sample_image (status : image_status_enum) (cb : image_cb_t) (is_finished : Bool)
    (final_state : Int) : nbio_image_handle :=
  { type := IMAGE_TYPE_PNG
    ti := ⟨0, 0, 0, false⟩
    is_blocking := false
    is_blocking_on_processing := false
    is_finished := is_finished
    cb := cb
    handle := 1
    size := 4
    processing_pos_increment := 1
    pos_increment := 2
    processing_final_state := final_state
    status := status }

/-- A task owning `image`, with `nbio->is_finished` as given. -/
def sample_task (image : nbio_image_handle) (nbio_finished : Bool) : retro_task_t :=
  { calloc_task with
    state := some { calloc_nbio with data := some image, is_finished := nbio_finished } }

/-- A codec that counts down: the external state `(a, b)` holds the transfer
steps and the `IMAGE_PROCESS_NEXT` results still to come.
`image_transfer_iterate` returns `true` `a` times and then `false`;
`image_transfer_process` returns `IMAGE_PROCESS_NEXT` `b` times and then
`IMAGE_PROCESS_END`, reporting 640 by 480.  The reader has 4096 bytes. -/
def countdown_codec : Codec (Nat × Nat) where
  image_transfer_new := fun w _ => (1, w)
  image_transfer_set_buffer_ptr := fun w _ _ _ => w
  image_transfer_start := fun w _ _ => (true, w)
  image_transfer_iterate := fun w _ _ =>
    if w.1 = 0 then (false, w) else (true, (w.1 - 1, w.2))
  image_transfer_process := fun w _ _ pixels _ width height =>
    if w.2 = 0 then (⟨IMAGE_PROCESS_END, pixels, 640, 480⟩, w)
    else (⟨IMAGE_PROCESS_NEXT, pixels, width, height⟩, (w.1, w.2 - 1))
  image_transfer_free := fun w _ _ => w
  image_texture_set_color_shifts := fun w ti => ((0, 8, 16, 24), ti, w)
  image_texture_color_convert := fun w _ ti => (ti, w)
  nbio_get_ptr := fun w _ _ => ((1, 4096), w)

/-! ## Progress of a codec and the end of polling -/

/-- A codec's transfer side makes progress: a call of `image_transfer_iterate`
that returns `true` decreases the measure `mi` of the external state. -/
def transfer_progress {σ : Type} (c : Codec σ) (mi : σ → Nat) : Prop :=
  ∀ (w : σ) (handle : Nat) (type : image_type_enum),
    (c.image_transfer_iterate w handle type).1 = true →
      mi (c.image_transfer_iterate w handle type).2 < mi w

/-- A codec's decode side makes progress and ends well: a call of
`image_transfer_process` returns `IMAGE_PROCESS_END`, or returns
`IMAGE_PROCESS_NEXT` and decreases the measure `mp` of the external state. -/
def decode_progress {σ : Type} (c : Codec σ) (mp : σ → Nat) : Prop :=
  ∀ (w : σ) (handle : Nat) (type : image_type_enum) (pixels size width height : Nat),
    (c.image_transfer_process w handle type pixels size width height).1.retval
        = IMAGE_PROCESS_END ∨
      ((c.image_transfer_process w handle type pixels size width height).1.retval
          = IMAGE_PROCESS_NEXT ∧
        mp (c.image_transfer_process w handle type pixels size width height).2 < mp w)

/-- Polling an uncancelled task reaches a poll that returns `false`: the first
`n` polls return `true` and poll `n + 1` returns `false`. -/
def stops_polling {σ : Type} (c : Codec σ) (malloc_ok : Bool) (task : retro_task_t) (w : σ) : Prop :=
  ∃ n r, run_polls c (List.replicate (n + 1) ⟨false, malloc_ok⟩) task w = some r ∧
    r.val = List.replicate n true ++ [false]

/-! ## Runs of a task: polls and I/O-completion callbacks -/

/-- One operation on a queued task: a poll of `task_image_load_handler`, with
what `task_get_cancelled` reports and whether its `malloc` succeeds, or the
reader's I/O-completion callback `nbio->cb(nbio, len)`. -/
inductive task_op where
  | poll (cancelled malloc_ok : Bool)
  | io_completion (len : Nat)
  deriving DecidableEq, Repr

/-- What one operation returned: the poll's "keep polling" value or the
callback's status. -/
inductive op_result where
  | polled (keep_polling : Bool)
  | completed (retval : Int)
  deriving DecidableEq, Repr

/-- The operations of a list applied to a task one after the other; the value
lists what each returned, the calls are those of all of them, oldest first.
`none` when an operation dereferences a null `task->state`. -/
def run_ops {σ : Type} (c : Codec σ) : List task_op → retro_task_t → σ →
    Option (Ret σ (List op_result) retro_task_t)
  | [], task, w => some ⟨[], task, w, []⟩
  | task_op.poll cancelled malloc_ok :: ops, task, w =>
    match task_image_load_handler c malloc_ok { task with cancelled := cancelled } w with
    | none => none
    | some r =>
      match run_ops c ops r.obj r.world with
      | none => none
      | some q => some ⟨op_result.polled r.val :: q.val, q.obj, q.world, r.calls ++ q.calls⟩
  | task_op.io_completion len :: ops, task, w =>
    match task_io_completion c task len w with
    | none => none
    | some r =>
      match run_ops c ops r.obj r.world with
      | none => none
      | some q => some ⟨op_result.completed r.val :: q.val, q.obj, q.world, r.calls ++ q.calls⟩

/-- A codec that hands out fresh decode handles: the external state counts the
handles created so far and `image_transfer_new` returns the next number.  The
transfer ends at once, the first decode step returns `IMAGE_PROCESS_END`
reporting 640 by 480, and the reader has 4096 bytes. -/
def fresh_handle_codec : Codec Nat where
  image_transfer_new := fun w _ => (w + 1, w + 1)
  image_transfer_set_buffer_ptr := fun w _ _ _ => w
  image_transfer_start := fun w _ _ => (true, w)
  image_transfer_iterate := fun w _ _ => (false, w)
  image_transfer_process := fun w _ _ pixels _ _ _ => (⟨IMAGE_PROCESS_END, pixels, 640, 480⟩, w)
  image_transfer_free := fun w _ _ => w
  image_texture_set_color_shifts := fun w ti => ((0, 8, 16, 24), ti, w)
  image_texture_color_convert := fun w _ ti => (ti, w)
  nbio_get_ptr := fun w _ _ => ((1, 4096), w)

/-- A codec that reports the dimensions once: the external state counts the
decode steps made.  The first step returns `IMAGE_PROCESS_NEXT` and writes 640
by 480 to its outputs; the second returns `IMAGE_PROCESS_NEXT` and every later
one `IMAGE_PROCESS_END`, all leaving the outputs as they found them.  The
transfer ends at once and the reader has 4 bytes. -/
def report_once_codec : Codec Nat where
  image_transfer_new := fun w _ => (1, w)
  image_transfer_set_buffer_ptr := fun w _ _ _ => w
  image_transfer_start := fun w _ _ => (true, w)
  image_transfer_iterate := fun w _ _ => (false, w)
  image_transfer_process := fun w _ _ pixels _ width height =>
    if w = 0 then (⟨IMAGE_PROCESS_NEXT, pixels, 640, 480⟩, w + 1)
    else if w = 1 then (⟨IMAGE_PROCESS_NEXT, pixels, width, height⟩, w + 1)
    else (⟨IMAGE_PROCESS_END, pixels, width, height⟩, w + 1)
  image_transfer_free := fun w _ _ => w
  image_texture_set_color_shifts := fun w ti => ((0, 8, 16, 24), ti, w)
  image_texture_color_convert := fun w _ ti => (ti, w)
  nbio_get_ptr := fun w _ _ => ((1, 4), w)

/-- The task `task_push_image_load` pushes for `fullpath` when its three
allocations succeed; `calloc_task` when it pushes none. -/
def pushed_task {σ : Type} (c : Codec σ) (fullpath : List Char) (w : σ) : retro_task_t :=
  (task_push_image_load c ⟨true, true, true, false, 4096⟩ fullpath 0 0 w).obj.getD calloc_task

/-- The decode handle a codec call is made with: the handle argument of
`image_transfer_iterate` and `image_transfer_process`, `none` for every other
call. -/
def Event.codec_handle : Event → Option Nat
  | Event.transfer_iterate handle _ => some handle
  | Event.transfer_process handle _ => some handle
  | _ => none

/-- A context that has no decode handle is still as `task_push_image_load` made
it in the fields that steer a poll: status `TRANSFER`, a transfer budget of 0
and `is_finished` clear. -/
def fresh_without_handle (image : nbio_image_handle) : Prop :=
  image.handle = 0 →
    image.status = IMAGE_STATUS_TRANSFER ∧ image.pos_increment = 0 ∧ image.is_finished = false

/-- While the thumbnail callback is installed the context is not finished. -/
def thumbnail_unfinished (image : nbio_image_handle) : Prop :=
  image.cb = image_cb_t.cb_image_menu_thumbnail → image.is_finished = false

/-- A property of the image context that a task owns, if it owns one. -/
def task_image_all (J : nbio_image_handle → Prop) (task : retro_task_t) : Prop :=
  ∀ image, task_image task = some image → J image

/-- A pushed task no I/O-completion callback has succeeded on yet: it has its
`nbio` with the callback `cb_nbio_image_menu_thumbnail`, and its context, if
not released by a failed callback, has no decode handle, status `TRANSFER`, a
transfer budget of 0 and `is_finished` clear. -/
def awaiting_first_handle (task : retro_task_t) : Prop :=
  ∃ nbio, task.state = some nbio ∧ nbio.cb = nbio_cb_t.cb_nbio_image_menu_thumbnail ∧
    ∀ image, nbio.data = some image →
      image.handle = 0 ∧ image.status = IMAGE_STATUS_TRANSFER ∧ image.pos_increment = 0 ∧
        image.is_finished = false

/-! ## The dimensions a load delivers -/

/-- A codec reports the dimensions `W` by `H` when it ends a decode: every call
of `image_transfer_process` that returns neither `IMAGE_PROCESS_NEXT` nor an
error code (for a codec that returns only the four result codes: every call
that returns `IMAGE_PROCESS_END`) leaves `W` and `H` in its width and height
outputs. -/
def dimensions_on_end {σ : Type} (c : Codec σ) (W H : Nat) : Prop :=
  ∀ (w : σ) (handle : Nat) (type : image_type_enum) (pixels size width height : Nat),
    (c.image_transfer_process w handle type pixels size width height).1.retval
        ≠ IMAGE_PROCESS_NEXT →
    (c.image_transfer_process w handle type pixels size width height).1.retval
        ≠ IMAGE_PROCESS_ERROR →
    (c.image_transfer_process w handle type pixels size width height).1.retval
        ≠ IMAGE_PROCESS_ERROR_END →
    (c.image_transfer_process w handle type pixels size width height).1.width = W ∧
      (c.image_transfer_process w handle type pixels size width height).1.height = H

/-- The colour conversion of `cb_image_menu_upload_generic`
(`image_texture_set_color_shifts` followed by `image_texture_color_convert`,
both on `&image->ti`) leaves the width and the height of the descriptor as they
are. -/
def conversion_keeps_dimensions {σ : Type} (c : Codec σ) : Prop :=
  ∀ (w : σ) (ti : texture_image),
    (c.image_texture_color_convert (c.image_texture_set_color_shifts w ti).2.2
        (c.image_texture_set_color_shifts w ti).1
        (c.image_texture_set_color_shifts w ti).2.1).1.width = ti.width ∧
      (c.image_texture_color_convert (c.image_texture_set_color_shifts w ti).2.2
        (c.image_texture_set_color_shifts w ti).1
        (c.image_texture_set_color_shifts w ti).2.1).1.height = ti.height

/-- What holds of the context of a load between polls, from its successful
I/O-completion callback on, for a codec that reports `W` by `H`: a finished
context holds `W` by `H`; while the thumbnail callback is installed the context
is neither finished nor blocked on processing; and in each decode status the
installed callback and the flags are as the transitions leave them. -/
def delivery_invariant (W H : Nat) (image : nbio_image_handle) : Prop :=
  image.handle ≠ 0 ∧
  image.cb ≠ image_cb_t.NULL ∧
  (image.is_finished = true → image.ti.width = W ∧ image.ti.height = H) ∧
  (image.cb = image_cb_t.cb_image_menu_thumbnail →
    image.is_finished = false ∧ image.is_blocking_on_processing = false) ∧
  (image.status = IMAGE_STATUS_TRANSFER → image.cb = image_cb_t.cb_image_menu_thumbnail) ∧
  (image.status = IMAGE_STATUS_TRANSFER_PARSE →
    image.cb = image_cb_t.cb_image_menu_upload_generic →
    image.is_finished = true ∧ image.is_blocking_on_processing = false) ∧
  (image.status = IMAGE_STATUS_PROCESS_TRANSFER →
    image.cb = image_cb_t.cb_image_menu_upload_generic ∧ image.is_finished = false) ∧
  (image.status = IMAGE_STATUS_PROCESS_TRANSFER_PARSE →
    image.cb = image_cb_t.cb_image_menu_upload_generic ∧
    (image.is_finished = false →
      (image.processing_final_state = IMAGE_PROCESS_ERROR
          ∨ image.processing_final_state = IMAGE_PROCESS_ERROR_END)
        ∨ (image.ti.width = W ∧ image.ti.height = H)))

/-! ## Handles and contexts handed out and released -/

/-- Whether a call hands out a decode handle: a call of `image_transfer_new`
that returned a non-null handle. -/
def Event.is_new_handle : Event → Bool
  | Event.transfer_new _ handle => decide (handle ≠ 0)
  | _ => false

/-- Whether a call hands out a decode handle, passes one to
`image_transfer_free`, or frees the image context. -/
def Event.is_lifecycle : Event → Bool
  | Event.transfer_new _ handle => decide (handle ≠ 0)
  | Event.transfer_free _ => true
  | Event.free_image => true
  | _ => false

/-- What a task holds: `none` without an `nbio`, `some none` when `nbio->data` is
null, `some (some h)` when `nbio->data` points to a context whose decode handle
is `h`. -/
def held_handle (task : retro_task_t) : Option (Option Nat) :=
  task.state.map (fun nbio => nbio.data.map (fun image => image.handle))

/-- The calls made so far against what the task holds.  While the context is
alive nothing has been released, and if at most one handle was handed out the
context holds it.  Once the context is gone it has been freed exactly once,
and if at most one handle was handed out it has been passed to
`image_transfer_free` exactly once. -/
def cleanup_state (calls : List Event) : Option (Option Nat) → Prop
  | none => False
  | some none =>
    calls.count Event.free_image = 1 ∧
      (calls.countP Event.is_new_handle ≤ 1 →
        ∀ (type : image_type_enum) (h : Nat), h ≠ 0 → Event.transfer_new type h ∈ calls →
          calls.count (Event.transfer_free h) = 1)
  | some (some x) =>
    calls.count Event.free_image = 0 ∧
      (∀ h : Nat, calls.count (Event.transfer_free h) = 0) ∧
      (calls.countP Event.is_new_handle ≤ 1 →
        ∀ (type : image_type_enum) (h : Nat), h ≠ 0 → Event.transfer_new type h ∈ calls →
          h = x)

/-! ## Theorems -/

section Theorems

open file_path_enum

variable {σ : Type}

/-- The handler's result when the completion condition holds after the switch. -/
theorem handler_of_condition (c : Codec σ) (malloc_ok : Bool) (task : retro_task_t)
    (nbio : nbio_handle_t) (w : σ)
    (h : completion_condition (task_image_load_handler_switch c nbio w).obj task.cancelled
      = true) :
    task_image_load_handler c malloc_ok { task with state := some nbio } w =
      some ⟨false,
        { task with
          state := some (task_image_load_handler_switch c nbio w).obj
          data := some (completion_data malloc_ok (task_image_load_handler_switch c nbio w).obj) },
        (task_image_load_handler_switch c nbio w).world,
        (task_image_load_handler_switch c nbio w).calls⟩ := by
  simp only [task_image_load_handler, h, if_true]

/-- The handler's result when the completion condition fails after the switch. -/
theorem handler_of_not_condition (c : Codec σ) (malloc_ok : Bool) (task : retro_task_t)
    (nbio : nbio_handle_t) (w : σ)
    (h : completion_condition (task_image_load_handler_switch c nbio w).obj task.cancelled
      = false) :
    task_image_load_handler c malloc_ok { task with state := some nbio } w =
      some ⟨true, { task with state := some (task_image_load_handler_switch c nbio w).obj },
        (task_image_load_handler_switch c nbio w).world,
        (task_image_load_handler_switch c nbio w).calls⟩ := by
  simp [task_image_load_handler, h]

/-- The completion condition, spelled out. -/
theorem completion_condition_iff (nbio : nbio_handle_t) (cancelled : Bool) :
    completion_condition nbio cancelled = true ↔
      ∃ image, nbio.data = some image ∧ nbio.is_finished = true ∧
        image.is_finished = true ∧ cancelled = false := by
  unfold completion_condition
  cases hd : nbio.data with
  | none => simp
  | some image => simp; tauto

/-- C1. Completion check of `task_image_load_handler`: a poll returns `false`
exactly when, after the state switch, the image context exists,
`nbio->is_finished` and `image->is_finished` are true and the task is not
cancelled.  Then, when the allocation succeeds, the task data is a copy equal
to `image->ti`; in every other case the poll returns `true` and leaves the
task data as it was. -/
theorem task_image_load_handler_completion_check (c : Codec σ) (malloc_ok : Bool)
    (task : retro_task_t) (nbio : nbio_handle_t) (w : σ) :
    ∃ r, task_image_load_handler c malloc_ok { task with state := some nbio } w = some r ∧
      (r.val = false ↔
        ∃ image, (task_image_load_handler_switch c nbio w).obj.data = some image ∧
          (task_image_load_handler_switch c nbio w).obj.is_finished = true ∧
          image.is_finished = true ∧ task.cancelled = false) ∧
      (r.val = false → malloc_ok = true →
        ∃ image, (task_image_load_handler_switch c nbio w).obj.data = some image ∧
          r.obj.data = some (some image.ti)) ∧
      (r.val ≠ false → r.val = true ∧ r.obj.data = task.data) := by
  have hc := completion_condition_iff (task_image_load_handler_switch c nbio w).obj task.cancelled
  by_cases hcc : completion_condition (task_image_load_handler_switch c nbio w).obj
      task.cancelled = true
  · refine ⟨_, handler_of_condition c malloc_ok task nbio w hcc, ?_, ?_, ?_⟩
    · simp only [true_iff]
      exact hc.mp hcc
    · intro _ hm
      obtain ⟨image, hd, _⟩ := hc.mp hcc
      exact ⟨image, hd, by simp [completion_data, hd, hm]⟩
    · intro h
      exact absurd rfl h
  · have hcf : completion_condition (task_image_load_handler_switch c nbio w).obj
        task.cancelled = false := by simpa using hcc
    refine ⟨_, handler_of_not_condition c malloc_ok task nbio w hcf, ?_, ?_, ?_⟩
    · constructor
      · intro h
        cases h
      · intro h
        exact absurd (hc.mpr h) hcc
    · intro h
      cases h
    · intro _
      exact ⟨rfl, rfl⟩

/-- C1, at a concrete input: a context in status `PROCESS_TRANSFER_PARSE` whose
decode ended on `IMAGE_PROCESS_END` is polled uncancelled; the upload callback
finishes it, the poll returns `false` and the task data is a copy of
`image->ti`. -/
theorem task_image_load_handler_completion_check_witness :
    ∃ r, task_image_load_handler script_codec true
        (sample_task (sample_image IMAGE_STATUS_PROCESS_TRANSFER_PARSE
          image_cb_t.cb_image_menu_upload_generic false IMAGE_PROCESS_END) true)
        ⟨4, [], []⟩ = some r ∧
      r.val = false ∧ r.obj.data = some (some ⟨0, 0, 0, false⟩) := by
  obtain ⟨r, hr, hiff, hcopy, _⟩ := task_image_load_handler_completion_check script_codec true
    calloc_task
    { calloc_nbio with
      data := some (sample_image IMAGE_STATUS_PROCESS_TRANSFER_PARSE
        image_cb_t.cb_image_menu_upload_generic false IMAGE_PROCESS_END)
      is_finished := true }
    ⟨4, [], []⟩
  have hv : r.val = false := hiff.mpr ⟨_, rfl, rfl, rfl, rfl⟩
  obtain ⟨image, hd, hdata⟩ := hcopy hv rfl
  have hi : some image = some ({ sample_image IMAGE_STATUS_PROCESS_TRANSFER_PARSE
      image_cb_t.cb_image_menu_upload_generic true IMAGE_PROCESS_END with
      is_blocking := true } : nbio_image_handle) := hd.symm.trans rfl
  refine ⟨r, hr, hv, ?_⟩
  rw [hdata, Option.some.inj hi]
  rfl

/-! ### What the helpers leave untouched -/

/-- `task_image_process` writes nothing but `image->ti`. -/
theorem task_image_process_frame (c : Codec σ) (image : nbio_image_handle) (wd ht : Nat) (w : σ) :
    (task_image_process c image wd ht w).obj.1 =
      { image with ti := (task_image_process c image wd ht w).obj.1.ti } := by
  unfold task_image_process
  simp only
  split <;> rfl

/-- `task_image_process` makes exactly one codec call, and the event records the
codec's return value. -/
theorem task_image_process_calls (c : Codec σ) (image : nbio_image_handle) (wd ht : Nat) (w : σ) :
    (task_image_process c image wd ht w).calls =
      [Event.transfer_process image.handle (task_image_process c image wd ht w).val] := by
  unfold task_image_process
  simp only
  split
  · next h => simp [h]
  · rfl

/-- The decode loop writes nothing but `image->ti`. -/
theorem process_transfer_loop_frame (c : Codec σ) (n : Nat) (rv : Int) (image : nbio_image_handle)
    (wd ht : Nat) (w : σ) :
    (process_transfer_loop c n rv image wd ht w).obj.1 =
      { image with ti := (process_transfer_loop c n rv image wd ht w).obj.1.ti } := by
  induction n generalizing rv image wd ht w with
  | zero => rfl
  | succ n ih =>
    simp only [process_transfer_loop]
    split
    · exact task_image_process_frame c image wd ht w
    · simp only
      rw [ih]
      rw [task_image_process_frame c image wd ht w]

/-- The decode loop calls nothing but `image_transfer_process`, at most `n` times. -/
theorem process_transfer_loop_calls (c : Codec σ) (n : Nat) (rv : Int) (image : nbio_image_handle)
    (wd ht : Nat) (w : σ) :
    (process_transfer_loop c n rv image wd ht w).calls.length ≤ n ∧
      ∀ e ∈ (process_transfer_loop c n rv image wd ht w).calls,
        e.is_process = true ∧ e.is_iterate = false ∧ e.is_call_cb = false := by
  induction n generalizing rv image wd ht w with
  | zero => simp [process_transfer_loop]
  | succ n ih =>
    simp only [process_transfer_loop]
    split
    · rw [task_image_process_calls]
      simp [Event.is_process, Event.is_iterate, Event.is_call_cb]
    · simp only
      rw [task_image_process_calls]
      obtain ⟨h1, h2⟩ := ih (task_image_process c image wd ht w).val
        (task_image_process c image wd ht w).obj.1 (task_image_process c image wd ht w).obj.2.1
        (task_image_process c image wd ht w).obj.2.2 (task_image_process c image wd ht w).world
      refine ⟨by simp; omega, ?_⟩
      intro e he
      simp only [List.singleton_append, List.mem_cons] at he
      rcases he with he | he
      · subst he
        simp [Event.is_process, Event.is_iterate, Event.is_call_cb]
      · exact h2 e he

/-- `task_image_iterate_process_transfer` writes nothing but `image->ti` and
`image->processing_final_state`. -/
theorem task_image_iterate_process_transfer_frame (c : Codec σ) (image : nbio_image_handle)
    (w : σ) :
    (task_image_iterate_process_transfer c image w).obj =
      { image with
        ti := (task_image_iterate_process_transfer c image w).obj.ti
        processing_final_state :=
          (task_image_iterate_process_transfer c image w).obj.processing_final_state } := by
  unfold task_image_iterate_process_transfer
  simp only
  split
  · simp only
    rw [process_transfer_loop_frame]
  · simp only
    rw [process_transfer_loop_frame]

/-- `task_image_iterate_process_transfer` calls nothing but
`image_transfer_process`, at most `processing_pos_increment` times. -/
theorem task_image_iterate_process_transfer_calls (c : Codec σ) (image : nbio_image_handle)
    (w : σ) :
    (task_image_iterate_process_transfer c image w).calls.length
        ≤ image.processing_pos_increment ∧
      ∀ e ∈ (task_image_iterate_process_transfer c image w).calls,
        e.is_process = true ∧ e.is_iterate = false ∧ e.is_call_cb = false := by
  have h := process_transfer_loop_calls c image.processing_pos_increment 0 image 0 0 w
  unfold task_image_iterate_process_transfer
  simp only
  split <;> exact h

/-- The transfer loop calls nothing but `image_transfer_iterate`, at most `n` times. -/
theorem transfer_loop_calls (c : Codec σ) (handle : Nat) (type : image_type_enum) (n : Nat)
    (w : σ) :
    (transfer_loop c handle type n w).calls.length ≤ n ∧
      ∀ e ∈ (transfer_loop c handle type n w).calls,
        e.is_iterate = true ∧ e.is_process = false ∧ e.is_call_cb = false := by
  induction n generalizing w with
  | zero => simp [transfer_loop]
  | succ n ih =>
    simp only [transfer_loop]
    split
    · simp [Event.is_process, Event.is_iterate, Event.is_call_cb]
    · obtain ⟨h1, h2⟩ := ih (c.image_transfer_iterate w handle type).2
      refine ⟨by simp; omega, ?_⟩
      intro e he
      simp only [List.mem_cons] at he
      rcases he with he | he
      · subst he
        simp [Event.is_process, Event.is_iterate, Event.is_call_cb]
      · exact h2 e he

/-- `task_image_iterate_transfer` writes nothing to the image. -/
theorem task_image_iterate_transfer_frame (c : Codec σ) (image : nbio_image_handle) (w : σ) :
    (task_image_iterate_transfer c image w).obj = image := by
  unfold task_image_iterate_transfer
  split <;> rfl

/-- `task_image_iterate_transfer` calls nothing but `image_transfer_iterate`, at
most `pos_increment` times. -/
theorem task_image_iterate_transfer_calls (c : Codec σ) (image : nbio_image_handle) (w : σ) :
    (task_image_iterate_transfer c image w).calls.length ≤ image.pos_increment ∧
      ∀ e ∈ (task_image_iterate_transfer c image w).calls,
        e.is_iterate = true ∧ e.is_process = false ∧ e.is_call_cb = false := by
  unfold task_image_iterate_transfer
  split
  · simp
  · exact transfer_loop_calls c image.handle image.type image.pos_increment w

/-! ### The guarded callback invocation -/

/-- No callback runs when the handle or the callback is null. -/
theorem invoke_cb_skip (c : Codec σ) (nbio : nbio_handle_t) (image : nbio_image_handle) (w : σ)
    (h : image.handle = 0 ∨ image.cb = image_cb_t.NULL) :
    invoke_cb c nbio image w = ⟨(), (nbio, image), w, []⟩ := by
  unfold invoke_cb
  rw [if_neg]
  intro hh
  rcases h with h | h
  · exact hh.1 h
  · exact hh.2 h

/-- The invocation of `cb_image_menu_thumbnail`: one decode step; on
`IMAGE_PROCESS_ERROR` or `IMAGE_PROCESS_ERROR_END` only `image->ti` may have
changed, otherwise the flags are set from the result and the upload callback
is installed. -/
theorem invoke_cb_thumbnail (c : Codec σ) (nbio : nbio_handle_t) (image : nbio_image_handle)
    (w : σ) (hh : image.handle ≠ 0) (hcb : image.cb = image_cb_t.cb_image_menu_thumbnail) :
    invoke_cb c { nbio with data := some image } image w =
      if (task_image_process c image 0 0 w).val = IMAGE_PROCESS_ERROR
          ∨ (task_image_process c image 0 0 w).val = IMAGE_PROCESS_ERROR_END then
        ⟨(), ({ nbio with data := some (task_image_process c image 0 0 w).obj.1 },
            (task_image_process c image 0 0 w).obj.1),
          (task_image_process c image 0 0 w).world,
          [Event.call_cb image_cb_t.cb_image_menu_thumbnail,
            Event.transfer_process image.handle (task_image_process c image 0 0 w).val]⟩
      else
        ⟨(), ({ nbio with data := some { (task_image_process c image 0 0 w).obj.1 with
                is_blocking_on_processing :=
                  decide ((task_image_process c image 0 0 w).val ≠ IMAGE_PROCESS_END)
                is_finished := decide ((task_image_process c image 0 0 w).val = IMAGE_PROCESS_END)
                cb := image_cb_t.cb_image_menu_upload_generic } },
            { (task_image_process c image 0 0 w).obj.1 with
                is_blocking_on_processing :=
                  decide ((task_image_process c image 0 0 w).val ≠ IMAGE_PROCESS_END)
                is_finished := decide ((task_image_process c image 0 0 w).val = IMAGE_PROCESS_END)
                cb := image_cb_t.cb_image_menu_upload_generic }),
          (task_image_process c image 0 0 w).world,
          [Event.call_cb image_cb_t.cb_image_menu_thumbnail,
            Event.transfer_process image.handle (task_image_process c image 0 0 w).val]⟩ := by
  unfold invoke_cb
  rw [if_pos ⟨hh, by simp [hcb]⟩]
  simp only [hcb, call_image_cb, cb_image_menu_thumbnail, task_image_menu_generic]
  by_cases he : (task_image_process c image 0 0 w).val = IMAGE_PROCESS_ERROR
      ∨ (task_image_process c image 0 0 w).val = IMAGE_PROCESS_ERROR_END
  · simp [he, task_image_process_calls]
  · simp [he, task_image_process_calls]

/-- The invocation of `cb_image_menu_upload_generic` after a recorded decode
error: nothing changes. -/
theorem invoke_cb_upload_error (c : Codec σ) (nbio : nbio_handle_t) (image : nbio_image_handle)
    (w : σ) (hh : image.handle ≠ 0) (hcb : image.cb = image_cb_t.cb_image_menu_upload_generic)
    (he : image.processing_final_state = IMAGE_PROCESS_ERROR
      ∨ image.processing_final_state = IMAGE_PROCESS_ERROR_END) :
    invoke_cb c { nbio with data := some image } image w =
      ⟨(), ({ nbio with data := some image }, image), w,
        [Event.call_cb image_cb_t.cb_image_menu_upload_generic]⟩ := by
  unfold invoke_cb
  rw [if_pos ⟨hh, by simp [hcb]⟩]
  simp [hcb, call_image_cb, cb_image_menu_upload_generic, he]

/-- The invocation of `cb_image_menu_upload_generic` without a recorded decode
error: the colours are converted and the context is marked finished. -/
theorem invoke_cb_upload_ok (c : Codec σ) (nbio : nbio_handle_t) (image : nbio_image_handle)
    (w : σ) (hh : image.handle ≠ 0) (hcb : image.cb = image_cb_t.cb_image_menu_upload_generic)
    (he : ¬ (image.processing_final_state = IMAGE_PROCESS_ERROR
      ∨ image.processing_final_state = IMAGE_PROCESS_ERROR_END)) :
    ∃ ti w1, invoke_cb c { nbio with data := some image } image w =
      ⟨(), ({ nbio with
              data := some { image with
                ti := ti, is_blocking_on_processing := false, is_blocking := true,
                is_finished := true }
              is_finished := true },
            { image with
              ti := ti, is_blocking_on_processing := false, is_blocking := true,
              is_finished := true }), w1,
        [Event.call_cb image_cb_t.cb_image_menu_upload_generic, Event.color_convert]⟩ := by
  unfold invoke_cb
  rw [if_pos ⟨hh, by simp [hcb]⟩]
  simp only [hcb, call_image_cb, cb_image_menu_upload_generic, he, if_false]
  exact ⟨_, _, rfl⟩

/-- What every guarded callback invocation satisfies: `nbio->data` still points
to the image, the status is untouched, the calls are at most one callback
invocation with at most one decode step inside it, and a decode step that
reports an error leaves `image->is_finished` as it was. -/
theorem invoke_cb_summary (c : Codec σ) (nbio : nbio_handle_t) (image : nbio_image_handle)
    (w : σ) :
    (invoke_cb c { nbio with data := some image } image w).obj.1.data =
        some (invoke_cb c { nbio with data := some image } image w).obj.2 ∧
      (invoke_cb c { nbio with data := some image } image w).obj.2.status = image.status ∧
      ((invoke_cb c { nbio with data := some image } image w).calls = [] ∨
        ∃ cb rest, (invoke_cb c { nbio with data := some image } image w).calls
            = Event.call_cb cb :: rest ∧
          rest.countP Event.is_call_cb = 0 ∧ rest.countP Event.is_iterate = 0 ∧
          rest.countP Event.is_process ≤ 1) ∧
      ((∃ e ∈ (invoke_cb c { nbio with data := some image } image w).calls,
          e.is_process_error = true) →
        (invoke_cb c { nbio with data := some image } image w).obj.2.is_finished
          = image.is_finished) := by
  by_cases hh : image.handle = 0
  · rw [invoke_cb_skip c _ image w (Or.inl hh)]
    simp
  · cases hcb : image.cb with
    | NULL =>
      rw [invoke_cb_skip c _ image w (Or.inr hcb)]
      simp
    | cb_image_menu_thumbnail =>
      rw [invoke_cb_thumbnail c nbio image w hh hcb]
      by_cases he : (task_image_process c image 0 0 w).val = IMAGE_PROCESS_ERROR
          ∨ (task_image_process c image 0 0 w).val = IMAGE_PROCESS_ERROR_END
      · rw [if_pos he]
        refine ⟨rfl, ?_, ?_, ?_⟩
        · simp only
          rw [task_image_process_frame]
        · exact Or.inr ⟨_, _, rfl, by simp [Event.is_call_cb], by simp [Event.is_iterate],
            by simp [Event.is_process]⟩
        · intro _
          simp only
          rw [task_image_process_frame]
      · rw [if_neg he]
        refine ⟨rfl, ?_, ?_, ?_⟩
        · simp only
          rw [task_image_process_frame]
        · exact Or.inr ⟨_, _, rfl, by simp [Event.is_call_cb], by simp [Event.is_iterate],
            by simp [Event.is_process]⟩
        · intro hx
          exfalso
          simp only [List.mem_cons, List.mem_singleton, List.not_mem_nil, or_false,
            exists_eq_or_imp, exists_eq_left, Event.is_process_error, Bool.false_eq_true,
            false_or, decide_eq_true_eq] at hx
          exact he hx
    | cb_image_menu_upload_generic =>
      by_cases he : image.processing_final_state = IMAGE_PROCESS_ERROR
          ∨ image.processing_final_state = IMAGE_PROCESS_ERROR_END
      · rw [invoke_cb_upload_error c nbio image w hh hcb he]
        refine ⟨rfl, rfl, ?_, ?_⟩
        · exact Or.inr ⟨_, _, rfl, by simp, by simp, by simp⟩
        · simp [Event.is_process_error]
      · obtain ⟨ti, w1, h⟩ := invoke_cb_upload_ok c nbio image w hh hcb he
        rw [h]
        refine ⟨rfl, rfl, ?_, ?_⟩
        · exact Or.inr ⟨_, _, rfl, by simp [Event.is_call_cb], by simp [Event.is_iterate],
            by simp [Event.is_process]⟩
        · simp [Event.is_process_error]

/-! ### The state switch -/

/-- After the switch `nbio->data` still points to an image, whose status is not
below the one the poll started with. -/
theorem task_image_load_switch_status (c : Codec σ) (nbio : nbio_handle_t)
    (image : nbio_image_handle) (w : σ) :
    ∃ image1, (task_image_load_switch c { nbio with data := some image } image w).obj.data
        = some image1 ∧ image.status.toNat ≤ image1.status.toNat := by
  unfold task_image_load_switch
  cases hs : image.status <;> simp only
  · exact ⟨image, rfl, by simp [hs]⟩
  · split
    · refine ⟨_, rfl, ?_⟩
      rw [task_image_iterate_transfer_frame]
      split <;> simp [hs, image_status_enum.toNat]
    · exact ⟨image, rfl, by simp [hs]⟩
  · refine ⟨_, rfl, ?_⟩
    have h := (invoke_cb_summary c nbio image w).2.1
    split
    · simp [image_status_enum.toNat]
    · rw [h, hs]
  · refine ⟨_, rfl, ?_⟩
    split
    · simp [image_status_enum.toNat]
    · rw [task_image_iterate_process_transfer_frame]
      simp [hs]
  · refine ⟨_, rfl, ?_⟩
    have h := (invoke_cb_summary c nbio image w).2.1
    rw [h, hs]
  · exact ⟨image, rfl, by simp [hs]⟩

/-- The calls of one switch: at most `pos_increment` transfer steps, at most
`max processing_pos_increment 1` decode steps, at most one callback invocation;
transfer steps exclude everything else; a callback invocation comes first and
holds at most one decode step; without a callback invocation the decode steps
are a burst of at most `processing_pos_increment`. -/
theorem task_image_load_switch_calls (c : Codec σ) (nbio : nbio_handle_t)
    (image : nbio_image_handle) (w : σ) :
    let calls := (task_image_load_switch c { nbio with data := some image } image w).calls
    calls.countP Event.is_iterate ≤ image.pos_increment ∧
      calls.countP Event.is_process ≤ max image.processing_pos_increment 1 ∧
      calls.countP Event.is_call_cb ≤ 1 ∧
      (0 < calls.countP Event.is_iterate →
        calls.countP Event.is_process = 0 ∧ calls.countP Event.is_call_cb = 0) ∧
      (0 < calls.countP Event.is_call_cb →
        calls.countP Event.is_iterate = 0 ∧ calls.countP Event.is_process ≤ 1 ∧
          ∃ cb rest, calls = Event.call_cb cb :: rest) ∧
      (calls.countP Event.is_call_cb = 0 →
        calls.countP Event.is_process ≤ image.processing_pos_increment) := by
  have key_cb : ∀ calls : List Event,
      (calls = [] ∨ ∃ cb rest, calls = Event.call_cb cb :: rest ∧
          rest.countP Event.is_call_cb = 0 ∧ rest.countP Event.is_iterate = 0 ∧
          rest.countP Event.is_process ≤ 1) →
      calls.countP Event.is_iterate ≤ image.pos_increment ∧
      calls.countP Event.is_process ≤ max image.processing_pos_increment 1 ∧
      calls.countP Event.is_call_cb ≤ 1 ∧
      (0 < calls.countP Event.is_iterate →
        calls.countP Event.is_process = 0 ∧ calls.countP Event.is_call_cb = 0) ∧
      (0 < calls.countP Event.is_call_cb →
        calls.countP Event.is_iterate = 0 ∧ calls.countP Event.is_process ≤ 1 ∧
          ∃ cb rest, calls = Event.call_cb cb :: rest) ∧
      (calls.countP Event.is_call_cb = 0 →
        calls.countP Event.is_process ≤ image.processing_pos_increment) := by
    intro calls h
    rcases h with h | ⟨cb, rest, h, h1, h2, h3⟩
    · subst h
      simp
    · subst h
      simp only [List.countP_cons, Event.is_iterate, Event.is_process, Event.is_call_cb, h1, h2]
      simp
      omega
  have key_nil : ∀ calls : List Event, calls = [] →
      calls.countP Event.is_iterate ≤ image.pos_increment ∧
      calls.countP Event.is_process ≤ max image.processing_pos_increment 1 ∧
      calls.countP Event.is_call_cb ≤ 1 ∧
      (0 < calls.countP Event.is_iterate →
        calls.countP Event.is_process = 0 ∧ calls.countP Event.is_call_cb = 0) ∧
      (0 < calls.countP Event.is_call_cb →
        calls.countP Event.is_iterate = 0 ∧ calls.countP Event.is_process ≤ 1 ∧
          ∃ cb rest, calls = Event.call_cb cb :: rest) ∧
      (calls.countP Event.is_call_cb = 0 →
        calls.countP Event.is_process ≤ image.processing_pos_increment) :=
    fun calls h => key_cb calls (Or.inl h)
  intro calls
  have hcalls : calls = (task_image_load_switch c { nbio with data := some image } image w).calls :=
    rfl
  clear_value calls
  unfold task_image_load_switch at hcalls
  cases hs : image.status <;> simp only [hs] at hcalls
  · exact key_nil calls hcalls
  · split at hcalls
    · obtain ⟨h1, h2⟩ := task_image_iterate_transfer_calls c image w
      rw [← hcalls] at h1 h2
      have hi : calls.countP Event.is_iterate ≤ image.pos_increment :=
        le_trans (List.countP_le_length _) h1
      have hp : calls.countP Event.is_process = 0 := by
        rw [List.countP_eq_zero]
        intro e he
        simp [(h2 e he).2.1]
      have hc : calls.countP Event.is_call_cb = 0 := by
        rw [List.countP_eq_zero]
        intro e he
        simp [(h2 e he).2.2]
      rw [hp, hc]
      simp [hi]
    · exact key_nil calls hcalls
  · exact key_cb calls (hcalls ▸ (invoke_cb_summary c nbio image w).2.2.1)
  · obtain ⟨h1, h2⟩ := task_image_iterate_process_transfer_calls c image w
    rw [← hcalls] at h1 h2
    have hp : calls.countP Event.is_process ≤ image.processing_pos_increment :=
      le_trans (List.countP_le_length _) h1
    have hi : calls.countP Event.is_iterate = 0 := by
      rw [List.countP_eq_zero]
      intro e he
      simp [(h2 e he).2.1]
    have hc : calls.countP Event.is_call_cb = 0 := by
      rw [List.countP_eq_zero]
      intro e he
      simp [(h2 e he).2.2]
    rw [hi, hc]
    simp
    omega
  · exact key_cb calls (hcalls ▸ (invoke_cb_summary c nbio image w).2.2.1)
  · exact key_nil calls hcalls

/-- A switch that starts unfinished and in which a decode step reports an error
ends unfinished. -/
theorem task_image_load_switch_error (c : Codec σ) (nbio : nbio_handle_t)
    (image : nbio_image_handle) (w : σ) (hf : image.is_finished = false)
    (he : ∃ e ∈ (task_image_load_switch c { nbio with data := some image } image w).calls,
      e.is_process_error = true) :
    ∃ image1, (task_image_load_switch c { nbio with data := some image } image w).obj.data
        = some image1 ∧ image1.is_finished = false := by
  unfold task_image_load_switch at he ⊢
  cases hs : image.status <;> simp only [hs] at he ⊢
  · exact ⟨image, rfl, hf⟩
  · split
    · refine ⟨_, rfl, ?_⟩
      rw [task_image_iterate_transfer_frame]
      split <;> simp [hf]
    · exact ⟨image, rfl, hf⟩
  · refine ⟨_, rfl, ?_⟩
    have h := (invoke_cb_summary c nbio image w).2.2.2 he
    split <;> simp [h, hf]
  · refine ⟨_, rfl, ?_⟩
    split
    · rw [task_image_iterate_process_transfer_frame]
      simp [hf]
    · rw [task_image_iterate_process_transfer_frame]
      simp [hf]
  · refine ⟨_, rfl, ?_⟩
    have h := (invoke_cb_summary c nbio image w).2.2.2 he
    simp [h, hf]
  · exact ⟨image, rfl, hf⟩

/-! ### One poll and sequences of polls -/

/-- One poll of a task that owns an image context: the handler returns, its
calls and its context are those of the switch, and it returns `false` exactly
when the completion condition holds. -/
theorem handler_step (c : Codec σ) (malloc_ok : Bool) (task : retro_task_t)
    (nbio : nbio_handle_t) (image : nbio_image_handle) (w : σ)
    (hs : task.state = some nbio) (hd : nbio.data = some image) :
    ∃ r, task_image_load_handler c malloc_ok task w = some r ∧
      r.calls = (task_image_load_switch c { nbio with data := some image } image w).calls ∧
      r.world = (task_image_load_switch c { nbio with data := some image } image w).world ∧
      r.obj.state = some (task_image_load_switch c { nbio with data := some image } image w).obj ∧
      r.obj.cancelled = task.cancelled ∧
      r.val = !completion_condition
        (task_image_load_switch c { nbio with data := some image } image w).obj task.cancelled ∧
      (r.val = true → r.obj.data = task.data) := by
  have hn : nbio = { nbio with data := some image } := by
    cases nbio
    simp only at hd
    subst hd
    rfl
  have ht : task = { task with state := some { nbio with data := some image } } := by
    cases task
    simp only at hs
    subst hs
    rw [← hn]
  have hsw : task_image_load_handler_switch c { nbio with data := some image } w =
      task_image_load_switch c { nbio with data := some image } image w := rfl
  by_cases hcc : completion_condition
      (task_image_load_switch c { nbio with data := some image } image w).obj task.cancelled = true
  · have h := handler_of_condition c malloc_ok task { nbio with data := some image } w
      (by rw [hsw]; exact hcc)
    rw [← ht, hsw] at h
    exact ⟨_, h, rfl, rfl, rfl, rfl, by simp [hcc], by simp⟩
  · have hcf : completion_condition
        (task_image_load_switch c { nbio with data := some image } image w).obj task.cancelled
          = false := by simpa using hcc
    have h := handler_of_not_condition c malloc_ok task { nbio with data := some image } w
      (by rw [hsw]; exact hcf)
    rw [← ht, hsw] at h
    exact ⟨_, h, rfl, rfl, rfl, rfl, by simp [hcf], by simp⟩

/-- A sequence of polls, unfolded at its first poll. -/
theorem run_polls_cons (c : Codec σ) (i : poll_input) (is : List poll_input)
    (task : retro_task_t) (w : σ) (r : Ret σ Bool retro_task_t)
    (h : task_image_load_handler c i.malloc_ok { task with cancelled := i.cancelled } w = some r) :
    run_polls c (i :: is) task w =
      (run_polls c is r.obj r.world).map
        (fun q => ⟨r.val :: q.val, q.obj, q.world, r.calls ++ q.calls⟩) := by
  simp only [run_polls, h]
  cases run_polls c is r.obj r.world <;> rfl

/-- A sequence of polls on a task that owns an image context runs to its end,
the task still owns an image context, and the status has not decreased. -/
theorem run_polls_status (c : Codec σ) (is : List poll_input) (task : retro_task_t)
    (image : nbio_image_handle) (w : σ) (h : task_image task = some image) :
    ∃ r image1, run_polls c is task w = some r ∧ task_image r.obj = some image1 ∧
      image.status.toNat ≤ image1.status.toNat ∧ r.val.length = is.length := by
  induction is generalizing task image w with
  | nil => exact ⟨_, image, rfl, h, le_refl _, rfl⟩
  | cons i is ih =>
    unfold task_image at h
    cases hst : task.state with
    | none => simp [hst] at h
    | some nbio =>
      simp only [hst] at h
      obtain ⟨r, hr, _, _, hstate, _, _, _⟩ := handler_step c i.malloc_ok
        { task with cancelled := i.cancelled } nbio image w hst h
      obtain ⟨image1, hi1, hle1⟩ := task_image_load_switch_status c nbio image w
      have hti : task_image r.obj = some image1 := by
        unfold task_image
        rw [hstate]
        exact hi1
      obtain ⟨q, image2, hq, hi2, hle2, hlen⟩ := ih r.obj image1 r.world hti
      refine ⟨⟨r.val :: q.val, q.obj, q.world, r.calls ++ q.calls⟩, image2, ?_, ?_, ?_, ?_⟩
      · rw [run_polls_cons c i is task w r hr, hq]
        rfl
      · exact hi2
      · exact le_trans hle1 hle2
      · simp [hlen]

/-- A sequence of polls splits at any point. -/
theorem run_polls_append (c : Codec σ) (xs ys : List poll_input) (task : retro_task_t) (w : σ)
    (r1 : Ret σ (List Bool) retro_task_t) (h1 : run_polls c xs task w = some r1) :
    run_polls c (xs ++ ys) task w =
      (run_polls c ys r1.obj r1.world).map
        (fun q => ⟨r1.val ++ q.val, q.obj, q.world, r1.calls ++ q.calls⟩) := by
  induction xs generalizing task w r1 with
  | nil =>
    simp only [run_polls, Option.some.injEq] at h1
    subst h1
    simp only [List.nil_append]
    cases run_polls c ys task w <;> rfl
  | cons i is ih =>
    cases hh : task_image_load_handler c i.malloc_ok { task with cancelled := i.cancelled } w with
    | none => simp [run_polls, hh] at h1
    | some r =>
      rw [run_polls_cons c i is task w r hh] at h1
      cases hq : run_polls c is r.obj r.world with
      | none => simp [hq] at h1
      | some q =>
        simp only [hq, Option.map_some', Option.some.injEq] at h1
        subst h1
        rw [List.cons_append, run_polls_cons c i (is ++ ys) task w r hh, ih r.obj r.world q hq]
        cases run_polls c ys q.obj q.world <;> simp

/-- C2. Cancellation suppresses delivery: whatever the context and the codec, a
poll whose completion check sees the cancellation flag set returns `true` and
leaves the task data as it was; and over any sequence of polls that all see
the flag set, every poll returns `true` and no task data is ever set. -/
theorem cancellation_suppresses_delivery (c : Codec σ) :
    (∀ (malloc_ok : Bool) (task : retro_task_t) (nbio : nbio_handle_t) (w : σ),
      ∃ r, task_image_load_handler c malloc_ok
          { task with state := some nbio, cancelled := true } w = some r ∧
        r.val = true ∧ r.obj.data = task.data) ∧
    (∀ (inputs : List poll_input) (task : retro_task_t) (nbio : nbio_handle_t) (w : σ),
      (∀ i ∈ inputs, i.cancelled = true) →
      ∃ r, run_polls c inputs { task with state := some nbio } w = some r ∧
        r.val = List.replicate inputs.length true ∧ r.obj.data = task.data) := by
  have one : ∀ (malloc_ok : Bool) (task : retro_task_t) (nbio : nbio_handle_t) (w : σ),
      task_image_load_handler c malloc_ok
          { task with state := some nbio, cancelled := true } w =
        some ⟨true, { task with
            state := some (task_image_load_handler_switch c nbio w).obj, cancelled := true },
          (task_image_load_handler_switch c nbio w).world,
          (task_image_load_handler_switch c nbio w).calls⟩ := by
    intro malloc_ok task nbio w
    exact handler_of_not_condition c malloc_ok { task with cancelled := true } nbio w
      (by simp [completion_condition])
  refine ⟨fun malloc_ok task nbio w => ⟨_, one malloc_ok task nbio w, rfl, rfl⟩, ?_⟩
  intro inputs
  induction inputs with
  | nil =>
    intro task nbio w _
    exact ⟨_, rfl, rfl, rfl⟩
  | cons i is ih =>
    intro task nbio w hall
    have hi : i.cancelled = true := hall i (List.mem_cons_self _ _)
    have h1 : task_image_load_handler c i.malloc_ok
        { ({ task with state := some nbio } : retro_task_t) with cancelled := i.cancelled } w =
        some ⟨true, { task with
            state := some (task_image_load_handler_switch c nbio w).obj, cancelled := true },
          (task_image_load_handler_switch c nbio w).world,
          (task_image_load_handler_switch c nbio w).calls⟩ := by
      rw [hi]
      exact one i.malloc_ok task nbio w
    obtain ⟨q, hq, hv, hdata⟩ := ih { task with cancelled := true }
      (task_image_load_handler_switch c nbio w).obj
      (task_image_load_handler_switch c nbio w).world
      (fun j hj => hall j (List.mem_cons_of_mem _ hj))
    refine ⟨⟨true :: q.val, q.obj, q.world,
      (task_image_load_handler_switch c nbio w).calls ++ q.calls⟩, ?_, ?_, ?_⟩
    · rw [run_polls_cons c i is _ w _ h1]
      simp only
      rw [hq]
      rfl
    · simp [hv, List.replicate_succ]
    · exact hdata

/-- C2, at a concrete input: a context whose decode has finished successfully
(`is_finished` and `nbio->is_finished` both set) is polled twice while
cancelled; both polls return `true` and no task data is set. -/
theorem cancellation_suppresses_delivery_witness :
    ∃ r, run_polls script_codec [⟨true, true⟩, ⟨true, true⟩]
        (sample_task (sample_image IMAGE_STATUS_PROCESS_TRANSFER_PARSE
          image_cb_t.cb_image_menu_upload_generic true IMAGE_PROCESS_END) true)
        ⟨4, [], []⟩ = some r ∧
      r.val = List.replicate 2 true ∧ r.obj.data = none :=
  (cancellation_suppresses_delivery script_codec).2 [⟨true, true⟩, ⟨true, true⟩] calloc_task
    { calloc_nbio with
      data := some (sample_image IMAGE_STATUS_PROCESS_TRANSFER_PARSE
        image_cb_t.cb_image_menu_upload_generic true IMAGE_PROCESS_END)
      is_finished := true }
    ⟨4, [], []⟩ (by decide)

/-- C3. A codec decode error prevents a successful hand-off.  First, a poll that
starts with `image->is_finished` false and in which a call of
`image_transfer_process` returns `IMAGE_PROCESS_ERROR` or
`IMAGE_PROCESS_ERROR_END` leaves `is_finished` false, returns `true` and sets no
task data.  Second, from a context in status `PROCESS_TRANSFER_PARSE` with the
upload callback installed, `processing_final_state` holding one of the two
error codes and `is_finished` false, every poll of every sequence of polls
returns `true`, leaves the context as it is and sets no task data. -/
theorem decode_error_prevents_handoff (c : Codec σ) :
    (∀ (malloc_ok : Bool) (task : retro_task_t) (nbio : nbio_handle_t)
        (image : nbio_image_handle) (w : σ),
      image.is_finished = false →
      ∃ r, task_image_load_handler c malloc_ok
          { task with state := some { nbio with data := some image } } w = some r ∧
        ((∃ e ∈ r.calls, e.is_process_error = true) →
          r.val = true ∧ r.obj.data = task.data ∧
          ∃ image1, task_image r.obj = some image1 ∧ image1.is_finished = false)) ∧
    (∀ (inputs : List poll_input) (task : retro_task_t) (nbio : nbio_handle_t)
        (image : nbio_image_handle) (w : σ),
      image.status = IMAGE_STATUS_PROCESS_TRANSFER_PARSE →
      image.cb = image_cb_t.cb_image_menu_upload_generic →
      (image.processing_final_state = IMAGE_PROCESS_ERROR
        ∨ image.processing_final_state = IMAGE_PROCESS_ERROR_END) →
      image.is_finished = false →
      ∃ r, run_polls c inputs { task with state := some { nbio with data := some image } } w
          = some r ∧
        r.val = List.replicate inputs.length true ∧ r.obj.data = task.data ∧
        task_image r.obj = some image ∧ r.world = w) := by
  constructor
  · intro malloc_ok task nbio image w hf
    obtain ⟨r, hr, hcalls, _, hstate, _, hval, hdata⟩ := handler_step c malloc_ok
      { task with state := some { nbio with data := some image } }
      { nbio with data := some image } image w rfl rfl
    refine ⟨r, hr, ?_⟩
    intro he
    rw [hcalls] at he
    obtain ⟨image1, hd1, hf1⟩ := task_image_load_switch_error c nbio image w hf he
    have hcc : completion_condition
        (task_image_load_switch c { nbio with data := some image } image w).obj task.cancelled
          = false := by
      simp [completion_condition, hd1, hf1]
    have hv : r.val = true := by
      rw [hval]
      simp only [Bool.not_eq_eq_eq_not, Bool.not_true]
      exact hcc
    refine ⟨hv, hdata hv, image1, ?_, hf1⟩
    unfold task_image
    rw [hstate]
    exact hd1
  · intro inputs
    induction inputs with
    | nil =>
      intro task nbio image w _ _ _ _
      exact ⟨_, rfl, rfl, rfl, rfl, rfl⟩
    | cons i is ih =>
      intro task nbio image w hs hcb he hf
      have hsw : (task_image_load_switch c { nbio with data := some image } image w).obj
            = { nbio with data := some image } ∧
          (task_image_load_switch c { nbio with data := some image } image w).world = w := by
        unfold task_image_load_switch
        simp only [hs]
        by_cases hh : image.handle = 0
        · rw [invoke_cb_skip c _ image w (Or.inl hh)]
          exact ⟨rfl, rfl⟩
        · rw [invoke_cb_upload_error c nbio image w hh hcb he]
          exact ⟨rfl, rfl⟩
      obtain ⟨r, hr, _, hworld, hstate, _, hval, hdata⟩ := handler_step c i.malloc_ok
        { task with state := some { nbio with data := some image }, cancelled := i.cancelled }
        { nbio with data := some image } image w rfl rfl
      rw [hsw.1] at hstate hval
      rw [hsw.2] at hworld
      have hv : r.val = true := by
        rw [hval]
        simp [completion_condition, hf]
      have hobj : r.obj = { r.obj with state := some { nbio with data := some image } } := by
        cases hro : r.obj
        rw [hro] at hstate
        simp only at hstate
        subst hstate
        rfl
      obtain ⟨q, hq, hqv, hqd, hqi, hqw⟩ := ih r.obj nbio image w hs hcb he hf
      rw [← hobj, ← hworld] at hq
      refine ⟨⟨r.val :: q.val, q.obj, q.world, r.calls ++ q.calls⟩, ?_, ?_, ?_, hqi, hqw⟩
      · rw [run_polls_cons c i is _ w r hr, hq]
        rfl
      · simp [hv, hqv, List.replicate_succ]
      · rw [hqd]
        exact hdata hv

/-- C3, at concrete inputs: a decode burst whose single step returns
`IMAGE_PROCESS_ERROR_END` leaves the context unfinished and returns `true`; and
three polls after the error was recorded all return `true`. -/
theorem decode_error_prevents_handoff_witness :
    (∃ r, task_image_load_handler script_codec true
        (sample_task (sample_image IMAGE_STATUS_PROCESS_TRANSFER
          image_cb_t.cb_image_menu_upload_generic false 0) true)
        ⟨4, [], [⟨IMAGE_PROCESS_ERROR_END, 5, 10, 20⟩]⟩ = some r ∧
      (∃ e ∈ r.calls, e.is_process_error = true) ∧
      r.val = true ∧ r.obj.data = none ∧
      ∃ image1, task_image r.obj = some image1 ∧ image1.is_finished = false) ∧
    (∃ r, run_polls script_codec [⟨false, true⟩, ⟨false, true⟩, ⟨false, true⟩]
        (sample_task (sample_image IMAGE_STATUS_PROCESS_TRANSFER_PARSE
          image_cb_t.cb_image_menu_upload_generic false IMAGE_PROCESS_ERROR_END) true)
        ⟨4, [], []⟩ = some r ∧
      r.val = List.replicate 3 true ∧ r.obj.data = none ∧
      task_image r.obj = some (sample_image IMAGE_STATUS_PROCESS_TRANSFER_PARSE
          image_cb_t.cb_image_menu_upload_generic false IMAGE_PROCESS_ERROR_END) ∧
      r.world = ⟨4, [], []⟩) := by
  constructor
  · obtain ⟨r, hr, h⟩ := (decode_error_prevents_handoff script_codec).1 true calloc_task
      { calloc_nbio with is_finished := true }
      (sample_image IMAGE_STATUS_PROCESS_TRANSFER image_cb_t.cb_image_menu_upload_generic false 0)
      ⟨4, [], [⟨IMAGE_PROCESS_ERROR_END, 5, 10, 20⟩]⟩ rfl
    have hc : r.calls = [Event.transfer_process 1 IMAGE_PROCESS_ERROR_END] := by
      have h2 : (task_image_load_handler script_codec true
          (sample_task (sample_image IMAGE_STATUS_PROCESS_TRANSFER
            image_cb_t.cb_image_menu_upload_generic false 0) true)
          ⟨4, [], [⟨IMAGE_PROCESS_ERROR_END, 5, 10, 20⟩]⟩).map (fun r => r.calls)
          = some [Event.transfer_process 1 IMAGE_PROCESS_ERROR_END] := by decide
      have h3 := congrArg (Option.map (fun r => r.calls)) hr
      rw [show sample_task (sample_image IMAGE_STATUS_PROCESS_TRANSFER
            image_cb_t.cb_image_menu_upload_generic false 0) true =
          ({ calloc_task with state := some { ({ calloc_nbio with is_finished := true } :
            nbio_handle_t) with
            data := some (sample_image IMAGE_STATUS_PROCESS_TRANSFER
              image_cb_t.cb_image_menu_upload_generic false 0) } } : retro_task_t) from rfl] at h2
      rw [h2] at h3
      simpa using h3.symm
    have he : ∃ e ∈ r.calls, e.is_process_error = true :=
      ⟨_, by rw [hc]; exact List.mem_singleton_self _, by decide⟩
    exact ⟨r, hr, he, h he⟩
  · exact (decode_error_prevents_handoff script_codec).2
      [⟨false, true⟩, ⟨false, true⟩, ⟨false, true⟩]
      calloc_task { calloc_nbio with is_finished := true }
      (sample_image IMAGE_STATUS_PROCESS_TRANSFER_PARSE
        image_cb_t.cb_image_menu_upload_generic false IMAGE_PROCESS_ERROR_END)
      ⟨4, [], []⟩ rfl rfl (Or.inr rfl) rfl

/-- C4, evaluated at a read cycle of `2^33` bytes: `cb_nbio_generic` succeeds
and stores `pos_increment = 0`, since `*len / 2 = 2^32` is non-zero but its
conversion to `unsigned` is `0`. -/
theorem cb_nbio_generic_step_floor_fails :
    (cb_nbio_generic script_codec
        { calloc_nbio with data := some { calloc_image with handle := 1 } } 0
        ⟨2 ^ 33, [], []⟩).val = 0 ∧
      ((cb_nbio_generic script_codec
        { calloc_nbio with data := some { calloc_image with handle := 1 } } 0
        ⟨2 ^ 33, [], []⟩).obj.data.map (fun image => image.pos_increment)) = some 0 ∧
      ((cb_nbio_generic script_codec
        { calloc_nbio with data := some { calloc_image with handle := 1 } } 0
        ⟨2 ^ 33, [], []⟩).obj.data.map (fun image => image.size)) = some (2 ^ 33) := by
  decide

/-- C5 as stated fails: for a read cycle of `2^34` bytes `cb_nbio_generic`
succeeds and stores `pos_increment = 0` and `processing_pos_increment = 0`,
which are not `max 1 (len / 2)` and `max 1 (len / 4)`. -/
theorem cb_nbio_generic_step_sizes_counterexample :
    (cb_nbio_generic script_codec
        { calloc_nbio with data := some { calloc_image with handle := 1 } } 0
        ⟨2 ^ 34, [], []⟩).val = 0 ∧
      ((cb_nbio_generic script_codec
        { calloc_nbio with data := some { calloc_image with handle := 1 } } 0
        ⟨2 ^ 34, [], []⟩).obj.data.map
          (fun image => (image.pos_increment, image.processing_pos_increment))) = some (0, 0) ∧
      max 1 (2 ^ 34 / 2) ≠ 0 ∧ max 1 (2 ^ 34 / 4) ≠ 0 := by
  decide

/-- C5, amended.  After a successful `cb_nbio_generic` whose read cycle holds `n`
bytes, `size = n`; `pos_increment = max 1 (n / 2)` whenever `n / 2` fits the
32-bit field, and `processing_pos_increment = max 1 (n / 4)` whenever `n / 4`
does; in particular `n = 4096` gives 2048 and 1024, and `n = 0` gives 1 and 1. -/
theorem cb_nbio_generic_step_sizes (c : Codec σ) (nbio : nbio_handle_t) (len : Nat) (w : σ)
    (h : (cb_nbio_generic c nbio len w).val = 0) :
    ∃ image, (cb_nbio_generic c nbio len w).obj.data = some image ∧
      image.size = (c.nbio_get_ptr w nbio.handle len).1.2 ∧
      ((c.nbio_get_ptr w nbio.handle len).1.2 / 2 < 2 ^ 32 →
        image.pos_increment = max 1 ((c.nbio_get_ptr w nbio.handle len).1.2 / 2)) ∧
      ((c.nbio_get_ptr w nbio.handle len).1.2 / 4 < 2 ^ 32 →
        image.processing_pos_increment = max 1 ((c.nbio_get_ptr w nbio.handle len).1.2 / 4)) ∧
      ((c.nbio_get_ptr w nbio.handle len).1.2 = 4096 →
        image.pos_increment = 2048 ∧ image.processing_pos_increment = 1024) ∧
      ((c.nbio_get_ptr w nbio.handle len).1.2 = 0 →
        image.pos_increment = 1 ∧ image.processing_pos_increment = 1) := by
  unfold cb_nbio_generic at h ⊢
  cases hd : nbio.data with
  | none => simp [hd] at h
  | some image =>
    simp only [hd] at h ⊢
    split at h
    · simp at h
    · split at h
      · simp at h
      · rename_i h1 h2
        rw [if_neg h1, if_neg h2]
        refine ⟨_, rfl, rfl, ?_, ?_, ?_, ?_⟩
        · intro hlt
          simp only [to_unsigned, Nat.mod_eq_of_lt hlt]
          split
          · omega
          · omega
        · intro hlt
          simp only [to_unsigned, Nat.mod_eq_of_lt hlt]
          split
          · omega
          · omega
        · intro hn
          simp [hn, to_unsigned]
        · intro hn
          simp [hn]

/-- C5 amended, at a concrete input: a read cycle of 4096 bytes. -/
theorem cb_nbio_generic_step_sizes_witness :
    ∃ image, (cb_nbio_generic script_codec
        { calloc_nbio with data := some { calloc_image with handle := 1 } } 0
        ⟨4096, [], []⟩).obj.data = some image ∧
      image.size = 4096 ∧
      ((4096 : Nat) / 2 < 2 ^ 32 → image.pos_increment = max 1 (4096 / 2)) ∧
      ((4096 : Nat) / 4 < 2 ^ 32 → image.processing_pos_increment = max 1 (4096 / 4)) ∧
      ((4096 : Nat) = 4096 → image.pos_increment = 2048 ∧ image.processing_pos_increment = 1024) ∧
      ((4096 : Nat) = 0 → image.pos_increment = 1 ∧ image.processing_pos_increment = 1) :=
  cb_nbio_generic_step_sizes script_codec
    { calloc_nbio with data := some { calloc_image with handle := 1 } } 0 ⟨4096, [], []⟩
    (by decide)

/-- C6. Bounded work per poll: whatever the context and the codec, one call of
`task_image_load_handler` makes at most `pos_increment` calls of
`image_transfer_iterate`, at most `max processing_pos_increment 1` calls of
`image_transfer_process` and at most one invocation of `image->cb`.  Transfer
steps exclude decode steps and callback invocations; a callback invocation is
the first call of its poll, which then holds no transfer step and at most one
decode step; a poll without a callback invocation holds at most
`processing_pos_increment` decode steps (the burst).  A poll without an image
context makes no call at all. -/
theorem bounded_work_per_poll (c : Codec σ) (malloc_ok : Bool) (task : retro_task_t)
    (nbio : nbio_handle_t) (w : σ) :
    (∀ image : nbio_image_handle,
      ∃ r, task_image_load_handler c malloc_ok
          { task with state := some { nbio with data := some image } } w = some r ∧
        r.calls.countP Event.is_iterate ≤ image.pos_increment ∧
        r.calls.countP Event.is_process ≤ max image.processing_pos_increment 1 ∧
        r.calls.countP Event.is_call_cb ≤ 1 ∧
        (0 < r.calls.countP Event.is_iterate →
          r.calls.countP Event.is_process = 0 ∧ r.calls.countP Event.is_call_cb = 0) ∧
        (0 < r.calls.countP Event.is_call_cb →
          r.calls.countP Event.is_iterate = 0 ∧ r.calls.countP Event.is_process ≤ 1 ∧
            ∃ cb rest, r.calls = Event.call_cb cb :: rest) ∧
        (r.calls.countP Event.is_call_cb = 0 →
          r.calls.countP Event.is_process ≤ image.processing_pos_increment)) ∧
    (∃ r, task_image_load_handler c malloc_ok
        { task with state := some { nbio with data := none } } w = some r ∧ r.calls = []) := by
  constructor
  · intro image
    obtain ⟨r, hr, hcalls, _⟩ := handler_step c malloc_ok
      { task with state := some { nbio with data := some image } }
      { nbio with data := some image } image w rfl rfl
    refine ⟨r, hr, ?_⟩
    rw [hcalls]
    exact task_image_load_switch_calls c nbio image w
  · exact ⟨_, handler_of_not_condition c malloc_ok task { nbio with data := none } w
      (by simp [completion_condition, task_image_load_handler_switch]), rfl⟩

/-- C9. Monotonic status.  One poll never decreases `image->status` in the order
of the enumeration.  Hence along any sequence of polls the status after a
longer run is not below the status after a shorter one, and a status that was
left is not seen again: if the status after `xs ++ ys ++ zs` equals the one
after `xs`, so does the one after `xs ++ ys`. -/
theorem status_monotone (c : Codec σ) (task : retro_task_t) (nbio : nbio_handle_t)
    (image : nbio_image_handle) (w : σ) :
    (∀ malloc_ok : Bool,
      ∃ r image1, task_image_load_handler c malloc_ok
          { task with state := some { nbio with data := some image } } w = some r ∧
        task_image r.obj = some image1 ∧ image.status.toNat ≤ image1.status.toNat) ∧
    (∀ xs ys : List poll_input,
      ∃ r1 r2 s1 s2,
        run_polls c xs { task with state := some { nbio with data := some image } } w = some r1 ∧
        run_polls c (xs ++ ys) { task with state := some { nbio with data := some image } } w
          = some r2 ∧
        task_status r1.obj = some s1 ∧ task_status r2.obj = some s2 ∧
        image.status.toNat ≤ s1.toNat ∧ s1.toNat ≤ s2.toNat) ∧
    (∀ xs ys zs : List poll_input,
      ∃ r1 r2 r3,
        run_polls c xs { task with state := some { nbio with data := some image } } w = some r1 ∧
        run_polls c (xs ++ ys) { task with state := some { nbio with data := some image } } w
          = some r2 ∧
        run_polls c (xs ++ ys ++ zs) { task with state := some { nbio with data := some image } } w
          = some r3 ∧
        (task_status r3.obj = task_status r1.obj → task_status r2.obj = task_status r1.obj)) := by
  have two : ∀ (xs ys : List poll_input) (task0 : retro_task_t) (image0 : nbio_image_handle)
      (w0 : σ), task_image task0 = some image0 →
      ∃ r1 r2 image1 image2,
        run_polls c xs task0 w0 = some r1 ∧ run_polls c (xs ++ ys) task0 w0 = some r2 ∧
        task_image r1.obj = some image1 ∧ task_image r2.obj = some image2 ∧
        image0.status.toNat ≤ image1.status.toNat ∧
        image1.status.toNat ≤ image2.status.toNat ∧
        run_polls c ys r1.obj r1.world =
          some ⟨r2.val.drop r1.val.length, r2.obj, r2.world, r2.calls.drop r1.calls.length⟩ := by
    intro xs ys task0 image0 w0 h0
    obtain ⟨r1, image1, hr1, hi1, hle1, _⟩ := run_polls_status c xs task0 image0 w0 h0
    obtain ⟨q, image2, hq, hi2, hle2, _⟩ := run_polls_status c ys r1.obj image1 r1.world hi1
    refine ⟨r1, ⟨r1.val ++ q.val, q.obj, q.world, r1.calls ++ q.calls⟩, image1, image2, hr1, ?_,
      hi1, hi2, hle1, hle2, ?_⟩
    · rw [run_polls_append c xs ys task0 w0 r1 hr1, hq]
      rfl
    · simp [hq]
  refine ⟨?_, ?_, ?_⟩
  · intro malloc_ok
    obtain ⟨r, hr, _, _, hstate, _⟩ := handler_step c malloc_ok
      { task with state := some { nbio with data := some image } }
      { nbio with data := some image } image w rfl rfl
    obtain ⟨image1, hi1, hle1⟩ := task_image_load_switch_status c nbio image w
    refine ⟨r, image1, hr, ?_, hle1⟩
    unfold task_image
    rw [hstate]
    exact hi1
  · intro xs ys
    obtain ⟨r1, r2, image1, image2, hr1, hr2, hi1, hi2, hle1, hle2, _⟩ := two xs ys
      { task with state := some { nbio with data := some image } } image w rfl
    exact ⟨r1, r2, image1.status, image2.status, hr1, hr2, by simp [task_status, hi1],
      by simp [task_status, hi2], hle1, hle2⟩
  · intro xs ys zs
    obtain ⟨r1, r2, image1, image2, hr1, hr2, hi1, hi2, _, hle12, _⟩ := two xs ys
      { task with state := some { nbio with data := some image } } image w rfl
    obtain ⟨r2', r3, image2', image3, hr2', hr3, hi2', hi3, _, hle23, _⟩ := two (xs ++ ys) zs
      { task with state := some { nbio with data := some image } } image w rfl
    rw [hr2] at hr2'
    cases hr2'
    rw [hi2] at hi2'
    cases hi2'
    refine ⟨r1, r2, r3, hr1, hr2, hr3, ?_⟩
    intro h31
    simp only [task_status, hi1, hi2, hi3, Option.map_some', Option.some.injEq] at h31 ⊢
    have hnat : image2.status.toNat = image1.status.toNat := by
      rw [h31] at hle23
      omega
    revert hnat
    cases image2.status <;> cases image1.status <;> simp [image_status_enum.toNat]

/-! ### Format inference -/

/-- `strstr` finds `needle` exactly when it occurs somewhere in `haystack`. -/
theorem strstr_isSome_iff (haystack needle : List Char) :
    (strstr haystack needle).isSome = true ↔ needle <:+: haystack := by
  induction haystack with
  | nil =>
    unfold strstr
    split <;> simp_all
  | cons h t ih =>
    unfold strstr
    rw [List.infix_cons_iff]
    by_cases hp : needle.isPrefixOf (h :: t) = true
    · rw [if_pos hp]
      simp only [Option.isSome_some, true_iff]
      exact Or.inl (List.isPrefixOf_iff_prefix.mp hp)
    · rw [if_neg hp, ih]
      constructor
      · exact Or.inr
      · intro hor
        rcases hor with hor | hor
        · exact absurd (List.isPrefixOf_iff_prefix.mpr hor) hp
        · exact hor

/-- C7 as stated fails at the path `dir.bmp/c.tga`: the path ends in `.tga` and
not in `.bmp`, and `task_push_image_load` stores the BMP type tags, because
`strstr` finds `.bmp` inside the directory name. -/
theorem format_inference_by_suffix_counterexample :
    file_path_str FILE_PATH_TGA_EXTENSION <:+ "dir.bmp/c.tga".toList ∧
      ¬ file_path_str FILE_PATH_BMP_EXTENSION <:+ "dir.bmp/c.tga".toList ∧
      infer_type "dir.bmp/c.tga".toList = (NBIO_TYPE_BMP, IMAGE_TYPE_BMP) ∧
      ((task_push_image_load script_codec ⟨true, true, true, false, 4096⟩
          "dir.bmp/c.tga".toList 0 0 ⟨0, [], []⟩).obj.bind task_image).map
        (fun image => image.type) = some IMAGE_TYPE_BMP := by
  decide

/-- C7, amended.  Format inference is by occurrence, in a fixed order: whenever
the three allocations succeed, `task_push_image_load` sets `image->type` (and
the matching `nbio->type`) to PNG exactly when the path contains `.png`; to
JPEG exactly when it contains `.jpeg` or `.jpg` and not `.png`; to BMP exactly
when it contains `.bmp` and none of the former; to TGA exactly when it contains
`.tga` and none of the former; and to NONE exactly when it contains none of
the five. -/
theorem format_inference_by_occurrence (fullpath : List Char) :
    (∀ (τ : Type) (c : Codec τ) (e : push_env) (cb user_data : Nat) (w : τ),
      e.task_ok = true → e.nbio_ok = true → e.image_ok = true →
      ∃ t nbio image, (task_push_image_load c e fullpath cb user_data w).obj = some t ∧
        t.state = some nbio ∧ nbio.data = some image ∧
        nbio.type = (infer_type fullpath).1 ∧ image.type = (infer_type fullpath).2) ∧
    (infer_type fullpath = (NBIO_TYPE_PNG, IMAGE_TYPE_PNG) ↔
      file_path_str FILE_PATH_PNG_EXTENSION <:+: fullpath) ∧
    (infer_type fullpath = (NBIO_TYPE_JPEG, IMAGE_TYPE_JPEG) ↔
      ¬ file_path_str FILE_PATH_PNG_EXTENSION <:+: fullpath ∧
      (file_path_str FILE_PATH_JPEG_EXTENSION <:+: fullpath
        ∨ file_path_str FILE_PATH_JPG_EXTENSION <:+: fullpath)) ∧
    (infer_type fullpath = (NBIO_TYPE_BMP, IMAGE_TYPE_BMP) ↔
      ¬ file_path_str FILE_PATH_PNG_EXTENSION <:+: fullpath ∧
      ¬ file_path_str FILE_PATH_JPEG_EXTENSION <:+: fullpath ∧
      ¬ file_path_str FILE_PATH_JPG_EXTENSION <:+: fullpath ∧
      file_path_str FILE_PATH_BMP_EXTENSION <:+: fullpath) ∧
    (infer_type fullpath = (NBIO_TYPE_TGA, IMAGE_TYPE_TGA) ↔
      ¬ file_path_str FILE_PATH_PNG_EXTENSION <:+: fullpath ∧
      ¬ file_path_str FILE_PATH_JPEG_EXTENSION <:+: fullpath ∧
      ¬ file_path_str FILE_PATH_JPG_EXTENSION <:+: fullpath ∧
      ¬ file_path_str FILE_PATH_BMP_EXTENSION <:+: fullpath ∧
      file_path_str FILE_PATH_TGA_EXTENSION <:+: fullpath) ∧
    (infer_type fullpath = (NBIO_TYPE_NONE, IMAGE_TYPE_NONE) ↔
      ∀ x : file_path_enum, ¬ file_path_str x <:+: fullpath) := by
  have hall : (∀ x : file_path_enum, ¬ file_path_str x <:+: fullpath) ↔
      ¬ file_path_str FILE_PATH_PNG_EXTENSION <:+: fullpath ∧
      ¬ file_path_str FILE_PATH_JPEG_EXTENSION <:+: fullpath ∧
      ¬ file_path_str FILE_PATH_JPG_EXTENSION <:+: fullpath ∧
      ¬ file_path_str FILE_PATH_BMP_EXTENSION <:+: fullpath ∧
      ¬ file_path_str FILE_PATH_TGA_EXTENSION <:+: fullpath := by
    constructor
    · intro h
      exact ⟨h _, h _, h _, h _, h _⟩
    · intro h x
      cases x
      · exact h.1
      · exact h.2.1
      · exact h.2.2.1
      · exact h.2.2.2.1
      · exact h.2.2.2.2
  rw [hall]
  simp only [← strstr_isSome_iff]
  refine ⟨?_, ?_⟩
  · intro τ c e cb user_data w h1 h2 h3
    simp only [task_push_image_load, h1, h2, h3]
    exact ⟨_, _, _, rfl, rfl, rfl, rfl, rfl⟩
  · unfold infer_type
    cases (strstr fullpath (file_path_str FILE_PATH_PNG_EXTENSION)).isSome <;>
    cases (strstr fullpath (file_path_str FILE_PATH_JPEG_EXTENSION)).isSome <;>
    cases (strstr fullpath (file_path_str FILE_PATH_JPG_EXTENSION)).isSome <;>
    cases (strstr fullpath (file_path_str FILE_PATH_BMP_EXTENSION)).isSome <;>
    cases (strstr fullpath (file_path_str FILE_PATH_TGA_EXTENSION)).isSome <;>
    simp

/-- C7 amended, at a concrete input: pushing a load of `b.jpg`. -/
theorem format_inference_by_occurrence_witness :
    ∃ t nbio image, (task_push_image_load script_codec ⟨true, true, true, false, 4096⟩
        "b.jpg".toList 7 8 ⟨0, [], []⟩).obj = some t ∧
      t.state = some nbio ∧ nbio.data = some image ∧
      nbio.type = (infer_type "b.jpg".toList).1 ∧ image.type = (infer_type "b.jpg".toList).2 :=
  (format_inference_by_occurrence "b.jpg".toList).1 script script_codec
    ⟨true, true, true, false, 4096⟩ 7 8 ⟨0, [], []⟩ rfl rfl rfl

/-- C8. Format inference is a total function of the path alone: whenever the
three allocations succeed, `task_push_image_load` stores in `image->type` and
`nbio->type` the two components of `infer_type fullpath`, whatever the other
inputs; the two tags always name the same format; a path ending in `.png` is
PNG; a path containing none of `.png`, `.jpeg`, `.jpg`, `.bmp`, `.tga` is NONE;
`a/b.png` is PNG, `a/b.txt` and `a/b.JPG` are NONE. -/
theorem format_inference_total (fullpath : List Char) :
    (∀ (τ : Type) (c : Codec τ) (e : push_env) (cb user_data : Nat) (w : τ),
      e.task_ok = true → e.nbio_ok = true → e.image_ok = true →
      ∃ t nbio image, task_push_image_load c e fullpath cb user_data w
          = ⟨true, some t, w, [Event.task_push]⟩ ∧
        t.state = some nbio ∧ nbio.data = some image ∧
        nbio.type = (infer_type fullpath).1 ∧ image.type = (infer_type fullpath).2) ∧
    same_format (infer_type fullpath).1 (infer_type fullpath).2 = true ∧
    (file_path_str FILE_PATH_PNG_EXTENSION <:+ fullpath →
      infer_type fullpath = (NBIO_TYPE_PNG, IMAGE_TYPE_PNG)) ∧
    ((∀ x : file_path_enum, ¬ file_path_str x <:+: fullpath) →
      infer_type fullpath = (NBIO_TYPE_NONE, IMAGE_TYPE_NONE)) ∧
    infer_type "a/b.png".toList = (NBIO_TYPE_PNG, IMAGE_TYPE_PNG) ∧
    infer_type "a/b.txt".toList = (NBIO_TYPE_NONE, IMAGE_TYPE_NONE) ∧
    infer_type "a/b.JPG".toList = (NBIO_TYPE_NONE, IMAGE_TYPE_NONE) := by
  refine ⟨?_, ?_, ?_, ?_, by decide, by decide, by decide⟩
  · intro τ c e cb user_data w h1 h2 h3
    simp only [task_push_image_load, h1, h2, h3]
    exact ⟨_, _, _, rfl, rfl, rfl, rfl, rfl⟩
  · unfold infer_type
    split
    · rfl
    · split
      · rfl
      · split
        · rfl
        · split <;> rfl
  · intro hs
    have h : (strstr fullpath (file_path_str FILE_PATH_PNG_EXTENSION)).isSome = true :=
      (strstr_isSome_iff _ _).mpr hs.isInfix
    simp [infer_type, h]
  · intro hn
    have h : ∀ x : file_path_enum, (strstr fullpath (file_path_str x)).isSome = false := by
      intro x
      cases hx : (strstr fullpath (file_path_str x)).isSome with
      | false => rfl
      | true => exact absurd ((strstr_isSome_iff _ _).mp hx) (hn x)
    simp [infer_type, h]

/-- C8, at concrete inputs: the path `x.png` ends in `.png`, and the path `x`
contains none of the five extensions. -/
theorem format_inference_total_witness :
    infer_type "x.png".toList = (NBIO_TYPE_PNG, IMAGE_TYPE_PNG) ∧
      infer_type "x".toList = (NBIO_TYPE_NONE, IMAGE_TYPE_NONE) ∧
      (∃ t nbio image, task_push_image_load script_codec ⟨true, true, true, false, 4096⟩
          "x.png".toList 7 8 ⟨0, [], []⟩ = ⟨true, some t, ⟨0, [], []⟩, [Event.task_push]⟩ ∧
        t.state = some nbio ∧ nbio.data = some image ∧
        nbio.type = (infer_type "x.png".toList).1 ∧ image.type = (infer_type "x.png".toList).2) :=
  ⟨(format_inference_total "x.png".toList).2.2.1 (by decide),
    (format_inference_total "x".toList).2.2.2.1 (fun x => by cases x <;> decide),
    (format_inference_total "x.png".toList).1 script script_codec ⟨true, true, true, false, 4096⟩
      7 8 ⟨0, [], []⟩ rfl rfl rfl⟩

/-! ### Termination of a successful load -/

/-- A poll that returns `false` stops the polling. -/
theorem stops_polling_now (c : Codec σ) (malloc_ok : Bool) (task : retro_task_t) (w : σ)
    (r : Ret σ Bool retro_task_t)
    (h : task_image_load_handler c malloc_ok { task with cancelled := false } w = some r)
    (hv : r.val = false) : stops_polling c malloc_ok task w := by
  refine ⟨0, ⟨[r.val], r.obj, r.world, r.calls ++ []⟩, ?_, by simp [hv]⟩
  show run_polls c [⟨false, malloc_ok⟩] task w = _
  rw [run_polls_cons c ⟨false, malloc_ok⟩ [] task w r h]
  rfl

/-- A poll that returns `true` hands the question on to the task it leaves. -/
theorem stops_polling_later (c : Codec σ) (malloc_ok : Bool) (task : retro_task_t) (w : σ)
    (r : Ret σ Bool retro_task_t)
    (h : task_image_load_handler c malloc_ok { task with cancelled := false } w = some r)
    (hv : r.val = true) (hs : stops_polling c malloc_ok r.obj r.world) :
    stops_polling c malloc_ok task w := by
  obtain ⟨n, q, hq, hqv⟩ := hs
  refine ⟨n + 1, ⟨r.val :: q.val, q.obj, q.world, r.calls ++ q.calls⟩, ?_, ?_⟩
  · show run_polls c (⟨false, malloc_ok⟩ :: List.replicate (n + 1) ⟨false, malloc_ok⟩) task w = _
    rw [run_polls_cons c ⟨false, malloc_ok⟩ _ task w r h, hq]
    rfl
  · simp [hv, hqv, List.replicate_succ]

/-- The value and the external state of `task_image_process` are the codec's. -/
theorem task_image_process_val (c : Codec σ) (image : nbio_image_handle) (wd ht : Nat) (w : σ) :
    (task_image_process c image wd ht w).val =
        (c.image_transfer_process w image.handle image.type image.ti.pixels image.size
          wd ht).1.retval ∧
      (task_image_process c image wd ht w).world =
        (c.image_transfer_process w image.handle image.type image.ti.pixels image.size
          wd ht).2 := by
  unfold task_image_process
  simp only
  split
  · next h => simp [h]
  · exact ⟨rfl, rfl⟩

/-- Under `transfer_progress`, a transfer loop of at least one step that runs to
its end has decreased the measure. -/
theorem transfer_loop_progress (c : Codec σ) (mi : σ → Nat) (hi : transfer_progress c mi)
    (handle : Nat) (type : image_type_enum) (n : Nat) (w : σ)
    (hv : (transfer_loop c handle type (n + 1) w).val = true) :
    mi (transfer_loop c handle type (n + 1) w).world < mi w := by
  induction n generalizing w with
  | zero =>
    simp only [transfer_loop] at hv ⊢
    split at hv
    · simp at hv
    · next h =>
      rw [if_neg h]
      exact hi w handle type (by simpa using h)
  | succ n ih =>
    rw [transfer_loop] at hv ⊢
    simp only at hv ⊢
    split at hv
    · simp at hv
    · next h =>
      rw [if_neg h]
      simp only at hv ⊢
      have h1 := hi w handle type (by simpa using h)
      have h2 := ih (c.image_transfer_iterate w handle type).2 hv
      omega

/-- Under `decode_progress`, a decode loop of at least one step ends on
`IMAGE_PROCESS_END`, or on `IMAGE_PROCESS_NEXT` with the measure decreased. -/
theorem process_transfer_loop_progress (c : Codec σ) (mp : σ → Nat) (hp : decode_progress c mp)
    (n : Nat) (rv : Int) (image : nbio_image_handle) (wd ht : Nat) (w : σ) :
    (process_transfer_loop c (n + 1) rv image wd ht w).val = IMAGE_PROCESS_END ∨
      ((process_transfer_loop c (n + 1) rv image wd ht w).val = IMAGE_PROCESS_NEXT ∧
        mp (process_transfer_loop c (n + 1) rv image wd ht w).world < mp w) := by
  induction n generalizing rv image wd ht w with
  | zero =>
    simp only [process_transfer_loop]
    obtain ⟨hval, hworld⟩ := task_image_process_val c image wd ht w
    rcases hp w image.handle image.type image.ti.pixels image.size wd ht with h | ⟨h, hlt⟩
    · rw [← hval] at h
      rw [if_pos (by rw [h]; decide)]
      exact Or.inl h
    · rw [← hval] at h
      rw [← hworld] at hlt
      rw [if_neg (by rw [h]; simp)]
      exact Or.inr ⟨h, hlt⟩
  | succ n ih =>
    rw [process_transfer_loop]
    simp only
    obtain ⟨hval, hworld⟩ := task_image_process_val c image wd ht w
    rcases hp w image.handle image.type image.ti.pixels image.size wd ht with h | ⟨h, hlt⟩
    · rw [← hval] at h
      rw [if_pos (by rw [h]; decide)]
      exact Or.inl h
    · rw [← hval] at h
      rw [← hworld] at hlt
      rw [if_neg (by rw [h]; simp)]
      simp only
      rcases ih (task_image_process c image wd ht w).val (task_image_process c image wd ht w).obj.1
        (task_image_process c image wd ht w).obj.2.1 (task_image_process c image wd ht w).obj.2.2
        (task_image_process c image wd ht w).world with h2 | ⟨h2, hlt2⟩
      · exact Or.inl h2
      · exact Or.inr ⟨h2, by omega⟩

/-- Last phase: in status `PROCESS_TRANSFER_PARSE` with the upload callback and
no recorded error, the next poll finishes the load and returns `false`. -/
theorem stops_polling_process_transfer_parse (c : Codec σ) (malloc_ok : Bool)
    (task : retro_task_t) (nbio : nbio_handle_t) (image : nbio_image_handle) (w : σ)
    (hs : task.state = some nbio) (hd : nbio.data = some image)
    (hst : image.status = IMAGE_STATUS_PROCESS_TRANSFER_PARSE) (hh : image.handle ≠ 0)
    (hcb : image.cb = image_cb_t.cb_image_menu_upload_generic)
    (he : ¬ (image.processing_final_state = IMAGE_PROCESS_ERROR
      ∨ image.processing_final_state = IMAGE_PROCESS_ERROR_END)) :
    stops_polling c malloc_ok task w := by
  obtain ⟨r, hr, _, _, _, _, hval, _⟩ := handler_step c malloc_ok
    { task with cancelled := false } nbio image w hs hd
  refine stops_polling_now c malloc_ok task w r hr ?_
  rw [hval]
  obtain ⟨ti, w1, hu⟩ := invoke_cb_upload_ok c nbio image w hh hcb he
  simp [task_image_load_switch, hst, hu, completion_condition]

/-- Decode phase: in status `PROCESS_TRANSFER` with a budget of at least one step,
under `decode_progress`, polling stops. -/
theorem stops_polling_process_transfer (c : Codec σ) (mp : σ → Nat)
    (hp : decode_progress c mp) (malloc_ok : Bool) (k : Nat) :
    ∀ (task : retro_task_t) (nbio : nbio_handle_t) (image : nbio_image_handle) (w : σ),
      mp w < k → task.state = some nbio → nbio.data = some image →
      image.status = IMAGE_STATUS_PROCESS_TRANSFER → image.handle ≠ 0 →
      image.cb = image_cb_t.cb_image_menu_upload_generic → image.is_finished = false →
      1 ≤ image.processing_pos_increment →
      stops_polling c malloc_ok task w := by
  induction k with
  | zero =>
    intro task nbio image w hk
    omega
  | succ k ih =>
    intro task nbio image w hk hs hd hst hh hcb hf hppi
    obtain ⟨r, hr, _, hworld, hstate, _, hval, _⟩ := handler_step c malloc_ok
      { task with cancelled := false } nbio image w hs hd
    obtain ⟨n, hn⟩ : ∃ n, image.processing_pos_increment = n + 1 :=
      ⟨image.processing_pos_increment - 1, by omega⟩
    have hl := process_transfer_loop_progress c mp hp n 0 image 0 0 w
    have hframe := process_transfer_loop_frame c (n + 1) 0 image 0 0 w
    rcases hl with hend | ⟨hnext, hlt⟩
    · have hsw : (task_image_load_switch c { nbio with data := some image } image w).obj =
          { nbio with data := some ({ (process_transfer_loop c (n + 1) 0 image 0 0 w).obj.1 with
              processing_final_state := IMAGE_PROCESS_END
              status := IMAGE_STATUS_PROCESS_TRANSFER_PARSE } : nbio_image_handle) } := by
        simp [task_image_load_switch, hst, task_image_iterate_process_transfer, hn, hend,
          IMAGE_PROCESS_END, IMAGE_PROCESS_NEXT]
      rw [hsw] at hstate hval
      have hv : r.val = true := by
        rw [hval, hframe]
        simp [completion_condition, hf]
      refine stops_polling_later c malloc_ok task w r hr hv ?_
      exact stops_polling_process_transfer_parse c malloc_ok r.obj _ _ r.world hstate rfl rfl
        (by rw [hframe]; exact hh) (by rw [hframe]; exact hcb)
        (by simp [IMAGE_PROCESS_END, IMAGE_PROCESS_ERROR, IMAGE_PROCESS_ERROR_END])
    · have hsw : task_image_load_switch c { nbio with data := some image } image w =
          ⟨(), { nbio with data := some (process_transfer_loop c (n + 1) 0 image 0 0 w).obj.1 },
            (process_transfer_loop c (n + 1) 0 image 0 0 w).world,
            (process_transfer_loop c (n + 1) 0 image 0 0 w).calls⟩ := by
        simp [task_image_load_switch, hst, task_image_iterate_process_transfer, hn, hnext]
      rw [hsw] at hstate hval hworld
      simp only at hstate hval hworld
      have hv : r.val = true := by
        rw [hval, hframe]
        simp [completion_condition, hf]
      refine stops_polling_later c malloc_ok task w r hr hv ?_
      refine ih r.obj _ _ r.world (by rw [hworld]; omega) hstate rfl ?_ ?_ ?_ ?_ ?_
      · rw [hframe]; exact hst
      · rw [hframe]; exact hh
      · rw [hframe]; exact hcb
      · rw [hframe]; exact hf
      · rw [hframe]; exact hppi

/-- Parse phase: in status `TRANSFER_PARSE` with the thumbnail callback, under
`decode_progress`, polling stops: the first decode step either ends the load
at once or opens the decode phase. -/
theorem stops_polling_transfer_parse (c : Codec σ) (mp : σ → Nat)
    (hp : decode_progress c mp) (malloc_ok : Bool)
    (task : retro_task_t) (nbio : nbio_handle_t) (image : nbio_image_handle) (w : σ)
    (hs : task.state = some nbio) (hd : nbio.data = some image)
    (hnf : nbio.is_finished = true)
    (hst : image.status = IMAGE_STATUS_TRANSFER_PARSE) (hh : image.handle ≠ 0)
    (hcb : image.cb = image_cb_t.cb_image_menu_thumbnail)
    (hppi : 1 ≤ image.processing_pos_increment) :
    stops_polling c malloc_ok task w := by
  obtain ⟨r, hr, _, hworld, hstate, _, hval, _⟩ := handler_step c malloc_ok
    { task with cancelled := false } nbio image w hs hd
  obtain ⟨hpv, hpw⟩ := task_image_process_val c image 0 0 w
  have hframe := task_image_process_frame c image 0 0 w
  have hinv := invoke_cb_thumbnail c nbio image w hh hcb
  rcases hp w image.handle image.type image.ti.pixels image.size 0 0 with hend | ⟨hnext, hlt⟩
  · rw [← hpv] at hend
    rw [if_neg (by rw [hend]; decide)] at hinv
    refine stops_polling_now c malloc_ok task w r hr ?_
    rw [hval]
    have hsw : (task_image_load_switch c { nbio with data := some image } image w).obj =
        { nbio with data := some ({ (task_image_process c image 0 0 w).obj.1 with
            is_blocking_on_processing := false
            is_finished := true
            cb := image_cb_t.cb_image_menu_upload_generic } : nbio_image_handle) } := by
      simp [task_image_load_switch, hst, hinv, hend]
    rw [hsw]
    simp [completion_condition, hnf]
  · rw [← hpv] at hnext
    rw [← hpw] at hlt
    rw [if_neg (by rw [hnext]; decide)] at hinv
    have hsw : task_image_load_switch c { nbio with data := some image } image w =
        ⟨(), { nbio with data := some ({ (task_image_process c image 0 0 w).obj.1 with
            is_blocking_on_processing := true
            is_finished := false
            cb := image_cb_t.cb_image_menu_upload_generic
            status := IMAGE_STATUS_PROCESS_TRANSFER } : nbio_image_handle) },
          (task_image_process c image 0 0 w).world,
          [Event.call_cb image_cb_t.cb_image_menu_thumbnail,
            Event.transfer_process image.handle IMAGE_PROCESS_NEXT]⟩ := by
      simp [task_image_load_switch, hst, hinv, hnext, IMAGE_PROCESS_NEXT, IMAGE_PROCESS_END]
    rw [hsw] at hstate hval hworld
    simp only at hstate hval hworld
    have hv : r.val = true := by
      rw [hval]
      simp [completion_condition]
    refine stops_polling_later c malloc_ok task w r hr hv ?_
    refine stops_polling_process_transfer c mp hp malloc_ok (mp r.world + 1) r.obj _ _ r.world
      (by omega) hstate rfl rfl ?_ rfl rfl ?_
    · rw [hframe]; exact hh
    · rw [hframe]; exact hppi

/-- Transfer phase: in status `TRANSFER`, unblocked and with budgets of at least
one step, under `transfer_progress` and `decode_progress`, polling stops. -/
theorem stops_polling_transfer (c : Codec σ) (mi mp : σ → Nat)
    (hi : transfer_progress c mi) (hp : decode_progress c mp) (malloc_ok : Bool) (k : Nat) :
    ∀ (task : retro_task_t) (nbio : nbio_handle_t) (image : nbio_image_handle) (w : σ),
      mi w < k → task.state = some nbio → nbio.data = some image →
      nbio.is_finished = true →
      image.status = IMAGE_STATUS_TRANSFER → image.is_blocking = false →
      image.is_finished = false → image.handle ≠ 0 →
      image.cb = image_cb_t.cb_image_menu_thumbnail →
      1 ≤ image.pos_increment → 1 ≤ image.processing_pos_increment →
      stops_polling c malloc_ok task w := by
  induction k with
  | zero =>
    intro task nbio image w hk
    omega
  | succ k ih =>
    intro task nbio image w hk hs hd hnf hst hb hf hh hcb hpi hppi
    obtain ⟨r, hr, _, hworld, hstate, _, hval, _⟩ := handler_step c malloc_ok
      { task with cancelled := false } nbio image w hs hd
    obtain ⟨n, hn⟩ : ∃ n, image.pos_increment = n + 1 := ⟨image.pos_increment - 1, by omega⟩
    have hsw : task_image_load_switch c { nbio with data := some image } image w =
        ⟨(), { nbio with data := some (if
              (transfer_loop c image.handle image.type (n + 1) w).val = true then image
              else { image with status := IMAGE_STATUS_TRANSFER_PARSE }) },
          (transfer_loop c image.handle image.type (n + 1) w).world,
          (transfer_loop c image.handle image.type (n + 1) w).calls⟩ := by
      simp only [task_image_load_switch, hst, hb, task_image_iterate_transfer, hf, hn]
      cases (transfer_loop c image.handle image.type (n + 1) w).val <;> simp [hb, hf, hn]
    rw [hsw] at hstate hval hworld
    simp only at hstate hval hworld
    have hv : r.val = true := by
      rw [hval]
      cases (transfer_loop c image.handle image.type (n + 1) w).val <;>
        simp [completion_condition, hf]
    refine stops_polling_later c malloc_ok task w r hr hv ?_
    cases hl : (transfer_loop c image.handle image.type (n + 1) w).val with
    | true =>
      have hlt := transfer_loop_progress c mi hi image.handle image.type n w hl
      rw [hl] at hstate
      simp only [if_true] at hstate
      exact ih r.obj _ image r.world (by rw [hworld]; omega) hstate rfl hnf hst hb hf hh hcb hpi
        hppi
    | false =>
      rw [hl] at hstate
      simp only [Bool.false_eq_true, if_false] at hstate
      exact stops_polling_transfer_parse c mp hp malloc_ok r.obj _ _ r.world hstate rfl hnf rfl
        hh hcb hppi

/-- What a successful `cb_nbio_generic` leaves: the context is unblocked and
unfinished with a non-null handle, its status and callback untouched,
`nbio->is_finished` set, and both step sizes at least 1 when the stored byte
count is below `2^33`. -/
theorem cb_nbio_generic_success (c : Codec σ) (nbio : nbio_handle_t) (image : nbio_image_handle)
    (len : Nat) (w : σ) (hd : nbio.data = some image)
    (h : (cb_nbio_generic c nbio len w).val = 0) :
    ∃ image1, (cb_nbio_generic c nbio len w).obj.data = some image1 ∧
      (cb_nbio_generic c nbio len w).obj.is_finished = true ∧
      image1.status = image.status ∧ image1.cb = image.cb ∧ image1.handle = image.handle ∧
      image1.handle ≠ 0 ∧ image1.is_blocking = false ∧ image1.is_finished = false ∧
      (image1.size < 2 ^ 33 →
        1 ≤ image1.pos_increment ∧ 1 ≤ image1.processing_pos_increment) := by
  unfold cb_nbio_generic at h ⊢
  simp only [hd] at h ⊢
  split at h
  · simp at h
  · split at h
    · simp at h
    · rename_i h1 h2
      rw [if_neg h1, if_neg h2]
      refine ⟨_, rfl, rfl, rfl, rfl, rfl, ?_, rfl, rfl, ?_⟩
      · simp only
        intro h0
        exact h1 (Or.inr h0)
      · simp only [to_unsigned]
        intro hlt
        constructor
        · split
          · rw [Nat.mod_eq_of_lt (by omega)]
            omega
          · exact le_refl 1
        · split
          · rw [Nat.mod_eq_of_lt (by omega)]
            omega
          · exact le_refl 1

/-- A task pushed by `task_push_image_load` owns an all-zero context in status
`TRANSFER`, with `cb_nbio_image_menu_thumbnail` as its I/O-completion
callback. -/
theorem task_push_image_load_pushed (c : Codec σ) (e : push_env) (fullpath : List Char)
    (cb user_data : Nat) (w : σ) (t : retro_task_t)
    (h : (task_push_image_load c e fullpath cb user_data w).obj = some t) :
    ∃ nbio, t.state = some nbio ∧ nbio.cb = nbio_cb_t.cb_nbio_image_menu_thumbnail ∧
      nbio.is_finished = false ∧
      nbio.data = some { calloc_image with
        type := (infer_type fullpath).2, status := IMAGE_STATUS_TRANSFER } := by
  unfold task_push_image_load at h
  split at h
  · simp at h
  · split at h
    · simp at h
    · split at h
      · simp at h
      · simp only [Option.some.injEq] at h
        subst h
        exact ⟨_, rfl, rfl, rfl, rfl⟩

/-- C10 as stated fails for an empty PNG source whose decoder reports
`IMAGE_PROCESS_ERROR` on every step.  The task is pushed, its I/O-completion
callback succeeds once, it is never cancelled, `image_transfer_iterate` returns
`false` at once and `image_transfer_process` a terminal result at once; yet
every one of any number of polls returns `true`. -/
theorem polling_never_stops_counterexample :
    ∃ t0 r1,
      (task_push_image_load script_codec ⟨true, true, true, false, 4096⟩ "a.png".toList 0 0
        ⟨0, [], []⟩).obj = some t0 ∧
      task_io_completion script_codec t0 0 ⟨0, [], []⟩ = some r1 ∧ r1.val = 0 ∧
      ∀ n, ∃ r, run_polls script_codec (List.replicate n ⟨false, true⟩) r1.obj r1.world = some r ∧
        r.val = List.replicate n true := by
  refine ⟨_, _, rfl, rfl, rfl, ?_⟩
  have fix : ∀ n, ∀ (task : retro_task_t) (st : image_status_enum),
      st = IMAGE_STATUS_TRANSFER ∨ st = IMAGE_STATUS_TRANSFER_PARSE →
      task.state = some ({ calloc_nbio with
        type := NBIO_TYPE_PNG
        is_finished := true
        cb := nbio_cb_t.cb_nbio_image_menu_thumbnail
        data := some { calloc_image with
          type := IMAGE_TYPE_PNG
          cb := image_cb_t.cb_image_menu_thumbnail
          handle := 1
          processing_pos_increment := 1
          pos_increment := 1
          status := st }
        status := nbio_status_enum.NBIO_STATUS_INIT
        path := "a.png".toList } : nbio_handle_t) →
      ∃ r, run_polls script_codec (List.replicate n ⟨false, true⟩) task ⟨0, [], []⟩ = some r ∧
        r.val = List.replicate n true := by
    intro n
    induction n with
    | zero =>
      intro task st _ _
      exact ⟨_, rfl, rfl⟩
    | succ n ih =>
      intro task st hst hs
      obtain ⟨r, hr, _, hworld, hstate, _, hval, _⟩ := handler_step script_codec true
        { task with cancelled := false } _ _ ⟨0, [], []⟩ hs rfl
      have hw : r.world = ⟨0, [], []⟩ := by
        rw [hworld]
        rcases hst with hst | hst <;> subst hst <;> rfl
      have hv : r.val = true := by
        rw [hval]
        rcases hst with hst | hst <;> subst hst <;> rfl
      obtain ⟨q, hq, hqv⟩ := ih r.obj IMAGE_STATUS_TRANSFER_PARSE (Or.inr rfl) (by
        rw [hstate]
        rcases hst with hst | hst <;> subst hst <;> rfl)
      rw [← hw] at hq
      refine ⟨⟨r.val :: q.val, q.obj, q.world, r.calls ++ q.calls⟩, ?_, ?_⟩
      · show run_polls script_codec (⟨false, true⟩ :: List.replicate n ⟨false, true⟩) task _ = _
        rw [run_polls_cons script_codec ⟨false, true⟩ _ task _ r hr, hq]
        rfl
      · simp [hv, hqv, List.replicate_succ]
  intro n
  exact fix n _ IMAGE_STATUS_TRANSFER (Or.inl rfl) rfl

/-- C10, amended.  For a context constructed by `task_push_image_load` whose
I/O-completion callback has succeeded once with a read cycle of fewer than
`2^33` bytes (the byte count it stored in `image->size`), an uncancelled task,
and every codec whose `image_transfer_iterate` returns `true` only finitely
often and whose `image_transfer_process` returns `IMAGE_PROCESS_NEXT` only
finitely often and otherwise `IMAGE_PROCESS_END`, there is an `n` such that the
first `n` polls return `true` and poll `n + 1` returns `false`. -/
theorem load_stops_polling (c : Codec σ) (mi mp : σ → Nat) (hi : transfer_progress c mi)
    (hp : decode_progress c mp) (e : push_env) (fullpath : List Char) (cb user_data len : Nat)
    (w0 w : σ) (malloc_ok : Bool) (t0 : retro_task_t) (r1 : Ret σ Int retro_task_t)
    (hpush : (task_push_image_load c e fullpath cb user_data w0).obj = some t0)
    (hio : task_io_completion c t0 len w = some r1) (hok : r1.val = 0)
    (hsize : ∀ image, task_image r1.obj = some image → image.size < 2 ^ 33) :
    stops_polling c malloc_ok r1.obj r1.world := by
  obtain ⟨nbio, hs, hcb, _, hd⟩ := task_push_image_load_pushed c e fullpath cb user_data w0 t0 hpush
  simp only [task_io_completion, hs, call_nbio_cb, hcb, Option.some.injEq] at hio
  subst hio
  simp only at hok hsize ⊢
  unfold cb_nbio_image_menu_thumbnail at hok hsize ⊢
  simp only [hd] at hok hsize ⊢
  split at hok
  · simp at hok
  · rename_i hnew
    rw [if_neg hnew] at hsize ⊢
    simp only at hok hsize ⊢
    obtain ⟨image1, hd1, hnf, hst, hcb1, _, hh, hb, hf, hstep⟩ :=
      cb_nbio_generic_success c _ _ len _ rfl hok
    obtain ⟨hpi, hppi⟩ := hstep (hsize image1 (by simp [task_image, hd1]))
    exact stops_polling_transfer c mi mp hi hp malloc_ok _ _ _ image1 _ (Nat.lt_succ_self _)
      rfl hd1 hnf (by rw [hst]) hb hf hh (by rw [hcb1]) hpi hppi

/-- C10 amended, at a concrete input: `a.png` with 4096 bytes, a codec with 3
transfer steps and 5 decode steps to go. -/
theorem load_stops_polling_witness :
    ∃ t0 r1,
      (task_push_image_load countdown_codec ⟨true, true, true, false, 4096⟩ "a.png".toList 0 0
        (3, 5)).obj = some t0 ∧
      task_io_completion countdown_codec t0 0 (3, 5) = some r1 ∧ r1.val = 0 ∧
      stops_polling countdown_codec true r1.obj r1.world := by
  refine ⟨_, _, rfl, rfl, rfl, ?_⟩
  refine load_stops_polling countdown_codec (fun w => w.1) (fun w => w.2) ?_ ?_
    ⟨true, true, true, false, 4096⟩ "a.png".toList 0 0 0 (3, 5) (3, 5) true _ _ rfl rfl rfl ?_
  · intro w handle type h
    simp only [countdown_codec] at h ⊢
    split at h
    · simp at h
    · next h0 =>
      rw [if_neg h0]
      simp only
      omega
  · intro w handle type pixels size width height
    simp only [countdown_codec]
    by_cases h0 : w.2 = 0
    · rw [if_pos h0]
      exact Or.inl rfl
    · rw [if_neg h0]
      refine Or.inr ⟨rfl, ?_⟩
      simp only
      omega
  · intro image h
    have h1 : some image = some ({ calloc_image with
        type := IMAGE_TYPE_PNG
        cb := image_cb_t.cb_image_menu_thumbnail
        handle := 1
        size := 4096
        processing_pos_increment := 1024
        pos_increment := 2048
        status := IMAGE_STATUS_TRANSFER } : nbio_image_handle) := h.symm.trans rfl
    rw [Option.some.inj h1]
    decide

/-- A zero transfer step size stalls the load.  After a read cycle of `2^33`
bytes `cb_nbio_generic` succeeds with `pos_increment = 0`; every poll then runs
the transfer loop zero times, makes no codec call, stays in status `TRANSFER`
and returns `true`, although the codec's next transfer step would return
`false` and its next decode step `IMAGE_PROCESS_END`. -/
theorem polling_stalls_on_zero_step_size :
    ∃ t0 r1,
      (task_push_image_load script_codec ⟨true, true, true, false, 4096⟩ "a.png".toList 0 0
        ⟨2 ^ 33, [], [⟨IMAGE_PROCESS_END, 5, 640, 480⟩]⟩).obj = some t0 ∧
      task_io_completion script_codec t0 0 ⟨2 ^ 33, [], [⟨IMAGE_PROCESS_END, 5, 640, 480⟩]⟩
        = some r1 ∧ r1.val = 0 ∧
      ∀ n, ∃ r, run_polls script_codec (List.replicate n ⟨false, true⟩) r1.obj r1.world = some r ∧
        r.val = List.replicate n true ∧ r.calls = [] ∧
        task_status r.obj = some IMAGE_STATUS_TRANSFER := by
  refine ⟨_, _, rfl, rfl, rfl, ?_⟩
  have fix : ∀ n, ∀ (task : retro_task_t),
      task.state = some ({ calloc_nbio with
        type := NBIO_TYPE_PNG
        is_finished := true
        cb := nbio_cb_t.cb_nbio_image_menu_thumbnail
        data := some { calloc_image with
          type := IMAGE_TYPE_PNG
          cb := image_cb_t.cb_image_menu_thumbnail
          handle := 1
          size := 2 ^ 33
          processing_pos_increment := 2 ^ 31
          pos_increment := 0
          status := IMAGE_STATUS_TRANSFER }
        status := nbio_status_enum.NBIO_STATUS_INIT
        path := "a.png".toList } : nbio_handle_t) →
      ∃ r, run_polls script_codec (List.replicate n ⟨false, true⟩) task
          ⟨2 ^ 33, [], [⟨IMAGE_PROCESS_END, 5, 640, 480⟩]⟩ = some r ∧
        r.val = List.replicate n true ∧ r.calls = [] ∧
        task_status r.obj = some IMAGE_STATUS_TRANSFER := by
    intro n
    induction n with
    | zero =>
      intro task hs
      exact ⟨_, rfl, rfl, rfl, by simp [task_status, task_image, hs]⟩
    | succ n ih =>
      intro task hs
      obtain ⟨r, hr, hcalls, hworld, hstate, _, hval, _⟩ := handler_step script_codec true
        { task with cancelled := false } _ _ ⟨2 ^ 33, [], [⟨IMAGE_PROCESS_END, 5, 640, 480⟩]⟩ hs rfl
      have hw : r.world = ⟨2 ^ 33, [], [⟨IMAGE_PROCESS_END, 5, 640, 480⟩]⟩ := by
        rw [hworld]
        rfl
      have hv : r.val = true := by
        rw [hval]
        rfl
      have hc : r.calls = [] := by
        rw [hcalls]
        rfl
      obtain ⟨q, hq, hqv, hqc, hqs⟩ := ih r.obj (by rw [hstate]; rfl)
      rw [← hw] at hq
      refine ⟨⟨r.val :: q.val, q.obj, q.world, r.calls ++ q.calls⟩, ?_, ?_, ?_, hqs⟩
      · show run_polls script_codec (⟨false, true⟩ :: List.replicate n ⟨false, true⟩) task _ = _
        rw [run_polls_cons script_codec ⟨false, true⟩ _ task _ r hr, hq]
        rfl
      · simp [hv, hqv, List.replicate_succ]
      · simp [hc, hqc]
  intro n
  exact fix n _ (by decide)

/-! ### Initiation -/

/-- C12. Initiation failure is atomic.  `task_push_image_load` returns `false`
exactly when one of its three allocations fails, and then pushes nothing and
releases each object allocated so far exactly once and nothing else: nothing
when the task allocation fails, the task when the `nbio` allocation fails, the
task and the `nbio` when the image allocation fails.  When all three succeed
it returns `true` for every path, its only call is the one push, and the
pushed context has status `TRANSFER`, `is_finished = false` and
`nbio->is_finished = false`. -/
theorem task_push_image_load_atomic {τ : Type} (c : Codec τ) (e : push_env)
    (fullpath : List Char) (cb user_data : Nat) (w : τ) :
    ((task_push_image_load c e fullpath cb user_data w).val = false ↔
      (e.task_ok = false ∨ e.nbio_ok = false ∨ e.image_ok = false)) ∧
    ((task_push_image_load c e fullpath cb user_data w).val = false →
      (task_push_image_load c e fullpath cb user_data w).obj = none ∧
      (task_push_image_load c e fullpath cb user_data w).calls.count Event.task_push = 0 ∧
      (task_push_image_load c e fullpath cb user_data w).calls =
        (if e.task_ok then
          (if e.nbio_ok then [Event.free_task, Event.free_nbio] else [Event.free_task])
        else [])) ∧
    ((task_push_image_load c e fullpath cb user_data w).val = true →
      (task_push_image_load c e fullpath cb user_data w).calls = [Event.task_push] ∧
      ∃ t nbio image, (task_push_image_load c e fullpath cb user_data w).obj = some t ∧
        t.state = some nbio ∧ nbio.data = some image ∧
        image.status = IMAGE_STATUS_TRANSFER ∧ image.is_finished = false ∧
        nbio.is_finished = false) := by
  unfold task_push_image_load
  cases h1 : e.task_ok <;> cases h2 : e.nbio_ok <;> cases h3 : e.image_ok <;>
    simp [task_image_load_free, calloc_task, calloc_image]

/-- C12, at concrete inputs: the image allocation fails for `a.png`, and all
allocations succeed for the unrecognised path `a.txt`. -/
theorem task_push_image_load_atomic_witness :
    ((task_push_image_load script_codec ⟨true, true, false, false, 4096⟩ "a.png".toList 0 0
        ⟨0, [], []⟩).obj = none ∧
      (task_push_image_load script_codec ⟨true, true, false, false, 4096⟩ "a.png".toList 0 0
        ⟨0, [], []⟩).calls = [Event.free_task, Event.free_nbio]) ∧
    ((task_push_image_load script_codec ⟨true, true, true, false, 4096⟩ "a.txt".toList 0 0
        ⟨0, [], []⟩).calls = [Event.task_push] ∧
      ∃ t nbio image,
        (task_push_image_load script_codec ⟨true, true, true, false, 4096⟩ "a.txt".toList 0 0
          ⟨0, [], []⟩).obj = some t ∧
        t.state = some nbio ∧ nbio.data = some image ∧
        image.status = IMAGE_STATUS_TRANSFER ∧ image.is_finished = false ∧
        nbio.is_finished = false) :=
  ⟨⟨((task_push_image_load_atomic script_codec ⟨true, true, false, false, 4096⟩ "a.png".toList
        0 0 ⟨0, [], []⟩).2.1 (by decide)).1,
      ((task_push_image_load_atomic script_codec ⟨true, true, false, false, 4096⟩ "a.png".toList
        0 0 ⟨0, [], []⟩).2.1 (by decide)).2.2⟩,
    (task_push_image_load_atomic script_codec ⟨true, true, true, false, 4096⟩ "a.txt".toList
      0 0 ⟨0, [], []⟩).2.2 (by decide)⟩

/-! ### The transitions, case by case -/

/-- The shape of the transfer loop's calls: it either runs to its end with `n`
calls that all returned `true`, or stops at the first call that returned
`false`, after fewer than `n` calls that returned `true`. -/
theorem transfer_loop_shape (c : Codec σ) (handle : Nat) (type : image_type_enum) (n : Nat)
    (w : σ) :
    ((transfer_loop c handle type n w).val = true ∧
      (transfer_loop c handle type n w).calls
        = List.replicate n (Event.transfer_iterate handle true)) ∨
    ((transfer_loop c handle type n w).val = false ∧
      ∃ k, k < n ∧ (transfer_loop c handle type n w).calls
        = List.replicate k (Event.transfer_iterate handle true)
          ++ [Event.transfer_iterate handle false]) := by
  induction n generalizing w with
  | zero => exact Or.inl ⟨rfl, rfl⟩
  | succ n ih =>
    simp only [transfer_loop]
    split
    · exact Or.inr ⟨rfl, 0, Nat.succ_pos n, rfl⟩
    · rcases ih (c.image_transfer_iterate w handle type).2 with ⟨hv, hc⟩ | ⟨hv, k, hk, hc⟩
      · exact Or.inl ⟨hv, by simp only [hc, List.replicate_succ]⟩
      · exact Or.inr ⟨hv, k + 1, Nat.succ_lt_succ hk,
          by simp only [hc, List.replicate_succ, List.cons_append]⟩

/-- C16. Transition from Transferring.  For a poll with status `TRANSFER`: if
`is_blocking` is set, no call is made and the context is unchanged.  If
`is_blocking` and `is_finished` are clear, `image_transfer_iterate` is called
until it first returns `false` or `pos_increment` calls have been made: the
calls are `k` that returned `true`, followed by one that returned `false`
exactly when the loop was stopped (then `k < pos_increment`, otherwise
`k = pos_increment`); the status becomes `TRANSFER_PARSE` exactly when a call
returned `false` and stays `TRANSFER` otherwise, and no other field of the
context changes. -/
theorem transition_from_transfer (c : Codec σ) (malloc_ok : Bool) (task : retro_task_t)
    (nbio : nbio_handle_t) (image : nbio_image_handle) (w : σ)
    (hst : image.status = IMAGE_STATUS_TRANSFER) :
    (image.is_blocking = true →
      ∃ r, task_image_load_handler c malloc_ok
          { task with state := some { nbio with data := some image } } w = some r ∧
        r.calls = [] ∧ r.world = w ∧
        r.obj.state = some { nbio with data := some image }) ∧
    (image.is_blocking = false → image.is_finished = false →
      ∃ r k stopped, task_image_load_handler c malloc_ok
          { task with state := some { nbio with data := some image } } w = some r ∧
        r.calls = List.replicate k (Event.transfer_iterate image.handle true)
          ++ (if stopped = true then [Event.transfer_iterate image.handle false] else []) ∧
        (stopped = true → k < image.pos_increment) ∧
        (stopped = false → k = image.pos_increment) ∧
        (stopped = true ↔ ∃ e ∈ r.calls, e = Event.transfer_iterate image.handle false) ∧
        r.obj.state = some { nbio with data := some { image with
          status := if stopped = true then IMAGE_STATUS_TRANSFER_PARSE
            else IMAGE_STATUS_TRANSFER } }) := by
  obtain ⟨r, hr, hcalls, hworld, hstate, _⟩ := handler_step c malloc_ok
    { task with state := some { nbio with data := some image } }
    { nbio with data := some image } image w rfl rfl
  constructor
  · intro hb
    have hsw : task_image_load_switch c { nbio with data := some image } image w =
        ⟨(), { nbio with data := some image }, w, []⟩ := by
      simp [task_image_load_switch, hst, hb]
    rw [hsw] at hcalls hworld hstate
    exact ⟨r, hr, hcalls, hworld, hstate⟩
  · intro hb hf
    have hsw : task_image_load_switch c { nbio with data := some image } image w =
        ⟨(), { nbio with data := some (if
              (transfer_loop c image.handle image.type image.pos_increment w).val = true
              then image else { image with status := IMAGE_STATUS_TRANSFER_PARSE }) },
          (transfer_loop c image.handle image.type image.pos_increment w).world,
          (transfer_loop c image.handle image.type image.pos_increment w).calls⟩ := by
      simp only [task_image_load_switch, hst, hb, task_image_iterate_transfer, hf]
      cases (transfer_loop c image.handle image.type image.pos_increment w).val <;>
        simp [hb, hf]
    rw [hsw] at hcalls hworld hstate
    simp only at hcalls hworld hstate
    have himg : image = { image with status := IMAGE_STATUS_TRANSFER } := by
      cases image
      simp only at hst
      subst hst
      rfl
    rcases transfer_loop_shape c image.handle image.type image.pos_increment w with
      ⟨hv, hc⟩ | ⟨hv, k, hk, hc⟩
    · refine ⟨r, image.pos_increment, false, hr, ?_, ?_, ?_, ?_, ?_⟩
      · rw [hcalls, hc]
        simp
      · intro h
        cases h
      · intro _
        rfl
      · constructor
        · intro h
          cases h
        · rintro ⟨e, he, rfl⟩
          rw [hcalls, hc] at he
          simp at he
      · rw [hstate, hv]
        simp only [if_true, Bool.false_eq_true, if_false]
        rw [← himg]
    · refine ⟨r, k, true, hr, ?_, ?_, ?_, ?_, ?_⟩
      · rw [hcalls, hc]
        simp
      · intro _
        exact hk
      · intro h
        cases h
      · constructor
        · intro _
          exact ⟨_, by rw [hcalls, hc]; simp, rfl⟩
        · intro _
          rfl
      · rw [hstate, hv]
        simp

/-- C16, at a concrete input: a budget of two transfer steps and a codec whose
second step returns `false`. -/
theorem transition_from_transfer_witness :
    ∃ r k stopped, task_image_load_handler script_codec true
        (sample_task (sample_image IMAGE_STATUS_TRANSFER image_cb_t.cb_image_menu_thumbnail
          false 0) true) ⟨4, [true, false], []⟩ = some r ∧
      r.calls = List.replicate k (Event.transfer_iterate 1 true)
        ++ (if stopped = true then [Event.transfer_iterate 1 false] else []) ∧
      (stopped = true → k < 2) ∧
      (stopped = false → k = 2) ∧
      (stopped = true ↔ ∃ e ∈ r.calls, e = Event.transfer_iterate 1 false) ∧
      r.obj.state = some { ({ calloc_nbio with is_finished := true } : nbio_handle_t) with
        data := some { sample_image IMAGE_STATUS_TRANSFER image_cb_t.cb_image_menu_thumbnail
            false 0 with
          status := if stopped = true then IMAGE_STATUS_TRANSFER_PARSE
            else IMAGE_STATUS_TRANSFER } } :=
  (transition_from_transfer script_codec true calloc_task { calloc_nbio with is_finished := true }
    (sample_image IMAGE_STATUS_TRANSFER image_cb_t.cb_image_menu_thumbnail false 0)
    ⟨4, [true, false], []⟩ rfl).2 rfl rfl

/-- The shape of the decode loop's calls: `n` calls that all returned
`IMAGE_PROCESS_NEXT`, or fewer than `n` such calls followed by the first call
that returned something else, which is then the loop's value. -/
theorem process_transfer_loop_shape (c : Codec σ) (n : Nat) (rv : Int)
    (image : nbio_image_handle) (wd ht : Nat) (w : σ) :
    ((process_transfer_loop c n rv image wd ht w).calls
        = List.replicate n (Event.transfer_process image.handle IMAGE_PROCESS_NEXT) ∧
      (0 < n → (process_transfer_loop c n rv image wd ht w).val = IMAGE_PROCESS_NEXT)) ∨
    ((process_transfer_loop c n rv image wd ht w).val ≠ IMAGE_PROCESS_NEXT ∧
      ∃ k, k < n ∧ (process_transfer_loop c n rv image wd ht w).calls
        = List.replicate k (Event.transfer_process image.handle IMAGE_PROCESS_NEXT)
          ++ [Event.transfer_process image.handle
            (process_transfer_loop c n rv image wd ht w).val]) := by
  induction n generalizing rv image wd ht w with
  | zero => exact Or.inl ⟨rfl, fun h => absurd h (Nat.lt_irrefl 0)⟩
  | succ n ih =>
    simp only [process_transfer_loop]
    by_cases hp : (task_image_process c image wd ht w).val = IMAGE_PROCESS_NEXT
    · rw [if_neg (by simpa using hp)]
      simp only
      have hh : (task_image_process c image wd ht w).obj.1.handle = image.handle := by
        rw [task_image_process_frame]
      rw [task_image_process_calls, hp]
      rcases ih IMAGE_PROCESS_NEXT (task_image_process c image wd ht w).obj.1
        (task_image_process c image wd ht w).obj.2.1 (task_image_process c image wd ht w).obj.2.2
        (task_image_process c image wd ht w).world with ⟨hc, hv⟩ | ⟨hv, k, hk, hc⟩
      · left
        rw [hh] at hc
        refine ⟨by rw [hc]; rfl, ?_⟩
        intro _
        cases n with
        | zero => simp [process_transfer_loop]
        | succ m => exact hv (Nat.succ_pos m)
      · right
        rw [hh] at hc
        refine ⟨hv, k + 1, Nat.succ_lt_succ hk, ?_⟩
        rw [hc]
        rfl
    · rw [if_pos hp]
      right
      refine ⟨hp, 0, Nat.succ_pos n, ?_⟩
      rw [task_image_process_calls]
      rfl

/-- C17. Transition from ProcessingTransfer.  For a poll with status
`PROCESS_TRANSFER` and a budget `processing_pos_increment` of at least 1,
`image_transfer_process` is called until its result is not
`IMAGE_PROCESS_NEXT` or the budget is used up.  Either all
`processing_pos_increment` calls returned `IMAGE_PROCESS_NEXT`, and then the
status and `processing_final_state` are unchanged; or after `k` such calls,
`k` below the budget, a call returned another result `rv`, no further call is
made, `processing_final_state = rv` and the status is
`PROCESS_TRANSFER_PARSE`.  Apart from these two fields only `ti` may change. -/
theorem transition_from_process_transfer (c : Codec σ) (malloc_ok : Bool) (task : retro_task_t)
    (nbio : nbio_handle_t) (image : nbio_image_handle) (w : σ)
    (hst : image.status = IMAGE_STATUS_PROCESS_TRANSFER)
    (hn : 1 ≤ image.processing_pos_increment) :
    ∃ r image1, task_image_load_handler c malloc_ok
        { task with state := some { nbio with data := some image } } w = some r ∧
      r.obj.state = some { nbio with data := some image1 } ∧
      image1 = { image with
        ti := image1.ti
        processing_final_state := image1.processing_final_state
        status := image1.status } ∧
      ((r.calls = List.replicate image.processing_pos_increment
            (Event.transfer_process image.handle IMAGE_PROCESS_NEXT) ∧
          image1.status = IMAGE_STATUS_PROCESS_TRANSFER ∧
          image1.processing_final_state = image.processing_final_state) ∨
        (∃ k rv, k < image.processing_pos_increment ∧ rv ≠ IMAGE_PROCESS_NEXT ∧
          r.calls = List.replicate k (Event.transfer_process image.handle IMAGE_PROCESS_NEXT)
            ++ [Event.transfer_process image.handle rv] ∧
          image1.status = IMAGE_STATUS_PROCESS_TRANSFER_PARSE ∧
          image1.processing_final_state = rv)) := by
  obtain ⟨r, hr, hcalls, _, hstate, _⟩ := handler_step c malloc_ok
    { task with state := some { nbio with data := some image } }
    { nbio with data := some image } image w rfl rfl
  have hframe := process_transfer_loop_frame c image.processing_pos_increment 0 image 0 0 w
  rcases process_transfer_loop_shape c image.processing_pos_increment 0 image 0 0 w with
    ⟨hc, hv⟩ | ⟨hv, k, hk, hc⟩
  · have hnext := hv (by omega)
    have hsw : task_image_load_switch c { nbio with data := some image } image w =
        ⟨(), { nbio with data := some (process_transfer_loop c
            image.processing_pos_increment 0 image 0 0 w).obj.1 },
          (process_transfer_loop c image.processing_pos_increment 0 image 0 0 w).world,
          (process_transfer_loop c image.processing_pos_increment 0 image 0 0 w).calls⟩ := by
      simp [task_image_load_switch, hst, task_image_iterate_process_transfer, hnext]
    rw [hsw] at hcalls hstate
    simp only at hcalls hstate
    refine ⟨r, _, hr, hstate, ?_, Or.inl ⟨by rw [hcalls, hc], ?_, ?_⟩⟩
    · rw [hframe]
    · rw [hframe]
      exact hst
    · rw [hframe]
  · have hsw : task_image_load_switch c { nbio with data := some image } image w =
        ⟨(), { nbio with data := some ({ (process_transfer_loop c
              image.processing_pos_increment 0 image 0 0 w).obj.1 with
              processing_final_state :=
                (process_transfer_loop c image.processing_pos_increment 0 image 0 0 w).val
              status := IMAGE_STATUS_PROCESS_TRANSFER_PARSE } : nbio_image_handle) },
          (process_transfer_loop c image.processing_pos_increment 0 image 0 0 w).world,
          (process_transfer_loop c image.processing_pos_increment 0 image 0 0 w).calls⟩ := by
      simp [task_image_load_switch, hst, task_image_iterate_process_transfer, hv]
    rw [hsw] at hcalls hstate
    simp only at hcalls hstate
    refine ⟨r, _, hr, hstate, ?_, Or.inr ⟨k, _, hk, hv, by rw [hcalls, hc], rfl, rfl⟩⟩
    rw [hframe]

/-- C17, at a concrete input: a budget of two decode steps and a codec whose
second step returns `IMAGE_PROCESS_ERROR_END`. -/
theorem transition_from_process_transfer_witness :
    ∃ r image1, task_image_load_handler script_codec true
        { calloc_task with state := some { ({ calloc_nbio with is_finished := true } :
            nbio_handle_t) with
          data := some { sample_image IMAGE_STATUS_PROCESS_TRANSFER
            image_cb_t.cb_image_menu_upload_generic false 0 with
            processing_pos_increment := 2 } } }
        ⟨4, [], [⟨IMAGE_PROCESS_NEXT, 5, 10, 20⟩, ⟨IMAGE_PROCESS_ERROR_END, 5, 10, 20⟩]⟩
        = some r ∧
      r.obj.state = some { ({ calloc_nbio with is_finished := true } : nbio_handle_t) with
        data := some image1 } ∧
      image1 = { ({ sample_image IMAGE_STATUS_PROCESS_TRANSFER
            image_cb_t.cb_image_menu_upload_generic false 0 with
            processing_pos_increment := 2 } : nbio_image_handle) with
        ti := image1.ti
        processing_final_state := image1.processing_final_state
        status := image1.status } ∧
      ((r.calls = List.replicate 2 (Event.transfer_process 1 IMAGE_PROCESS_NEXT) ∧
          image1.status = IMAGE_STATUS_PROCESS_TRANSFER ∧
          image1.processing_final_state = 0) ∨
        (∃ k rv, k < 2 ∧ rv ≠ IMAGE_PROCESS_NEXT ∧
          r.calls = List.replicate k (Event.transfer_process 1 IMAGE_PROCESS_NEXT)
            ++ [Event.transfer_process 1 rv] ∧
          image1.status = IMAGE_STATUS_PROCESS_TRANSFER_PARSE ∧
          image1.processing_final_state = rv)) :=
  transition_from_process_transfer script_codec true calloc_task
    { calloc_nbio with is_finished := true }
    { sample_image IMAGE_STATUS_PROCESS_TRANSFER image_cb_t.cb_image_menu_upload_generic false 0
      with processing_pos_increment := 2 }
    ⟨4, [], [⟨IMAGE_PROCESS_NEXT, 5, 10, 20⟩, ⟨IMAGE_PROCESS_ERROR_END, 5, 10, 20⟩]⟩
    rfl (by decide)

/-- C18 as stated fails: a context in status `PROCESS_TRANSFER_PARSE` whose
decode ended on `IMAGE_PROCESS_END` is polled; the upload callback sets
`is_finished`, the poll returns `false`, and the status is still
`PROCESS_TRANSFER_PARSE`, not `TRANSFER_PARSE_FREE`. -/
theorem process_transfer_parse_not_freed_counterexample :
    (task_image_load_handler script_codec true
        (sample_task (sample_image IMAGE_STATUS_PROCESS_TRANSFER_PARSE
          image_cb_t.cb_image_menu_upload_generic false IMAGE_PROCESS_END) true)
        ⟨4, [], []⟩).map
      (fun r => (r.val, (task_image r.obj).map (fun image => (image.is_finished, image.status))))
      = some (false, some (true, IMAGE_STATUS_PROCESS_TRANSFER_PARSE)) := by
  decide

/-- C18, amended.  For a poll with status `PROCESS_TRANSFER_PARSE`, `image->cb` is
invoked exactly once if both the decode handle and the callback exist, and not
at all otherwise; and whether or not `is_finished` is set afterwards, the
status is still `PROCESS_TRANSFER_PARSE`. -/
theorem transition_from_process_transfer_parse (c : Codec σ) (malloc_ok : Bool)
    (task : retro_task_t) (nbio : nbio_handle_t) (image : nbio_image_handle) (w : σ)
    (hst : image.status = IMAGE_STATUS_PROCESS_TRANSFER_PARSE) :
    ∃ r image1, task_image_load_handler c malloc_ok
        { task with state := some { nbio with data := some image } } w = some r ∧
      task_image r.obj = some image1 ∧
      r.calls.countP Event.is_call_cb
        = (if image.handle ≠ 0 ∧ image.cb ≠ image_cb_t.NULL then 1 else 0) ∧
      (image.handle ≠ 0 ∧ image.cb ≠ image_cb_t.NULL →
        ∃ rest, r.calls = Event.call_cb image.cb :: rest) ∧
      image1.status = IMAGE_STATUS_PROCESS_TRANSFER_PARSE := by
  obtain ⟨r, hr, hcalls, _, hstate, _⟩ := handler_step c malloc_ok
    { task with state := some { nbio with data := some image } }
    { nbio with data := some image } image w rfl rfl
  have hsw : task_image_load_switch c { nbio with data := some image } image w =
      ⟨(), { (invoke_cb c { nbio with data := some image } image w).obj.1 with
          data := some (invoke_cb c { nbio with data := some image } image w).obj.2 },
        (invoke_cb c { nbio with data := some image } image w).world,
        (invoke_cb c { nbio with data := some image } image w).calls⟩ := by
    simp [task_image_load_switch, hst]
  rw [hsw] at hcalls hstate
  simp only at hcalls hstate
  obtain ⟨_, hstatus, hshape, _⟩ := invoke_cb_summary c nbio image w
  refine ⟨r, (invoke_cb c { nbio with data := some image } image w).obj.2, hr,
    by simp [task_image, hstate], ?_, ?_, by rw [hstatus, hst]⟩
  · rw [hcalls]
    by_cases hg : image.handle ≠ 0 ∧ image.cb ≠ image_cb_t.NULL
    · rw [if_pos hg]
      have hne : (invoke_cb c { nbio with data := some image } image w).calls ≠ [] := by
        unfold invoke_cb
        rw [if_pos hg]
        cases hcb : image.cb with
        | NULL => exact absurd hcb hg.2
        | cb_image_menu_thumbnail => simp [call_image_cb]
        | cb_image_menu_upload_generic => simp [call_image_cb]
      rcases hshape with h0 | ⟨cb, rest, hc, h1, _, _⟩
      · exact absurd h0 hne
      · rw [hc]
        simp [List.countP_cons, Event.is_call_cb, h1]
    · rw [if_neg hg]
      have hskip : image.handle = 0 ∨ image.cb = image_cb_t.NULL := by
        by_cases h0 : image.handle = 0
        · exact Or.inl h0
        · right
          by_contra hcb
          exact hg ⟨h0, hcb⟩
      rw [invoke_cb_skip c _ image w hskip]
      rfl
  · intro hg
    rw [hcalls]
    unfold invoke_cb
    rw [if_pos hg]
    cases hcb : image.cb with
    | NULL => exact absurd hcb hg.2
    | cb_image_menu_thumbnail => exact ⟨_, rfl⟩
    | cb_image_menu_upload_generic => exact ⟨_, rfl⟩

/-- C18 amended, at a concrete input: the poll that finishes a load. -/
theorem transition_from_process_transfer_parse_witness :
    ∃ r image1, task_image_load_handler script_codec true
        { calloc_task with state := some { ({ calloc_nbio with is_finished := true } :
            nbio_handle_t) with
          data := some (sample_image IMAGE_STATUS_PROCESS_TRANSFER_PARSE
            image_cb_t.cb_image_menu_upload_generic false IMAGE_PROCESS_END) } }
        ⟨4, [], []⟩ = some r ∧
      task_image r.obj = some image1 ∧
      r.calls.countP Event.is_call_cb
        = (if (sample_image IMAGE_STATUS_PROCESS_TRANSFER_PARSE
              image_cb_t.cb_image_menu_upload_generic false IMAGE_PROCESS_END).handle ≠ 0 ∧
            (sample_image IMAGE_STATUS_PROCESS_TRANSFER_PARSE
              image_cb_t.cb_image_menu_upload_generic false IMAGE_PROCESS_END).cb
              ≠ image_cb_t.NULL then 1 else 0) ∧
      ((sample_image IMAGE_STATUS_PROCESS_TRANSFER_PARSE
            image_cb_t.cb_image_menu_upload_generic false IMAGE_PROCESS_END).handle ≠ 0 ∧
          (sample_image IMAGE_STATUS_PROCESS_TRANSFER_PARSE
            image_cb_t.cb_image_menu_upload_generic false IMAGE_PROCESS_END).cb
            ≠ image_cb_t.NULL →
        ∃ rest, r.calls = Event.call_cb (sample_image IMAGE_STATUS_PROCESS_TRANSFER_PARSE
            image_cb_t.cb_image_menu_upload_generic false IMAGE_PROCESS_END).cb :: rest) ∧
      image1.status = IMAGE_STATUS_PROCESS_TRANSFER_PARSE :=
  transition_from_process_transfer_parse script_codec true calloc_task
    { calloc_nbio with is_finished := true }
    (sample_image IMAGE_STATUS_PROCESS_TRANSFER_PARSE
      image_cb_t.cb_image_menu_upload_generic false IMAGE_PROCESS_END)
    ⟨4, [], []⟩ rfl

/-! ### Runs evaluated on concrete codecs -/

/-- C19, evaluated on an empty PNG source whose decoder reports
`IMAGE_PROCESS_ERROR` on every step.  After construction and one successful
I/O-completion callback, the second poll makes the first decode step from
`TRANSFER_PARSE` and gets `IMAGE_PROCESS_ERROR`; the third poll calls
`image_transfer_process` again, and `processing_final_state` is still 0
(`IMAGE_PROCESS_NEXT`), not the error. -/
theorem decode_error_in_transfer_parse_not_recorded :
    (run_ops script_codec
        [task_op.io_completion 0, task_op.poll false true, task_op.poll false true,
          task_op.poll false true]
        (pushed_task script_codec "a.png".toList ⟨0, [], []⟩) ⟨0, [], []⟩).map
      (fun r => (r.val, r.calls.filter Event.is_process,
        (task_image r.obj).map (fun image => (image.status, image.processing_final_state))))
      = some ([op_result.completed 0, op_result.polled true, op_result.polled true,
          op_result.polled true],
        [Event.transfer_process 1 IMAGE_PROCESS_ERROR,
          Event.transfer_process 1 IMAGE_PROCESS_ERROR],
        some (IMAGE_STATUS_TRANSFER_PARSE, 0)) := by
  decide

/-- C11 as stated fails on a run with two successful I/O-completion callbacks.
The codec hands out handle 1 to the first and handle 2 to the second callback;
`task_image_load_free` then passes handle 2 to `image_transfer_free` and
releases the context once.  Handle 1 was returned by `image_transfer_new` and
is passed to `image_transfer_free` zero times. -/
theorem second_callback_leaks_first_handle :
    (run_ops fresh_handle_codec
        [task_op.io_completion 0, task_op.poll false true, task_op.io_completion 0]
        (pushed_task fresh_handle_codec "a.png".toList 0) 0).map
      (fun r => (r.val,
        r.calls ++ (task_image_load_free fresh_handle_codec (some r.obj) r.world).calls))
      = some ([op_result.completed 0, op_result.polled true, op_result.completed 0],
        [Event.transfer_new IMAGE_TYPE_PNG 1, Event.get_ptr, Event.transfer_set_buffer_ptr 1 1,
          Event.transfer_start 1 true, Event.transfer_iterate 1 false,
          Event.transfer_new IMAGE_TYPE_PNG 2, Event.get_ptr, Event.transfer_set_buffer_ptr 2 1,
          Event.transfer_start 2 true,
          Event.transfer_free 2, Event.free_image, Event.nbio_free 0, Event.free_nbio]) ∧
    (run_ops fresh_handle_codec
        [task_op.io_completion 0, task_op.poll false true, task_op.io_completion 0]
        (pushed_task fresh_handle_codec "a.png".toList 0) 0).map
      (fun r =>
        ((r.calls ++ (task_image_load_free fresh_handle_codec (some r.obj) r.world).calls).count
            (Event.transfer_new IMAGE_TYPE_PNG 1),
          (r.calls ++ (task_image_load_free fresh_handle_codec (some r.obj) r.world).calls).count
            (Event.transfer_free 1)))
      = some (1, 0) := by
  decide

/-- C13 as stated fails: after construction, a successful I/O-completion
callback and two polls the decode has ended and `image->is_finished` is true;
a further successful I/O-completion callback sets it back to false. -/
theorem finished_reset_by_callback_counterexample :
    (run_ops fresh_handle_codec
        [task_op.io_completion 0, task_op.poll false true, task_op.poll false true]
        (pushed_task fresh_handle_codec "a.png".toList 0) 0).map
      (fun r => (r.val, (task_image r.obj).map (fun image => image.is_finished)))
      = some ([op_result.completed 0, op_result.polled true, op_result.polled false],
        some true) ∧
    (run_ops fresh_handle_codec
        [task_op.io_completion 0, task_op.poll false true, task_op.poll false true,
          task_op.io_completion 0]
        (pushed_task fresh_handle_codec "a.png".toList 0) 0).map
      (fun r => (r.val, (task_image r.obj).map (fun image => image.is_finished)))
      = some ([op_result.completed 0, op_result.polled true, op_result.polled false,
          op_result.completed 0],
        some false) := by
  decide

/-- C14 as stated fails for a codec that reports 640 by 480 on its first decode
step and leaves its outputs untouched afterwards.  After the first decode
step (third operation) `ti` holds 640 by 480; the second decode step, made by
the next poll, does not report dimensions and yet `ti.width` and `ti.height`
are assigned again, to 0. -/
theorem dimensions_rewritten_counterexample :
    (run_ops report_once_codec
        [task_op.io_completion 0, task_op.poll false true, task_op.poll false true]
        (pushed_task report_once_codec "a.png".toList 0) 0).map
      (fun r => (r.calls.filter Event.is_process,
        (task_image r.obj).map (fun image => (image.ti.width, image.ti.height))))
      = some ([Event.transfer_process 1 IMAGE_PROCESS_NEXT], some (640, 480)) ∧
    (run_ops report_once_codec
        [task_op.io_completion 0, task_op.poll false true, task_op.poll false true,
          task_op.poll false true]
        (pushed_task report_once_codec "a.png".toList 0) 0).map
      (fun r => (r.calls.filter Event.is_process,
        (task_image r.obj).map (fun image => (image.ti.width, image.ti.height))))
      = some ([Event.transfer_process 1 IMAGE_PROCESS_NEXT,
          Event.transfer_process 1 IMAGE_PROCESS_NEXT], some (0, 0)) := by
  decide

/-- C15 as stated fails for a codec that reports 640 by 480 on the decode step
where it first succeeds and leaves its outputs untouched on the other steps:
with the decode spread over three polls, the fifth poll returns `false` and
hands off a descriptor of width 0 and height 0. -/
theorem delivered_dimensions_counterexample :
    (run_ops report_once_codec
        [task_op.io_completion 0, task_op.poll false true, task_op.poll false true,
          task_op.poll false true, task_op.poll false true, task_op.poll false true]
        (pushed_task report_once_codec "a.png".toList 0) 0).map
      (fun r => (r.val, r.calls.filter Event.is_process,
        r.obj.data.map (fun d => d.map (fun ti => (ti.width, ti.height)))))
      = some ([op_result.completed 0, op_result.polled true, op_result.polled true,
          op_result.polled true, op_result.polled true, op_result.polled false],
        [Event.transfer_process 1 IMAGE_PROCESS_NEXT, Event.transfer_process 1 IMAGE_PROCESS_NEXT,
          Event.transfer_process 1 IMAGE_PROCESS_END],
        some (some (0, 0))) := by
  decide

/-! ### Invariants along runs of polls and I/O-completion callbacks -/

/-- The guarded callback invocation, case by case: it is skipped; or the
thumbnail callback makes one decode step that reports an error and only `ti`
may change; or that step reports no error, the flags are set from its result
and the upload callback is installed; or the upload callback refuses after a
recorded error; or the upload callback converts the colours and marks the
context finished. -/
theorem invoke_cb_cases (c : Codec σ) (nbio : nbio_handle_t) (image : nbio_image_handle)
    (w : σ) :
    ((image.handle = 0 ∨ image.cb = image_cb_t.NULL) ∧
      invoke_cb c { nbio with data := some image } image w
        = ⟨(), ({ nbio with data := some image }, image), w, []⟩) ∨
    (image.handle ≠ 0 ∧ image.cb = image_cb_t.cb_image_menu_thumbnail ∧
      ((task_image_process c image 0 0 w).val = IMAGE_PROCESS_ERROR
        ∨ (task_image_process c image 0 0 w).val = IMAGE_PROCESS_ERROR_END) ∧
      invoke_cb c { nbio with data := some image } image w
        = ⟨(), ({ nbio with data := some (task_image_process c image 0 0 w).obj.1 },
            (task_image_process c image 0 0 w).obj.1),
          (task_image_process c image 0 0 w).world,
          [Event.call_cb image_cb_t.cb_image_menu_thumbnail,
            Event.transfer_process image.handle (task_image_process c image 0 0 w).val]⟩) ∨
    (image.handle ≠ 0 ∧ image.cb = image_cb_t.cb_image_menu_thumbnail ∧
      ¬ ((task_image_process c image 0 0 w).val = IMAGE_PROCESS_ERROR
        ∨ (task_image_process c image 0 0 w).val = IMAGE_PROCESS_ERROR_END) ∧
      invoke_cb c { nbio with data := some image } image w
        = ⟨(), ({ nbio with data := some { (task_image_process c image 0 0 w).obj.1 with
                is_blocking_on_processing :=
                  decide ((task_image_process c image 0 0 w).val ≠ IMAGE_PROCESS_END)
                is_finished := decide ((task_image_process c image 0 0 w).val = IMAGE_PROCESS_END)
                cb := image_cb_t.cb_image_menu_upload_generic } },
            { (task_image_process c image 0 0 w).obj.1 with
                is_blocking_on_processing :=
                  decide ((task_image_process c image 0 0 w).val ≠ IMAGE_PROCESS_END)
                is_finished := decide ((task_image_process c image 0 0 w).val = IMAGE_PROCESS_END)
                cb := image_cb_t.cb_image_menu_upload_generic }),
          (task_image_process c image 0 0 w).world,
          [Event.call_cb image_cb_t.cb_image_menu_thumbnail,
            Event.transfer_process image.handle (task_image_process c image 0 0 w).val]⟩) ∨
    (image.handle ≠ 0 ∧ image.cb = image_cb_t.cb_image_menu_upload_generic ∧
      (image.processing_final_state = IMAGE_PROCESS_ERROR
        ∨ image.processing_final_state = IMAGE_PROCESS_ERROR_END) ∧
      invoke_cb c { nbio with data := some image } image w
        = ⟨(), ({ nbio with data := some image }, image), w,
          [Event.call_cb image_cb_t.cb_image_menu_upload_generic]⟩) ∨
    (image.handle ≠ 0 ∧ image.cb = image_cb_t.cb_image_menu_upload_generic ∧
      ¬ (image.processing_final_state = IMAGE_PROCESS_ERROR
        ∨ image.processing_final_state = IMAGE_PROCESS_ERROR_END) ∧
      invoke_cb c { nbio with data := some image } image w
        = ⟨(), ({ nbio with
              data := some { image with
                ti := (c.image_texture_color_convert
                  (c.image_texture_set_color_shifts w image.ti).2.2
                  (c.image_texture_set_color_shifts w image.ti).1
                  (c.image_texture_set_color_shifts w image.ti).2.1).1
                is_blocking_on_processing := false
                is_blocking := true
                is_finished := true }
              is_finished := true },
            { image with
              ti := (c.image_texture_color_convert
                (c.image_texture_set_color_shifts w image.ti).2.2
                (c.image_texture_set_color_shifts w image.ti).1
                (c.image_texture_set_color_shifts w image.ti).2.1).1
              is_blocking_on_processing := false
              is_blocking := true
              is_finished := true }),
          (c.image_texture_color_convert
            (c.image_texture_set_color_shifts w image.ti).2.2
            (c.image_texture_set_color_shifts w image.ti).1
            (c.image_texture_set_color_shifts w image.ti).2.1).2,
          [Event.call_cb image_cb_t.cb_image_menu_upload_generic, Event.color_convert]⟩) := by
  by_cases hh : image.handle = 0
  · exact Or.inl ⟨Or.inl hh, invoke_cb_skip c _ image w (Or.inl hh)⟩
  · cases hcb : image.cb with
    | NULL => exact Or.inl ⟨Or.inr rfl, invoke_cb_skip c _ image w (Or.inr hcb)⟩
    | cb_image_menu_thumbnail =>
      have h := invoke_cb_thumbnail c nbio image w hh hcb
      by_cases he : (task_image_process c image 0 0 w).val = IMAGE_PROCESS_ERROR
          ∨ (task_image_process c image 0 0 w).val = IMAGE_PROCESS_ERROR_END
      · rw [if_pos he] at h
        exact Or.inr (Or.inl ⟨hh, rfl, he, h⟩)
      · rw [if_neg he] at h
        exact Or.inr (Or.inr (Or.inl ⟨hh, rfl, he, h⟩))
    | cb_image_menu_upload_generic =>
      by_cases he : image.processing_final_state = IMAGE_PROCESS_ERROR
          ∨ image.processing_final_state = IMAGE_PROCESS_ERROR_END
      · exact Or.inr (Or.inr (Or.inr (Or.inl
          ⟨hh, rfl, he, invoke_cb_upload_error c nbio image w hh hcb he⟩)))
      · refine Or.inr (Or.inr (Or.inr (Or.inr ⟨hh, rfl, he, ?_⟩)))
        unfold invoke_cb
        rw [if_pos ⟨hh, by simp [hcb]⟩]
        simp only [hcb, call_image_cb, cb_image_menu_upload_generic, he, if_false]
        rfl

/-- The I/O-completion callback on a task that owns a context, case by case:
`image_transfer_new` fails and nothing changes; or `cb_nbio_generic` fails and
the context is released; or the callback succeeds and the context gets a
non-null handle, the thumbnail callback, new step sizes and cleared
`is_blocking` and `is_finished`.  It makes no transfer or decode call. -/
theorem cb_nbio_image_menu_thumbnail_cases (c : Codec σ) (nbio : nbio_handle_t)
    (image : nbio_image_handle) (len : Nat) (w : σ) :
    (((cb_nbio_image_menu_thumbnail c { nbio with data := some image } len w).val = -1 ∧
        (cb_nbio_image_menu_thumbnail c { nbio with data := some image } len w).obj
          = { nbio with data := some image }) ∨
      ((cb_nbio_image_menu_thumbnail c { nbio with data := some image } len w).val = -1 ∧
        (cb_nbio_image_menu_thumbnail c { nbio with data := some image } len w).obj
          = { nbio with data := none }) ∨
      ((cb_nbio_image_menu_thumbnail c { nbio with data := some image } len w).val = 0 ∧
        ∃ handle size pi ppi, handle ≠ 0 ∧
          (cb_nbio_image_menu_thumbnail c { nbio with data := some image } len w).obj
            = { nbio with
                data := some { image with
                  handle := handle
                  size := size
                  cb := image_cb_t.cb_image_menu_thumbnail
                  pos_increment := pi
                  processing_pos_increment := ppi
                  is_blocking := false
                  is_finished := false }
                is_finished := true })) ∧
    ∀ e ∈ (cb_nbio_image_menu_thumbnail c { nbio with data := some image } len w).calls,
      e.codec_handle = none := by
  unfold cb_nbio_image_menu_thumbnail
  simp only
  by_cases hnew : (c.image_transfer_new w image.type).1 = 0
  · rw [if_pos hnew]
    exact ⟨Or.inl ⟨rfl, rfl⟩, by simp [Event.codec_handle]⟩
  · rw [if_neg hnew]
    unfold cb_nbio_generic
    simp only
    split
    · exact ⟨Or.inr (Or.inl ⟨rfl, rfl⟩),
        by simp [Event.codec_handle, task_image_load_free_internal]⟩
    · split
      · exact ⟨Or.inr (Or.inl ⟨rfl, rfl⟩),
          by simp [Event.codec_handle, task_image_load_free_internal]⟩
      · exact ⟨Or.inr (Or.inr ⟨rfl, _, _, _, _, hnew, rfl⟩), by simp [Event.codec_handle]⟩

/-- One step of a run keeps a property `J` of the owned context and produces
only calls with property `Q`, if every switch and every successful
I/O-completion callback do. -/
theorem run_ops_invariant (c : Codec σ) (J : nbio_image_handle → Prop) (Q : Event → Prop)
    (hQ : ∀ e : Event, e.codec_handle = none → Q e)
    (hswitch : ∀ (nbio : nbio_handle_t) (image : nbio_image_handle) (w : σ), J image →
      (∃ image1, (task_image_load_switch c { nbio with data := some image } image w).obj.data
          = some image1 ∧ J image1) ∧
        ∀ e ∈ (task_image_load_switch c { nbio with data := some image } image w).calls, Q e)
    (hio : ∀ (image : nbio_image_handle) (handle size pi ppi : Nat), J image → handle ≠ 0 →
      J { image with
          handle := handle
          size := size
          cb := image_cb_t.cb_image_menu_thumbnail
          pos_increment := pi
          processing_pos_increment := ppi
          is_blocking := false
          is_finished := false }) :
    ∀ (ops : List task_op) (task : retro_task_t) (w : σ)
      (r : Ret σ (List op_result) retro_task_t),
      task_image_all J task → run_ops c ops task w = some r →
      task_image_all J r.obj ∧ (∀ e ∈ r.calls, Q e) ∧ r.val.length = ops.length ∧
        (task.state.isSome = true → r.obj.state.isSome = true) := by
  intro ops
  induction ops with
  | nil =>
    intro task w r hJ hr
    simp only [run_ops, Option.some.injEq] at hr
    subst hr
    exact ⟨hJ, by simp, rfl, id⟩
  | cons op ops ih =>
    intro task w r hJ hr
    cases hst : task.state with
    | none =>
      cases op <;> simp [run_ops, task_image_load_handler, task_io_completion, hst] at hr
    | some nbio =>
      have step : ∀ (t1 : retro_task_t) (w1 : σ) (calls1 : List Event) (v : op_result)
          (nbio1 : nbio_handle_t), t1.state = some nbio1 →
          (∀ image1, nbio1.data = some image1 → J image1) → (∀ e ∈ calls1, Q e) →
          (match run_ops c ops t1 w1 with
            | none => none
            | some q => some ⟨v :: q.val, q.obj, q.world, calls1 ++ q.calls⟩) = some r →
          task_image_all J r.obj ∧ (∀ e ∈ r.calls, Q e) ∧ r.val.length = (op :: ops).length ∧
            ((some nbio).isSome = true → r.obj.state.isSome = true) := by
        intro t1 w1 calls1 v nbio1 hs1 hJ1 hQ1 hrun
        cases hq : run_ops c ops t1 w1 with
        | none => simp [hq] at hrun
        | some q =>
          simp only [hq, Option.some.injEq] at hrun
          subst hrun
          obtain ⟨h1, h2, h3, h4⟩ := ih t1 w1 q (by
            intro image1 hi
            simp only [task_image, hs1] at hi
            exact hJ1 image1 hi) hq
          refine ⟨h1, ?_, by simp [h3], fun _ => h4 (by simp [hs1])⟩
          intro e he
          simp only [List.mem_append] at he
          rcases he with he | he
          · exact hQ1 e he
          · exact h2 e he
      cases op with
      | poll cancelled malloc_ok =>
        simp only [run_ops] at hr
        cases hd : nbio.data with
        | none =>
          have hn : nbio = { nbio with data := none } := by
            cases nbio
            simp only at hd
            subst hd
            rfl
          have hh : task_image_load_handler c malloc_ok { task with cancelled := cancelled } w
              = some ⟨true, { task with cancelled := cancelled, state := some nbio }, w, []⟩ := by
            have := handler_of_not_condition c malloc_ok { task with cancelled := cancelled }
              { nbio with data := none } w
              (by simp [completion_condition, task_image_load_handler_switch])
            rw [← hn] at this
            have ht : ({ task with cancelled := cancelled } : retro_task_t)
                = { ({ task with cancelled := cancelled } : retro_task_t) with
                    state := some nbio } := by
              cases task
              simp only at hst
              subst hst
              rfl
            rw [ht]
            rw [this]
            simp [task_image_load_handler_switch, hd]
          rw [hh] at hr
          exact step _ w [] _ nbio rfl (by simp [hd]) (by simp) hr
        | some image =>
          obtain ⟨r1, hr1, hcalls, _, hstate, _⟩ := handler_step c malloc_ok
            { task with cancelled := cancelled } nbio image w hst hd
          rw [hr1] at hr
          obtain ⟨⟨image1, hd1, hJ1⟩, hQ1⟩ := hswitch nbio image w
            (hJ image (by simp [task_image, hst, hd]))
          refine step r1.obj r1.world r1.calls _ _ hstate ?_ ?_ hr
          · intro image2 hi
            rw [hd1] at hi
            cases hi
            exact hJ1
          · rw [hcalls]
            exact hQ1
      | io_completion len =>
        simp only [run_ops, task_io_completion, hst] at hr
        cases hcb : nbio.cb with
        | NULL =>
          simp only [call_nbio_cb, hcb] at hr
          refine step _ w [] _ nbio rfl ?_ (by simp) hr
          intro image1 hi
          exact hJ image1 (by simp [task_image, hst, hi])
        | cb_nbio_image_menu_thumbnail =>
          simp only [call_nbio_cb, hcb] at hr
          cases hd : nbio.data with
          | none =>
            have hcbn : cb_nbio_image_menu_thumbnail c nbio len w = ⟨-1, nbio, w, []⟩ := by
              simp [cb_nbio_image_menu_thumbnail, hd]
            rw [hcbn] at hr
            exact step _ w [] _ nbio rfl (by simp [hd]) (by simp) hr
          | some image =>
            have hn : nbio = { nbio with data := some image } := by
              cases nbio
              simp only at hd
              subst hd
              rfl
            obtain ⟨hcases, hcalls⟩ := cb_nbio_image_menu_thumbnail_cases c nbio image len w
            rw [← hn] at hcases hcalls
            refine step _ _ _ _ _ rfl ?_ (fun e he => hQ e (hcalls e he)) hr
            intro image1 hi
            rcases hcases with ⟨_, ho⟩ | ⟨_, ho⟩ | ⟨_, handle, size, pi, ppi, hh, ho⟩
            · rw [ho, hd] at hi
              cases hi
              exact hJ image (by simp [task_image, hst, hd])
            · rw [ho] at hi
              cases hi
            · rw [ho] at hi
              simp only [Option.some.injEq] at hi
              subst hi
              exact hio image handle size pi ppi (hJ image (by simp [task_image, hst, hd])) hh

/-- Every call of the transfer loop is a codec call made with `handle`. -/
theorem transfer_loop_handle (c : Codec σ) (handle : Nat) (type : image_type_enum) (n : Nat)
    (w : σ) :
    ∀ e ∈ (transfer_loop c handle type n w).calls, e.codec_handle = some handle := by
  intro e he
  rcases transfer_loop_shape c handle type n w with ⟨_, hc⟩ | ⟨_, k, _, hc⟩
  · rw [hc] at he
    rw [List.eq_of_mem_replicate he]
    rfl
  · rw [hc, List.mem_append] at he
    rcases he with he | he
    · rw [List.eq_of_mem_replicate he]
      rfl
    · rw [List.mem_singleton.mp he]
      rfl

/-- Every call of the decode loop is a codec call made with `image->handle`. -/
theorem process_transfer_loop_handle (c : Codec σ) (n : Nat) (rv : Int)
    (image : nbio_image_handle) (wd ht : Nat) (w : σ) :
    ∀ e ∈ (process_transfer_loop c n rv image wd ht w).calls,
      e.codec_handle = some image.handle := by
  intro e he
  rcases process_transfer_loop_shape c n rv image wd ht w with ⟨hc, _⟩ | ⟨_, k, _, hc⟩
  · rw [hc] at he
    rw [List.eq_of_mem_replicate he]
    rfl
  · rw [hc, List.mem_append] at he
    rcases he with he | he
    · rw [List.eq_of_mem_replicate he]
      rfl
    · rw [List.mem_singleton.mp he]
      rfl

/-- The switch never changes `image->handle`, and every codec call it makes is
made with that handle. -/
theorem task_image_load_switch_handle (c : Codec σ) (nbio : nbio_handle_t)
    (image : nbio_image_handle) (w : σ) :
    (∃ image1, (task_image_load_switch c { nbio with data := some image } image w).obj.data
        = some image1 ∧ image1.handle = image.handle) ∧
    ∀ e ∈ (task_image_load_switch c { nbio with data := some image } image w).calls,
      e.codec_handle = none ∨ e.codec_handle = some image.handle := by
  have hcb : (∃ image1, (invoke_cb c { nbio with data := some image } image w).obj.2 = image1 ∧
        image1.handle = image.handle) ∧
      ∀ e ∈ (invoke_cb c { nbio with data := some image } image w).calls,
        e.codec_handle = none ∨ e.codec_handle = some image.handle := by
    have hframe := task_image_process_frame c image 0 0 w
    rcases invoke_cb_cases c nbio image w with ⟨_, h⟩ | ⟨_, _, _, h⟩ | ⟨_, _, _, h⟩ |
      ⟨_, _, _, h⟩ | ⟨_, _, _, h⟩
    · rw [h]
      exact ⟨⟨_, rfl, rfl⟩, by simp⟩
    · rw [h]
      exact ⟨⟨_, rfl, by simp only; rw [hframe]⟩, by simp [Event.codec_handle]⟩
    · rw [h]
      exact ⟨⟨_, rfl, by simp only; rw [hframe]⟩, by simp [Event.codec_handle]⟩
    · rw [h]
      exact ⟨⟨_, rfl, rfl⟩, by simp [Event.codec_handle]⟩
    · rw [h]
      exact ⟨⟨_, rfl, rfl⟩, by simp [Event.codec_handle]⟩
  obtain ⟨⟨icb, hicb, hicbh⟩, hcbcalls⟩ := hcb
  unfold task_image_load_switch
  cases hs : image.status <;> simp only
  · exact ⟨⟨image, rfl, rfl⟩, by simp⟩
  · split
    · refine ⟨⟨_, rfl, ?_⟩, ?_⟩
      · rw [task_image_iterate_transfer_frame]
        split <;> rfl
      · intro e he
        right
        unfold task_image_iterate_transfer at he
        split at he
        · simp at he
        · exact transfer_loop_handle c image.handle image.type image.pos_increment w e he
    · exact ⟨⟨image, rfl, rfl⟩, by simp⟩
  · refine ⟨⟨_, rfl, ?_⟩, hcbcalls⟩
    rw [hicb]
    split <;> exact hicbh
  · refine ⟨⟨_, rfl, ?_⟩, ?_⟩
    · split
      · simp only
        rw [task_image_iterate_process_transfer_frame]
      · rw [task_image_iterate_process_transfer_frame]
    · intro e he
      right
      unfold task_image_iterate_process_transfer at he
      simp only at he
      split at he <;>
        exact process_transfer_loop_handle c image.processing_pos_increment 0 image 0 0 w e he
  · refine ⟨⟨_, rfl, ?_⟩, hcbcalls⟩
    rw [hicb]
    exact hicbh
  · exact ⟨⟨image, rfl, rfl⟩, by simp⟩

/-- The switch on an unfinished context in status `TRANSFER` with a transfer
budget of 0 makes no call and changes nothing. -/
theorem task_image_load_switch_fresh (c : Codec σ) (nbio : nbio_handle_t)
    (image : nbio_image_handle) (w : σ)
    (hst : image.status = IMAGE_STATUS_TRANSFER) (hpi : image.pos_increment = 0)
    (hf : image.is_finished = false) :
    task_image_load_switch c { nbio with data := some image } image w
      = ⟨(), { nbio with data := some image }, w, []⟩ := by
  unfold task_image_load_switch
  simp only [hst]
  split
  · simp [task_image_iterate_transfer, hf, hpi, transfer_loop]
  · rfl

/-- The switch keeps `fresh_without_handle` and makes no codec call with a null
handle. -/
theorem task_image_load_switch_fresh_without_handle (c : Codec σ) (nbio : nbio_handle_t)
    (image : nbio_image_handle) (w : σ) (hJ : fresh_without_handle image) :
    (∃ image1, (task_image_load_switch c { nbio with data := some image } image w).obj.data
        = some image1 ∧ fresh_without_handle image1) ∧
    ∀ e ∈ (task_image_load_switch c { nbio with data := some image } image w).calls,
      e.codec_handle ≠ some 0 := by
  by_cases hh : image.handle = 0
  · obtain ⟨hst, hpi, hf⟩ := hJ hh
    rw [task_image_load_switch_fresh c nbio image w hst hpi hf]
    exact ⟨⟨image, rfl, hJ⟩, by simp⟩
  · obtain ⟨⟨image1, hd, hh1⟩, hcalls⟩ := task_image_load_switch_handle c nbio image w
    refine ⟨⟨image1, hd, fun h0 => absurd (hh1 ▸ h0) hh⟩, ?_⟩
    intro e he
    rcases hcalls e he with h | h
    · rw [h]
      simp
    · rw [h]
      simpa using hh

/-- A poll of a task that awaits its first decode handle makes no call, returns
`true` and leaves the context and the external state as they are. -/
theorem handler_awaiting_first_handle (c : Codec σ) (malloc_ok cancelled : Bool)
    (task : retro_task_t) (w : σ) (hN : awaiting_first_handle task) :
    ∃ r, task_image_load_handler c malloc_ok { task with cancelled := cancelled } w = some r ∧
      r.calls = [] ∧ r.val = true ∧ r.obj.state = task.state ∧ r.world = w ∧
      r.obj.data = task.data := by
  obtain ⟨nbio, hs, _, himg⟩ := hN
  have ht : ({ task with cancelled := cancelled } : retro_task_t)
      = { ({ task with cancelled := cancelled } : retro_task_t) with state := some nbio } := by
    cases task
    simp only at hs
    subst hs
    rfl
  cases hd : nbio.data with
  | none =>
    have h := handler_of_not_condition c malloc_ok { task with cancelled := cancelled } nbio w
      (by simp [completion_condition, task_image_load_handler_switch, hd])
    rw [← ht] at h
    refine ⟨_, h, ?_, rfl, ?_, ?_, rfl⟩
    · simp [task_image_load_handler_switch, hd]
    · simp [task_image_load_handler_switch, hd, hs]
    · simp [task_image_load_handler_switch, hd]
  | some image =>
    obtain ⟨_, hst, hpi, hf⟩ := himg image hd
    have hn : nbio = { nbio with data := some image } := by
      cases nbio
      simp only at hd
      subst hd
      rfl
    obtain ⟨r, hr, hcalls, hworld, hstate, _, hval, hdata⟩ := handler_step c malloc_ok
      { task with cancelled := cancelled } nbio image w hs hd
    rw [task_image_load_switch_fresh c nbio image w hst hpi hf] at hcalls hworld hstate hval
    simp only at hcalls hworld hstate hval
    have hv : r.val = true := by
      rw [hval]
      simp [completion_condition, hf]
    refine ⟨r, hr, hcalls, hv, ?_, hworld, hdata hv⟩
    rw [hstate, hs, ← hn]

/-- A run in which no I/O-completion callback succeeds leaves a task that
awaits its first decode handle in that condition. -/
theorem run_ops_awaiting_first_handle (c : Codec σ) :
    ∀ (ops : List task_op) (task : retro_task_t) (w : σ)
      (r : Ret σ (List op_result) retro_task_t),
      awaiting_first_handle task → run_ops c ops task w = some r →
      (∀ x ∈ r.val, x ≠ op_result.completed 0) → awaiting_first_handle r.obj := by
  intro ops
  induction ops with
  | nil =>
    intro task w r hN hr _
    simp only [run_ops, Option.some.injEq] at hr
    subst hr
    exact hN
  | cons op ops ih =>
    intro task w r hN hr hval
    cases op with
    | poll cancelled malloc_ok =>
      obtain ⟨r1, hr1, _, _, hstate, _⟩ :=
        handler_awaiting_first_handle c malloc_ok cancelled task w hN
      simp only [run_ops, hr1] at hr
      cases hq : run_ops c ops r1.obj r1.world with
      | none => simp [hq] at hr
      | some q =>
        simp only [hq, Option.some.injEq] at hr
        subst hr
        refine ih r1.obj r1.world q ?_ hq (fun x hx => hval x (List.mem_cons_of_mem _ hx))
        obtain ⟨nbio, hs, hcb, himg⟩ := hN
        exact ⟨nbio, by rw [hstate, hs], hcb, himg⟩
    | io_completion len =>
      obtain ⟨nbio, hs, hcb, himg⟩ := hN
      simp only [run_ops, task_io_completion, hs, call_nbio_cb, hcb] at hr
      cases hq : run_ops c ops
          { task with state := some (cb_nbio_image_menu_thumbnail c nbio len w).obj }
          (cb_nbio_image_menu_thumbnail c nbio len w).world with
      | none => simp [hq] at hr
      | some q =>
        simp only [hq, Option.some.injEq] at hr
        subst hr
        refine ih _ _ q ?_ hq (fun x hx => hval x (List.mem_cons_of_mem _ hx))
        have hne : (cb_nbio_image_menu_thumbnail c nbio len w).val ≠ 0 := by
          intro h0
          exact hval (op_result.completed (cb_nbio_image_menu_thumbnail c nbio len w).val)
            (List.mem_cons_self _ _) (by rw [h0])
        cases hd : nbio.data with
        | none =>
          have hcbn : cb_nbio_image_menu_thumbnail c nbio len w = ⟨-1, nbio, w, []⟩ := by
            simp [cb_nbio_image_menu_thumbnail, hd]
          rw [hcbn]
          exact ⟨nbio, rfl, hcb, himg⟩
        | some image =>
          have hn : nbio = { nbio with data := some image } := by
            cases nbio
            simp only at hd
            subst hd
            rfl
          obtain ⟨hcases, _⟩ := cb_nbio_image_menu_thumbnail_cases c nbio image len w
          rw [← hn] at hcases
          rcases hcases with ⟨_, ho⟩ | ⟨_, ho⟩ | ⟨h0, _⟩
          · rw [ho]
            exact ⟨nbio, rfl, hcb, himg⟩
          · rw [ho]
            exact ⟨_, rfl, hcb, by simp⟩
          · exact absurd h0 hne

/-- C20. The codec is never driven through a null decode handle.  In every run
of polls and I/O-completion callbacks (succeeding or failing) on a task pushed
by `task_push_image_load`, every call of `image_transfer_iterate` or
`image_transfer_process` is made with a non-null handle.  In particular, as
long as no I/O-completion callback of the run has succeeded, a poll makes no
call at all, leaves the context unchanged and returns `true`. -/
theorem codec_never_driven_through_null_handle (c : Codec σ) (e : push_env)
    (fullpath : List Char) (cb user_data : Nat) (w0 w : σ) (t0 : retro_task_t)
    (ops : List task_op) (r : Ret σ (List op_result) retro_task_t)
    (hpush : (task_push_image_load c e fullpath cb user_data w0).obj = some t0)
    (hrun : run_ops c ops t0 w = some r) :
    (∀ ev ∈ r.calls, ev.codec_handle ≠ some 0) ∧
    ((∀ x ∈ r.val, x ≠ op_result.completed 0) →
      ∀ cancelled malloc_ok : Bool,
        ∃ r1, task_image_load_handler c malloc_ok { r.obj with cancelled := cancelled } r.world
            = some r1 ∧
          r1.calls = [] ∧ r1.val = true ∧ r1.obj.state = r.obj.state ∧ r1.world = r.world) := by
  obtain ⟨nbio, hs, hcb, _, hd⟩ := task_push_image_load_pushed c e fullpath cb user_data w0 t0 hpush
  constructor
  · refine (run_ops_invariant c fresh_without_handle (fun ev => ev.codec_handle ≠ some 0)
      (fun ev h => by simp [h])
      (fun nbio image w hJ => task_image_load_switch_fresh_without_handle c nbio image w hJ)
      (fun image handle size pi ppi _ hh h0 => absurd h0 hh) ops t0 w r ?_ hrun).2.1
    intro image hi
    simp only [task_image, hs, hd, Option.some.injEq] at hi
    subst hi
    intro _
    exact ⟨rfl, rfl, rfl⟩
  · intro hval cancelled malloc_ok
    have hN : awaiting_first_handle r.obj := by
      refine run_ops_awaiting_first_handle c ops t0 w r ⟨nbio, hs, hcb, ?_⟩ hrun hval
      intro image hi
      rw [hd] at hi
      simp only [Option.some.injEq] at hi
      subst hi
      exact ⟨rfl, rfl, rfl, rfl⟩
    obtain ⟨r1, h1, h2, h3, h4, h5, _⟩ :=
      handler_awaiting_first_handle c malloc_ok cancelled r.obj r.world hN
    exact ⟨r1, h1, h2, h3, h4, h5⟩

/-- C20, at a concrete input: a run with one poll before and two polls after a
successful I/O-completion callback. -/
theorem codec_never_driven_through_null_handle_witness :
    ∃ r, run_ops countdown_codec
        [task_op.poll false true, task_op.io_completion 0, task_op.poll false true,
          task_op.poll false true]
        (pushed_task countdown_codec "a.png".toList (1, 1)) (1, 1) = some r ∧
      (∀ ev ∈ r.calls, ev.codec_handle ≠ some 0) ∧
      r.calls.filter (fun ev => ev.codec_handle.isSome)
        = [Event.transfer_iterate 1 true, Event.transfer_iterate 1 false,
          Event.transfer_process 1 IMAGE_PROCESS_NEXT] := by
  refine ⟨(run_ops countdown_codec
      [task_op.poll false true, task_op.io_completion 0, task_op.poll false true,
        task_op.poll false true]
      (pushed_task countdown_codec "a.png".toList (1, 1)) (1, 1)).get (by decide), by simp, ?_,
    by decide⟩
  exact (codec_never_driven_through_null_handle countdown_codec ⟨true, true, true, false, 4096⟩
    "a.png".toList 0 0 (1, 1) (1, 1) (pushed_task countdown_codec "a.png".toList (1, 1))
    [task_op.poll false true, task_op.io_completion 0, task_op.poll false true,
      task_op.poll false true] _ rfl (by simp)).1

/-- The switch keeps `thumbnail_unfinished` and never clears `is_finished` on a
context that satisfies it. -/
theorem task_image_load_switch_thumbnail_unfinished (c : Codec σ) (nbio : nbio_handle_t)
    (image : nbio_image_handle) (w : σ) (hJ : thumbnail_unfinished image) :
    ∃ image1, (task_image_load_switch c { nbio with data := some image } image w).obj.data
        = some image1 ∧ thumbnail_unfinished image1 ∧
      (image.is_finished = true → image1.is_finished = true) := by
  have hcb : thumbnail_unfinished (invoke_cb c { nbio with data := some image } image w).obj.2 ∧
      (image.is_finished = true →
        (invoke_cb c { nbio with data := some image } image w).obj.2.is_finished = true) := by
    have hframe := task_image_process_frame c image 0 0 w
    rcases invoke_cb_cases c nbio image w with ⟨_, h⟩ | ⟨_, _, _, h⟩ | ⟨_, hc, _, h⟩ |
      ⟨_, _, _, h⟩ | ⟨_, hc, _, h⟩
    · rw [h]
      exact ⟨hJ, id⟩
    · rw [h]
      simp only
      rw [hframe]
      exact ⟨hJ, id⟩
    · rw [h]
      refine ⟨fun hx => by simp at hx, fun hf => ?_⟩
      rw [hJ hc] at hf
      cases hf
    · rw [h]
      exact ⟨hJ, id⟩
    · rw [h]
      exact ⟨fun hx => by simp [hc] at hx, fun _ => rfl⟩
  unfold task_image_load_switch
  cases hs : image.status <;> simp only
  · exact ⟨image, rfl, hJ, id⟩
  · split
    · refine ⟨_, rfl, ?_, ?_⟩ <;> rw [task_image_iterate_transfer_frame] <;> split <;>
        first | exact hJ | exact id
    · exact ⟨image, rfl, hJ, id⟩
  · refine ⟨_, rfl, ?_, ?_⟩ <;> split <;> first | exact hcb.1 | exact hcb.2
  · refine ⟨_, rfl, ?_, ?_⟩ <;> split <;>
      first
        | (rw [task_image_iterate_process_transfer_frame]; exact hJ)
        | (rw [task_image_iterate_process_transfer_frame]; exact id)
  · exact ⟨_, rfl, hcb.1, hcb.2⟩
  · exact ⟨image, rfl, hJ, id⟩

/-- C13, amended.  In every state reachable from a context pushed by
`task_push_image_load` through polls and I/O-completion callbacks, once
`image->is_finished` is true no poll sets it back to false; a successful
I/O-completion callback `cb_nbio_image_menu_thumbnail` does set it to false. -/
theorem finished_kept_by_polls (c : Codec σ) (e : push_env)
    (fullpath : List Char) (cb user_data : Nat) (w0 w : σ) (t0 : retro_task_t)
    (ops : List task_op) (r : Ret σ (List op_result) retro_task_t)
    (hpush : (task_push_image_load c e fullpath cb user_data w0).obj = some t0)
    (hrun : run_ops c ops t0 w = some r) :
    (∀ image, task_image r.obj = some image → image.is_finished = true →
      ∀ cancelled malloc_ok : Bool,
        ∃ r1 image1, task_image_load_handler c malloc_ok { r.obj with cancelled := cancelled }
            r.world = some r1 ∧
          task_image r1.obj = some image1 ∧ image1.is_finished = true) ∧
    (∀ (nbio : nbio_handle_t) (len : Nat), r.obj.state = some nbio →
      (cb_nbio_image_menu_thumbnail c nbio len r.world).val = 0 →
      ∃ image2, (cb_nbio_image_menu_thumbnail c nbio len r.world).obj.data = some image2 ∧
        image2.is_finished = false) := by
  obtain ⟨nbio0, hs0, _, _, hd0⟩ :=
    task_push_image_load_pushed c e fullpath cb user_data w0 t0 hpush
  obtain ⟨hJ, _⟩ := run_ops_invariant c thumbnail_unfinished (fun _ => True)
    (fun _ _ => trivial)
    (fun nbio image w hJ => by
      obtain ⟨image1, h1, h2, _⟩ := task_image_load_switch_thumbnail_unfinished c nbio image w hJ
      exact ⟨⟨image1, h1, h2⟩, fun _ _ => trivial⟩)
    (fun image handle size pi ppi _ _ _ => rfl) ops t0 w r
    (by
      intro image hi
      simp only [task_image, hs0, hd0, Option.some.injEq] at hi
      subst hi
      intro hx
      simp [calloc_image] at hx) hrun
  constructor
  · intro image hi hf cancelled malloc_ok
    unfold task_image at hi
    cases hst : r.obj.state with
    | none => simp [hst] at hi
    | some nbio =>
      simp only [hst] at hi
      obtain ⟨r1, hr1, _, _, hstate, _⟩ := handler_step c malloc_ok
        { r.obj with cancelled := cancelled } nbio image r.world hst hi
      obtain ⟨image1, h1, _, h3⟩ := task_image_load_switch_thumbnail_unfinished c nbio image
        r.world (hJ image (by simp [task_image, hst, hi]))
      exact ⟨r1, image1, hr1, by simp [task_image, hstate, h1], h3 hf⟩
  · intro nbio len _ hval
    cases hd : nbio.data with
    | none => simp [cb_nbio_image_menu_thumbnail, hd] at hval
    | some image =>
      have hn : nbio = { nbio with data := some image } := by
        cases nbio
        simp only at hd
        subst hd
        rfl
      obtain ⟨hcases, _⟩ := cb_nbio_image_menu_thumbnail_cases c nbio image len r.world
      rw [← hn] at hcases
      rcases hcases with ⟨h1, _⟩ | ⟨h1, _⟩ | ⟨_, handle, size, pi, ppi, _, ho⟩
      · rw [h1] at hval
        cases hval
      · rw [h1] at hval
        cases hval
      · rw [ho]
        exact ⟨_, rfl, rfl⟩

/-- C13 amended, at a concrete input: after the load has finished, a cancelled
poll leaves `is_finished` set. -/
theorem finished_kept_by_polls_witness :
    ∃ r, run_ops fresh_handle_codec
        [task_op.io_completion 0, task_op.poll false true, task_op.poll false true]
        (pushed_task fresh_handle_codec "a.png".toList 0) 0 = some r ∧
      (task_image r.obj).map (fun image => image.is_finished) = some true ∧
      ∀ image, task_image r.obj = some image → image.is_finished = true →
        ∀ cancelled malloc_ok : Bool,
          ∃ r1 image1, task_image_load_handler fresh_handle_codec malloc_ok
              { r.obj with cancelled := cancelled } r.world = some r1 ∧
            task_image r1.obj = some image1 ∧ image1.is_finished = true := by
  refine ⟨(run_ops fresh_handle_codec
      [task_op.io_completion 0, task_op.poll false true, task_op.poll false true]
      (pushed_task fresh_handle_codec "a.png".toList 0) 0).get (by decide), by simp, by decide, ?_⟩
  exact (finished_kept_by_polls fresh_handle_codec ⟨true, true, true, false, 4096⟩
    "a.png".toList 0 0 0 0 (pushed_task fresh_handle_codec "a.png".toList 0)
    [task_op.io_completion 0, task_op.poll false true, task_op.poll false true] _ rfl
    (by simp)).1

/-! ### The image dimensions -/

/-- A decode loop that makes no call leaves the image as it is. -/
theorem process_transfer_loop_no_call (c : Codec σ) (n : Nat) (rv : Int)
    (image : nbio_image_handle) (wd ht : Nat) (w : σ)
    (h : (process_transfer_loop c n rv image wd ht w).calls = []) :
    (process_transfer_loop c n rv image wd ht w).obj.1 = image := by
  cases n with
  | zero => rfl
  | succ n =>
    exfalso
    rcases process_transfer_loop_shape c (n + 1) rv image wd ht w with ⟨hc, _⟩ | ⟨_, k, _, hc⟩
    · rw [hc] at h
      simp [List.replicate_succ] at h
    · rw [hc] at h
      simp at h

/-- C14, amended.  `ti.width` and `ti.height` are assigned by every call of
`image_transfer_process` that does not return `IMAGE_PROCESS_ERROR`, each time
to the values the call leaves in its width and height outputs, and by no call
that returns `IMAGE_PROCESS_ERROR`; and a poll that makes no such call and no
colour conversion leaves them as they are. -/
theorem dimensions_written_by_decode_steps (c : Codec σ) :
    (∀ (image : nbio_image_handle) (width height : Nat) (w : σ),
      ((c.image_transfer_process w image.handle image.type image.ti.pixels image.size
            width height).1.retval ≠ IMAGE_PROCESS_ERROR →
        (task_image_process c image width height w).obj.1.ti.width
            = (c.image_transfer_process w image.handle image.type image.ti.pixels image.size
              width height).1.width ∧
          (task_image_process c image width height w).obj.1.ti.height
            = (c.image_transfer_process w image.handle image.type image.ti.pixels image.size
              width height).1.height) ∧
      ((c.image_transfer_process w image.handle image.type image.ti.pixels image.size
            width height).1.retval = IMAGE_PROCESS_ERROR →
        (task_image_process c image width height w).obj.1.ti.width = image.ti.width ∧
          (task_image_process c image width height w).obj.1.ti.height = image.ti.height)) ∧
    (∀ (malloc_ok : Bool) (task : retro_task_t) (nbio : nbio_handle_t)
        (image : nbio_image_handle) (w : σ),
      ∃ r image1, task_image_load_handler c malloc_ok
          { task with state := some { nbio with data := some image } } w = some r ∧
        task_image r.obj = some image1 ∧
        ((∀ e ∈ r.calls, e.is_process = false ∧ e ≠ Event.color_convert) →
          image1.ti.width = image.ti.width ∧ image1.ti.height = image.ti.height)) := by
  constructor
  · intro image width height w
    unfold task_image_process
    simp only
    constructor
    · intro h
      rw [if_neg h]
      exact ⟨rfl, rfl⟩
    · intro h
      rw [if_pos h]
      exact ⟨rfl, rfl⟩
  · intro malloc_ok task nbio image w
    obtain ⟨r, hr, hcalls, _, hstate, _⟩ := handler_step c malloc_ok
      { task with state := some { nbio with data := some image } }
      { nbio with data := some image } image w rfl rfl
    have key : ∃ image1,
        (task_image_load_switch c { nbio with data := some image } image w).obj.data
          = some image1 ∧
        ((∀ e ∈ (task_image_load_switch c { nbio with data := some image } image w).calls,
            e.is_process = false ∧ e ≠ Event.color_convert) →
          image1.ti = image.ti) := by
      have hcb : (∀ e ∈ (invoke_cb c { nbio with data := some image } image w).calls,
            e.is_process = false ∧ e ≠ Event.color_convert) →
          (invoke_cb c { nbio with data := some image } image w).obj.2.ti = image.ti := by
        rcases invoke_cb_cases c nbio image w with ⟨_, h⟩ | ⟨_, _, _, h⟩ | ⟨_, _, _, h⟩ |
          ⟨_, _, _, h⟩ | ⟨_, _, _, h⟩
        · rw [h]
          exact fun _ => rfl
        · rw [h]
          intro hx
          have := (hx (Event.transfer_process image.handle
            (task_image_process c image 0 0 w).val) (by simp)).1
          simp [Event.is_process] at this
        · rw [h]
          intro hx
          have := (hx (Event.transfer_process image.handle
            (task_image_process c image 0 0 w).val) (by simp)).1
          simp [Event.is_process] at this
        · rw [h]
          exact fun _ => rfl
        · rw [h]
          intro hx
          exact absurd rfl (hx Event.color_convert (by simp)).2
      unfold task_image_load_switch
      cases hs : image.status <;> simp only
      · exact ⟨image, rfl, fun _ => rfl⟩
      · split
        · refine ⟨_, rfl, fun _ => ?_⟩
          rw [task_image_iterate_transfer_frame]
          split <;> rfl
        · exact ⟨image, rfl, fun _ => rfl⟩
      · refine ⟨_, rfl, fun hx => ?_⟩
        split <;> exact hcb hx
      · refine ⟨_, rfl, fun hx => ?_⟩
        have hnil : (process_transfer_loop c image.processing_pos_increment 0 image 0 0 w).calls
            = [] := by
          have hall := (task_image_iterate_process_transfer_calls c image w).2
          cases hc : (task_image_iterate_process_transfer c image w).calls with
          | nil =>
            unfold task_image_iterate_process_transfer at hc
            simp only at hc
            split at hc <;> exact hc
          | cons e es =>
            have h1 := (hall e (by rw [hc]; exact List.mem_cons_self _ _)).1
            have h2 := (hx e (by rw [hc]; exact List.mem_cons_self _ _)).1
            rw [h1] at h2
            cases h2
        have hobj := process_transfer_loop_no_call c image.processing_pos_increment 0 image 0 0 w
          hnil
        unfold task_image_iterate_process_transfer
        simp only
        split <;> split <;> simp [hobj]
      · exact ⟨_, rfl, hcb⟩
      · exact ⟨image, rfl, fun _ => rfl⟩
    obtain ⟨image1, hd1, hti⟩ := key
    refine ⟨r, image1, hr, by simp [task_image, hstate, hd1], fun hx => ?_⟩
    rw [hcalls] at hx
    rw [hti hx]
    exact ⟨rfl, rfl⟩

/-- C14 amended, at a concrete input: a decode step that returns
`IMAGE_PROCESS_NEXT` and leaves 10 and 20 in its outputs. -/
theorem dimensions_written_by_decode_steps_witness :
    (task_image_process script_codec
        (sample_image IMAGE_STATUS_PROCESS_TRANSFER image_cb_t.cb_image_menu_upload_generic
          false 0) 0 0 ⟨4, [], [⟨IMAGE_PROCESS_NEXT, 5, 10, 20⟩]⟩).obj.1.ti.width = 10 ∧
      (task_image_process script_codec
        (sample_image IMAGE_STATUS_PROCESS_TRANSFER image_cb_t.cb_image_menu_upload_generic
          false 0) 0 0 ⟨4, [], [⟨IMAGE_PROCESS_NEXT, 5, 10, 20⟩]⟩).obj.1.ti.height = 20 :=
  ((dimensions_written_by_decode_steps script_codec).1
    (sample_image IMAGE_STATUS_PROCESS_TRANSFER image_cb_t.cb_image_menu_upload_generic false 0)
    0 0 ⟨4, [], [⟨IMAGE_PROCESS_NEXT, 5, 10, 20⟩]⟩).1 (by decide)

/-! ### The dimensions a load delivers -/

/-- A decode step that ends the decode leaves the reported dimensions in
`image->ti`. -/
theorem task_image_process_dimensions (c : Codec σ) (W H : Nat) (hend : dimensions_on_end c W H)
    (image : nbio_image_handle) (wd ht : Nat) (w : σ)
    (h1 : (task_image_process c image wd ht w).val ≠ IMAGE_PROCESS_NEXT)
    (h2 : (task_image_process c image wd ht w).val ≠ IMAGE_PROCESS_ERROR)
    (h3 : (task_image_process c image wd ht w).val ≠ IMAGE_PROCESS_ERROR_END) :
    (task_image_process c image wd ht w).obj.1.ti.width = W ∧
      (task_image_process c image wd ht w).obj.1.ti.height = H := by
  unfold task_image_process at h1 h2 h3 ⊢
  simp only at h1 h2 h3 ⊢
  split at h1
  · next he =>
    rw [if_pos he] at h2
    exact absurd rfl h2
  · next he =>
    rw [if_neg he] at h2 h3 ⊢
    exact hend _ _ _ _ _ _ _ h1 h2 h3

/-- A decode burst that stops on a result other than `IMAGE_PROCESS_NEXT` and
the error codes leaves the reported dimensions in `image->ti`. -/
theorem process_transfer_loop_dimensions (c : Codec σ) (W H : Nat)
    (hend : dimensions_on_end c W H) (n : Nat) (rv : Int) (image : nbio_image_handle)
    (wd ht : Nat) (w : σ) (h0 : n = 0 → rv = IMAGE_PROCESS_NEXT)
    (h1 : (process_transfer_loop c n rv image wd ht w).val ≠ IMAGE_PROCESS_NEXT)
    (h2 : (process_transfer_loop c n rv image wd ht w).val ≠ IMAGE_PROCESS_ERROR)
    (h3 : (process_transfer_loop c n rv image wd ht w).val ≠ IMAGE_PROCESS_ERROR_END) :
    (process_transfer_loop c n rv image wd ht w).obj.1.ti.width = W ∧
      (process_transfer_loop c n rv image wd ht w).obj.1.ti.height = H := by
  induction n generalizing rv image wd ht w with
  | zero => exact absurd (h0 rfl) h1
  | succ n ih =>
    unfold process_transfer_loop at h1 h2 h3 ⊢
    simp only at h1 h2 h3 ⊢
    by_cases hp : (task_image_process c image wd ht w).val ≠ IMAGE_PROCESS_NEXT
    · rw [if_pos hp] at h1 h2 h3 ⊢
      exact task_image_process_dimensions c W H hend image wd ht w h1 h2 h3
    · rw [if_neg hp] at h1 h2 h3 ⊢
      exact ih _ _ _ _ _ (fun _ => not_not.mp hp) h1 h2 h3

/-- The switch keeps the delivery invariant. -/
theorem task_image_load_switch_delivery (c : Codec σ) (W H : Nat)
    (hend : dimensions_on_end c W H) (hcc : conversion_keeps_dimensions c)
    (nbio : nbio_handle_t) (image : nbio_image_handle) (w : σ)
    (hI : delivery_invariant W H image) :
    ∃ image1, (task_image_load_switch c { nbio with data := some image } image w).obj.data
        = some image1 ∧ delivery_invariant W H image1 := by
  have hI0 := hI
  obtain ⟨hh, hcbn, hfin, hth, htr, htp, hpt, hptp⟩ := hI
  have hframe := task_image_process_frame c image 0 0 w
  have hdims := task_image_process_dimensions c W H hend image 0 0 w
  unfold task_image_load_switch
  cases hs : image.status <;> simp only
  · exact ⟨image, rfl, hI0⟩
  · split
    · refine ⟨_, rfl, ?_⟩
      rw [task_image_iterate_transfer_frame]
      split
      · have hc := htr hs
        (clear hframe hdims hI0; simp_all [delivery_invariant])
      · exact hI0
    · exact ⟨image, rfl, hI0⟩
  · refine ⟨_, rfl, ?_⟩
    rcases invoke_cb_cases c nbio image w with ⟨hsk, _⟩ | ⟨_, hc, _, h⟩ | ⟨_, hc, he, h⟩ |
      ⟨_, hc, _, h⟩ | ⟨_, hc, he, h⟩
    · rcases hsk with hsk | hsk
      · exact absurd hsk hh
      · exact absurd hsk hcbn
    · rw [h]
      simp only
      rw [hframe]
      have := hth hc
      (clear hframe hdims hI0; simp_all [delivery_invariant])
    · rw [h]
      simp only
      rw [hframe]
      have := hth hc
      push_neg at he
      by_cases hv : (task_image_process c image 0 0 w).val = IMAGE_PROCESS_END
      · have hd := hdims (by rw [hv]; decide) he.1 he.2
        (clear hframe hdims hI0; simp_all [delivery_invariant])
      · (clear hframe hdims hI0; simp_all [delivery_invariant])
    · rw [h]
      simp only
      have := htp hs hc
      (clear hframe hdims hI0; simp_all [delivery_invariant])
    · rw [h]
      simp only
      have hx := htp hs hc
      have hd := hfin hx.1
      have hk := hcc w image.ti
      (clear hframe hdims hI0; simp_all [delivery_invariant])
  · refine ⟨_, rfl, ?_⟩
    have hx := hpt hs
    have hlf := process_transfer_loop_frame c image.processing_pos_increment 0 image 0 0 w
    have hld := process_transfer_loop_dimensions c W H hend image.processing_pos_increment 0
      image 0 0 w (fun _ => rfl)
    unfold task_image_iterate_process_transfer
    simp only
    by_cases hv : (process_transfer_loop c image.processing_pos_increment 0 image 0 0 w).val
        = IMAGE_PROCESS_NEXT
    · rw [if_pos hv]
      simp only [show ((0 : Int) = -1) = False from by simp, if_false]
      rw [hlf]
      (clear hframe hdims hI0 hlf hld; simp_all [delivery_invariant])
    · rw [if_neg hv]
      simp only [if_true]
      rw [hlf]
      by_cases he : (process_transfer_loop c image.processing_pos_increment 0 image 0 0 w).val
            = IMAGE_PROCESS_ERROR
          ∨ (process_transfer_loop c image.processing_pos_increment 0 image 0 0 w).val
            = IMAGE_PROCESS_ERROR_END
      · (clear hframe hdims hI0 hlf hld; simp_all [delivery_invariant])
      · push_neg at he
        have hd := hld hv he.1 he.2
        (clear hframe hdims hI0 hlf hld; simp_all [delivery_invariant])
  · refine ⟨_, rfl, ?_⟩
    have hx := hptp hs
    rcases invoke_cb_cases c nbio image w with ⟨hsk, _⟩ | ⟨_, hc, _, h⟩ | ⟨_, hc, he, h⟩ |
      ⟨_, hc, _, h⟩ | ⟨_, hc, he, h⟩
    · rcases hsk with hsk | hsk
      · exact absurd hsk hh
      · exact absurd hsk hcbn
    · rw [hx.1] at hc
      cases hc
    · rw [hx.1] at hc
      cases hc
    · rw [h]
      exact hI0
    · rw [h]
      simp only
      have hk := hcc w image.ti
      have hd : image.ti.width = W ∧ image.ti.height = H := by
        cases hf : image.is_finished with
        | true => exact hfin hf
        | false =>
          rcases hx.2 hf with h1 | h1
          · exact absurd h1 he
          · exact h1
      (clear hframe hdims hI0; simp_all [delivery_invariant])
  · exact ⟨image, rfl, hI0⟩

/-- One poll of a task that owns a context: the task's data stays as it was, or
the completion condition held and the data is the copy of the descriptor. -/
theorem handler_step_data (c : Codec σ) (malloc_ok : Bool) (task : retro_task_t)
    (nbio : nbio_handle_t) (image : nbio_image_handle) (w : σ)
    (hs : task.state = some nbio) (hd : nbio.data = some image) :
    ∃ r, task_image_load_handler c malloc_ok task w = some r ∧
      r.world = (task_image_load_switch c { nbio with data := some image } image w).world ∧
      r.obj.state = some (task_image_load_switch c { nbio with data := some image } image w).obj ∧
      (r.obj.data = task.data ∨
        (completion_condition
            (task_image_load_switch c { nbio with data := some image } image w).obj
            task.cancelled = true ∧
          r.obj.data = some (completion_data malloc_ok
            (task_image_load_switch c { nbio with data := some image } image w).obj))) := by
  have hn : nbio = { nbio with data := some image } := by
    cases nbio
    simp only at hd
    subst hd
    rfl
  have ht : task = { task with state := some { nbio with data := some image } } := by
    cases task
    simp only at hs
    subst hs
    rw [← hn]
  have hsw : task_image_load_handler_switch c { nbio with data := some image } w =
      task_image_load_switch c { nbio with data := some image } image w := rfl
  by_cases hcc : completion_condition
      (task_image_load_switch c { nbio with data := some image } image w).obj task.cancelled = true
  · have h := handler_of_condition c malloc_ok task { nbio with data := some image } w
      (by rw [hsw]; exact hcc)
    rw [← ht, hsw] at h
    exact ⟨_, h, rfl, rfl, Or.inr ⟨hcc, rfl⟩⟩
  · have hcf : completion_condition
        (task_image_load_switch c { nbio with data := some image } image w).obj task.cancelled
          = false := by simpa using hcc
    have h := handler_of_not_condition c malloc_ok task { nbio with data := some image } w
      (by rw [hsw]; exact hcf)
    rw [← ht, hsw] at h
    exact ⟨_, h, rfl, rfl, Or.inl rfl⟩

/-- Polls keep the delivery invariant, and every descriptor they hand to the
task holds the reported dimensions. -/
theorem run_polls_delivery (c : Codec σ) (W H : Nat) (hend : dimensions_on_end c W H)
    (hcc : conversion_keeps_dimensions c) (inputs : List poll_input) (task : retro_task_t)
    (w : σ) (r : Ret σ (List Bool) retro_task_t)
    (hdata : ∀ ti, task.data = some (some ti) → ti.width = W ∧ ti.height = H)
    (hI : ∃ image, task_image task = some image ∧ delivery_invariant W H image)
    (hrun : run_polls c inputs task w = some r) :
    (∀ ti, r.obj.data = some (some ti) → ti.width = W ∧ ti.height = H) ∧
      ∃ image, task_image r.obj = some image ∧ delivery_invariant W H image := by
  induction inputs generalizing task w r with
  | nil =>
    simp only [run_polls, Option.some.injEq] at hrun
    subst hrun
    exact ⟨hdata, hI⟩
  | cons i is ih =>
    obtain ⟨image, hi, hinv⟩ := hI
    unfold task_image at hi
    cases hst : task.state with
    | none => simp [hst] at hi
    | some nbio =>
      simp only [hst] at hi
      obtain ⟨r1, hr1, _, hstate, hdat⟩ := handler_step_data c i.malloc_ok
        { task with cancelled := i.cancelled } nbio image w hst hi
      obtain ⟨image1, h1, hinv1⟩ :=
        task_image_load_switch_delivery c W H hend hcc nbio image w hinv
      rw [run_polls_cons c i is task w r1 hr1] at hrun
      cases hq : run_polls c is r1.obj r1.world with
      | none => simp [hq] at hrun
      | some q =>
        simp only [hq, Option.map_some', Option.some.injEq] at hrun
        subst hrun
        refine ih r1.obj r1.world q ?_ ⟨image1, by simp [task_image, hstate, h1], hinv1⟩ hq
        intro ti hti
        rcases hdat with hdat | ⟨hcond, hdat⟩
        · rw [hdat] at hti
          exact hdata ti hti
        · rw [hdat] at hti
          simp only [completion_data, h1, Option.some.injEq] at hti
          simp only [completion_condition, h1, Bool.and_eq_true] at hcond
          split at hti
          · simp only [Option.some.injEq] at hti
            subst hti
            exact hinv1.2.2.1 hcond.1.2
          · cases hti

/-- C15, amended.  For a codec whose decode reports `W` by `H` on the call that
ends it and whose colour conversion keeps the width and the height: after
`task_push_image_load` and a successful I/O-completion callback, every
descriptor that a sequence of polls hands to the task holds `W` by `H`. -/
theorem delivered_dimensions_match (c : Codec σ) (W H : Nat) (e : push_env)
    (fullpath : List Char) (cb user_data len : Nat) (w0 w : σ) (t0 : retro_task_t)
    (r1 : Ret σ Int retro_task_t) (inputs : List poll_input)
    (r : Ret σ (List Bool) retro_task_t)
    (hend : dimensions_on_end c W H) (hcc : conversion_keeps_dimensions c)
    (hpush : (task_push_image_load c e fullpath cb user_data w0).obj = some t0)
    (hio : task_io_completion c t0 len w = some r1) (hok : r1.val = 0)
    (hrun : run_polls c inputs r1.obj r1.world = some r) :
    ∀ ti, r.obj.data = some (some ti) → ti.width = W ∧ ti.height = H := by
  obtain ⟨nbio0, hs0, hcb0, _, hd0⟩ :=
    task_push_image_load_pushed c e fullpath cb user_data w0 t0 hpush
  have hdata0 : t0.data = none := by
    unfold task_push_image_load at hpush
    split at hpush
    · simp at hpush
    · split at hpush
      · simp at hpush
      · split at hpush
        · simp at hpush
        · simp only [Option.some.injEq] at hpush
          subst hpush
          rfl
  have hn : nbio0 = { nbio0 with data := some { calloc_image with
      type := (infer_type fullpath).2, status := IMAGE_STATUS_TRANSFER } } := by
    cases nbio0
    simp only at hd0
    subst hd0
    rfl
  simp only [task_io_completion, hs0, call_nbio_cb, hcb0, Option.some.injEq] at hio
  subst hio
  simp only at hok hrun
  obtain ⟨hcases, _⟩ := cb_nbio_image_menu_thumbnail_cases c nbio0 { calloc_image with
      type := (infer_type fullpath).2, status := IMAGE_STATUS_TRANSFER } len w
  rw [← hn] at hcases
  rcases hcases with ⟨h1, _⟩ | ⟨h1, _⟩ | ⟨_, handle, size, pi, ppi, hh, ho⟩
  · rw [h1] at hok
    cases hok
  · rw [h1] at hok
    cases hok
  · refine (run_polls_delivery c W H hend hcc inputs _ _ r ?_ ?_ hrun).1
    · intro ti hti
      simp [hdata0] at hti
    · rw [ho]
      exact ⟨_, rfl, by simp [delivery_invariant, calloc_image, hh]⟩

/-- C15 amended, at a concrete input: a PNG load through a codec that reports
640 by 480, polled four times after its I/O-completion callback; the fourth
poll returns `false` and hands over a descriptor, which holds 640 by 480. -/
theorem delivered_dimensions_match_witness :
    ∃ r1 r, task_io_completion countdown_codec
        (pushed_task countdown_codec "a.png".toList (1, 1)) 4096 (1, 1) = some r1 ∧
      run_polls countdown_codec (List.replicate 4 ⟨false, true⟩) r1.obj r1.world = some r ∧
      r.val = [true, true, true, false] ∧
      (r.obj.data.map (fun d => d.isSome)) = some true ∧
      ∀ ti, r.obj.data = some (some ti) → ti.width = 640 ∧ ti.height = 480 := by
  refine ⟨(task_io_completion countdown_codec
      (pushed_task countdown_codec "a.png".toList (1, 1)) 4096 (1, 1)).get (by decide),
    (run_polls countdown_codec (List.replicate 4 ⟨false, true⟩)
      ((task_io_completion countdown_codec
        (pushed_task countdown_codec "a.png".toList (1, 1)) 4096 (1, 1)).get (by decide)).obj
      ((task_io_completion countdown_codec
        (pushed_task countdown_codec "a.png".toList (1, 1)) 4096 (1, 1)).get
          (by decide)).world).get (by decide),
    by simp, by simp, by decide, by decide, ?_⟩
  exact delivered_dimensions_match countdown_codec 640 480 ⟨true, true, true, false, 4096⟩
    "a.png".toList 0 0 4096 (1, 1) (1, 1) (pushed_task countdown_codec "a.png".toList (1, 1))
    ((task_io_completion countdown_codec
      (pushed_task countdown_codec "a.png".toList (1, 1)) 4096 (1, 1)).get (by decide))
    (List.replicate 4 ⟨false, true⟩)
    ((run_polls countdown_codec (List.replicate 4 ⟨false, true⟩)
      ((task_io_completion countdown_codec
        (pushed_task countdown_codec "a.png".toList (1, 1)) 4096 (1, 1)).get (by decide)).obj
      ((task_io_completion countdown_codec
        (pushed_task countdown_codec "a.png".toList (1, 1)) 4096 (1, 1)).get
          (by decide)).world).get (by decide))
    (by
      intro w handle type pixels size width height h1 _ _
      simp only [countdown_codec] at h1 ⊢
      split at h1
      · next h0 => simp [h0]
      · exact absurd rfl h1)
    (fun _ _ => ⟨rfl, rfl⟩) rfl (by simp) (by decide) (by simp)

/-! ### Release of the decode handle and the context -/

/-- Calls that hand out and release nothing do not count. -/
theorem quiet_calls_counts (calls : List Event) (hq : ∀ e ∈ calls, e.is_lifecycle = false) :
    calls.count Event.free_image = 0 ∧ (∀ h : Nat, calls.count (Event.transfer_free h) = 0) ∧
      calls.countP Event.is_new_handle = 0 ∧
      ∀ (type : image_type_enum) (h : Nat), h ≠ 0 → Event.transfer_new type h ∉ calls := by
  refine ⟨?_, ?_, ?_, ?_⟩
  · rw [List.count_eq_zero]
    intro hm
    have := hq _ hm
    simp [Event.is_lifecycle] at this
  · intro h
    rw [List.count_eq_zero]
    intro hm
    have := hq _ hm
    simp [Event.is_lifecycle] at this
  · rw [List.countP_eq_zero]
    intro e he hn
    have := hq e he
    cases e <;> simp_all [Event.is_lifecycle, Event.is_new_handle]
  · intro type h hh hm
    have := hq _ hm
    simp [Event.is_lifecycle, hh] at this

/-- Calls that hand out and release nothing keep the cleanup state. -/
theorem cleanup_state_quiet (pre calls : List Event) (held : Option (Option Nat))
    (hq : ∀ e ∈ calls, e.is_lifecycle = false) (h : cleanup_state pre held) :
    cleanup_state (pre ++ calls) held := by
  obtain ⟨q1, q2, q3, q4⟩ := quiet_calls_counts calls hq
  cases held with
  | none => exact h
  | some x =>
    cases x with
    | none =>
      obtain ⟨h1, h2⟩ := h
      refine ⟨by rw [List.count_append, h1, q1], ?_⟩
      intro hc type h hh hm
      rw [List.countP_append, q3] at hc
      rw [List.mem_append] at hm
      rcases hm with hm | hm
      · rw [List.count_append, h2 hc type h hh hm, q2 h]
      · exact absurd hm (q4 type h hh)
    | some x =>
      obtain ⟨h1, h2, h3⟩ := h
      refine ⟨by rw [List.count_append, h1, q1], ?_, ?_⟩
      · intro h
        rw [List.count_append, h2 h, q2 h]
      · intro hc type h hh hm
        rw [List.countP_append, q3] at hc
        rw [List.mem_append] at hm
        rcases hm with hm | hm
        · exact h3 hc type h hh hm
        · exact absurd hm (q4 type h hh)

/-- A new handle stored in a live context: the cleanup state afterwards. -/
theorem cleanup_state_acquire (pre : List Event) (x : Nat) (type : image_type_enum)
    (handle : Nat) (hh : handle ≠ 0) (h : cleanup_state pre (some (some x))) :
    cleanup_state (pre ++ [Event.transfer_new type handle]) (some (some handle)) := by
  obtain ⟨h1, h2, _⟩ := h
  refine ⟨?_, ?_, ?_⟩
  · rw [List.count_append, h1]
    simp
  · intro h
    rw [List.count_append, h2 h]
    simp
  · intro hc ty h hn hm
    rw [List.countP_append] at hc
    have hone : List.countP Event.is_new_handle [Event.transfer_new type handle] = 1 := by
      simp [Event.is_new_handle, hh]
    rw [hone] at hc
    have hz : pre.countP Event.is_new_handle = 0 := by omega
    rw [List.countP_eq_zero] at hz
    rw [List.mem_append] at hm
    rcases hm with hm | hm
    · have := hz _ hm
      simp [Event.is_new_handle, hn] at this
    · simp only [List.mem_singleton, Event.transfer_new.injEq] at hm
      exact hm.2

/-- The release of a live context together with the handle it holds: the
cleanup state afterwards. -/
theorem cleanup_state_release (pre : List Event) (x : Nat)
    (h : cleanup_state pre (some (some x))) :
    cleanup_state (pre ++ [Event.transfer_free x, Event.free_image]) (some none) := by
  obtain ⟨h1, h2, h3⟩ := h
  refine ⟨?_, ?_⟩
  · rw [List.count_append, h1]
    simp
  · intro hc type h hn hm
    have hz : List.countP Event.is_new_handle [Event.transfer_free x, Event.free_image] = 0 := by
      simp [Event.is_new_handle]
    rw [List.countP_append, hz] at hc
    rw [List.mem_append] at hm
    rcases hm with hm | hm
    · have hx := h3 hc type h hn hm
      subst hx
      rw [List.count_append, h2 h]
      simp
    · simp at hm

/-- The switch hands out and releases nothing. -/
theorem task_image_load_switch_quiet (c : Codec σ) (nbio : nbio_handle_t)
    (image : nbio_image_handle) (w : σ) :
    ∀ e ∈ (task_image_load_switch c { nbio with data := some image } image w).calls,
      e.is_lifecycle = false := by
  have hit : ∀ e : Event, e.is_iterate = true → e.is_lifecycle = false := by
    intro e he
    cases e <;> simp_all [Event.is_iterate, Event.is_lifecycle]
  have hpr : ∀ e : Event, e.is_process = true → e.is_lifecycle = false := by
    intro e he
    cases e <;> simp_all [Event.is_process, Event.is_lifecycle]
  have hcb : ∀ e ∈ (invoke_cb c { nbio with data := some image } image w).calls,
      e.is_lifecycle = false := by
    rcases invoke_cb_cases c nbio image w with ⟨_, h⟩ | ⟨_, _, _, h⟩ | ⟨_, _, _, h⟩ |
      ⟨_, _, _, h⟩ | ⟨_, _, _, h⟩ <;> rw [h] <;> simp [Event.is_lifecycle]
  unfold task_image_load_switch
  cases hs : image.status <;> simp only
  · simp
  · split
    · intro e he
      exact hit e ((task_image_iterate_transfer_calls c image w).2 e he).1
    · simp
  · exact hcb
  · intro e he
    exact hpr e ((task_image_iterate_process_transfer_calls c image w).2 e he).1
  · exact hcb
  · simp

/-- A poll keeps the cleanup state. -/
theorem handler_cleanup_state (c : Codec σ) (malloc_ok : Bool) (task : retro_task_t) (w : σ)
    (r1 : Ret σ Bool retro_task_t) (pre : List Event)
    (h : cleanup_state pre (held_handle task))
    (hr : task_image_load_handler c malloc_ok task w = some r1) :
    cleanup_state (pre ++ r1.calls) (held_handle r1.obj) := by
  cases hst : task.state with
  | none =>
    simp [held_handle, hst, cleanup_state] at h
  | some nbio =>
    cases hd : nbio.data with
    | none =>
      simp only [task_image_load_handler, hst, task_image_load_handler_switch, hd,
        completion_condition, Bool.and_false, Bool.false_and, Bool.false_eq_true, if_false,
        Option.some.injEq] at hr
      subst hr
      simp only [List.append_nil]
      simpa [held_handle, hst, hd] using h
    | some image =>
      obtain ⟨r, hr2, hcalls, _, hstate, _⟩ := handler_step c malloc_ok task nbio image w hst hd
      rw [hr2] at hr
      simp only [Option.some.injEq] at hr
      subst hr
      obtain ⟨⟨image1, hd1, hh1⟩, _⟩ := task_image_load_switch_handle c nbio image w
      have hheld : held_handle r.obj = held_handle task := by
        simp [held_handle, hstate, hd1, hh1, hst, hd]
      rw [hheld, hcalls]
      exact cleanup_state_quiet pre _ _ (task_image_load_switch_quiet c nbio image w) h

/-- An I/O-completion callback keeps the cleanup state. -/
theorem task_io_completion_cleanup_state (c : Codec σ) (task : retro_task_t) (len : Nat)
    (w : σ) (r1 : Ret σ Int retro_task_t) (pre : List Event)
    (h : cleanup_state pre (held_handle task))
    (hr : task_io_completion c task len w = some r1) :
    cleanup_state (pre ++ r1.calls) (held_handle r1.obj) := by
  cases hst : task.state with
  | none =>
    simp [held_handle, hst, cleanup_state] at h
  | some nbio =>
    simp only [task_io_completion, hst, Option.some.injEq] at hr
    subst hr
    simp only [held_handle, hst, Option.map_some'] at h ⊢
    unfold call_nbio_cb
    cases hcb : nbio.cb with
    | NULL =>
      simp only [List.append_nil]
      exact h
    | cb_nbio_image_menu_thumbnail =>
      simp only
      unfold cb_nbio_image_menu_thumbnail
      cases hd : nbio.data with
      | none =>
        simp only [List.append_nil, hd]
        rw [hd] at h
        exact h
      | some image =>
        rw [hd] at h
        simp only [Option.map_some'] at h
        simp only
        by_cases hnew : (c.image_transfer_new w image.type).1 = 0
        · rw [if_pos hnew]
          simp only [hd, Option.map_some']
          exact cleanup_state_quiet pre _ _ (by simp [Event.is_lifecycle]) h
        · rw [if_neg hnew]
          have hacq := cleanup_state_acquire pre image.handle image.type
            (c.image_transfer_new w image.type).1 hnew h
          unfold cb_nbio_generic
          simp only
          split
          · simp only [Option.map_none', task_image_load_free_internal]
            have hl : pre ++ Event.transfer_new image.type (c.image_transfer_new w image.type).1
                  :: (Event.get_ptr :: [Event.transfer_free (c.image_transfer_new w image.type).1]
                    ++ [Event.free_image])
                = ((pre ++ [Event.transfer_new image.type (c.image_transfer_new w image.type).1])
                    ++ [Event.get_ptr])
                  ++ [Event.transfer_free (c.image_transfer_new w image.type).1,
                    Event.free_image] := by simp
            rw [hl]
            exact cleanup_state_release _ _
              (cleanup_state_quiet _ _ _ (by simp [Event.is_lifecycle]) hacq)
          · split
            · simp only [Option.map_none', task_image_load_free_internal]
              rw [show ∀ (a : Event) (l : List Event) (x : Nat),
                  pre ++ a :: (l ++ [Event.transfer_free x] ++ [Event.free_image])
                    = ((pre ++ [a]) ++ l) ++ [Event.transfer_free x, Event.free_image] from
                fun a l x => by simp]
              exact cleanup_state_release _ _
                (cleanup_state_quiet _ _ _ (by simp [Event.is_lifecycle]) hacq)
            · simp only [Option.map_some']
              rw [show ∀ (a : Event) (l : List Event), pre ++ a :: l = (pre ++ [a]) ++ l from
                fun a l => by simp]
              exact cleanup_state_quiet _ _ _ (by simp [Event.is_lifecycle]) hacq

/-- A run of polls and I/O-completion callbacks keeps the cleanup state. -/
theorem run_ops_cleanup_state (c : Codec σ) (ops : List task_op) (task : retro_task_t) (w : σ)
    (r : Ret σ (List op_result) retro_task_t) (pre : List Event)
    (h : cleanup_state pre (held_handle task)) (hrun : run_ops c ops task w = some r) :
    cleanup_state (pre ++ r.calls) (held_handle r.obj) := by
  induction ops generalizing task w r pre with
  | nil =>
    simp only [run_ops, Option.some.injEq] at hrun
    subst hrun
    simpa using h
  | cons op ops ih =>
    cases op with
    | poll cancelled malloc_ok =>
      simp only [run_ops] at hrun
      cases hr1 : task_image_load_handler c malloc_ok { task with cancelled := cancelled } w with
      | none => simp [hr1] at hrun
      | some r1 =>
        simp only [hr1] at hrun
        cases hq : run_ops c ops r1.obj r1.world with
        | none => simp [hq] at hrun
        | some q =>
          simp only [hq, Option.some.injEq] at hrun
          subst hrun
          have h1 := handler_cleanup_state c malloc_ok { task with cancelled := cancelled } w r1
            pre h hr1
          have h2 := ih r1.obj r1.world q (pre ++ r1.calls) h1 hq
          simpa [List.append_assoc] using h2
    | io_completion len =>
      simp only [run_ops] at hrun
      cases hr1 : task_io_completion c task len w with
      | none => simp [hr1] at hrun
      | some r1 =>
        simp only [hr1] at hrun
        cases hq : run_ops c ops r1.obj r1.world with
        | none => simp [hq] at hrun
        | some q =>
          simp only [hq, Option.some.injEq] at hrun
          subst hrun
          have h1 := task_io_completion_cleanup_state c task len w r1 pre h hr1
          have h2 := ih r1.obj r1.world q (pre ++ r1.calls) h1 hq
          simpa [List.append_assoc] using h2

/-- C11, amended.  For every run of polls and I/O-completion callbacks
(succeeding or failing) on a task pushed by `task_push_image_load`, followed by
one call of `task_image_load_free`: the image context is freed exactly once;
if `image_transfer_new` returned a non-null handle at most once during the
run, every handle it returned is passed to `image_transfer_free` exactly once;
and afterwards `nbio->data` and `nbio->handle` are null. -/
theorem cleanup_exactly_once (c : Codec σ) (e : push_env) (fullpath : List Char)
    (cb user_data : Nat) (w0 w : σ) (t0 : retro_task_t) (ops : List task_op)
    (r : Ret σ (List op_result) retro_task_t)
    (hpush : (task_push_image_load c e fullpath cb user_data w0).obj = some t0)
    (hrun : run_ops c ops t0 w = some r) :
    (r.calls ++ (task_image_load_free c (some r.obj) r.world).calls).count Event.free_image
        = 1 ∧
    (r.calls.countP Event.is_new_handle ≤ 1 →
      ∀ (type : image_type_enum) (h : Nat), h ≠ 0 → Event.transfer_new type h ∈ r.calls →
        (r.calls ++ (task_image_load_free c (some r.obj) r.world).calls).count
          (Event.transfer_free h) = 1) ∧
    ∃ t nbio, (task_image_load_free c (some r.obj) r.world).obj = some t ∧
      t.state = some nbio ∧ nbio.data = none ∧ nbio.handle = 0 := by
  obtain ⟨nbio0, hs0, _, _, hd0⟩ :=
    task_push_image_load_pushed c e fullpath cb user_data w0 t0 hpush
  have h0 : cleanup_state [] (held_handle t0) := by
    simp [held_handle, hs0, hd0, cleanup_state]
  have hinv := run_ops_cleanup_state c ops t0 w r [] h0 hrun
  simp only [List.nil_append] at hinv
  have key : cleanup_state (r.calls ++ (task_image_load_free c (some r.obj) r.world).calls)
        (some none) ∧
      (task_image_load_free c (some r.obj) r.world).calls.countP Event.is_new_handle = 0 ∧
      ∃ t nbio, (task_image_load_free c (some r.obj) r.world).obj = some t ∧
        t.state = some nbio ∧ nbio.data = none ∧ nbio.handle = 0 := by
    cases hst : r.obj.state with
    | none => simp [held_handle, hst, cleanup_state] at hinv
    | some nbio =>
      cases hd : nbio.data with
      | none =>
        simp only [held_handle, hst, hd, Option.map_some', Option.map_none'] at hinv
        simp only [task_image_load_free, hst, hd, List.nil_append]
        exact ⟨cleanup_state_quiet _ _ _ (by simp [Event.is_lifecycle]) hinv,
          by simp [Event.is_new_handle], _, _, rfl, rfl, rfl, rfl⟩
      | some image =>
        simp only [held_handle, hst, hd, Option.map_some'] at hinv
        simp only [task_image_load_free, hst, hd, task_image_load_free_internal]
        refine ⟨?_, by simp [Event.is_new_handle], _, _, rfl, rfl, rfl, rfl⟩
        have hl : r.calls ++ ([Event.transfer_free image.handle] ++ [Event.free_image]
              ++ [Event.nbio_free nbio.handle, Event.free_nbio])
            = (r.calls ++ [Event.transfer_free image.handle, Event.free_image])
              ++ [Event.nbio_free nbio.handle, Event.free_nbio] := by simp
        rw [hl]
        exact cleanup_state_quiet _ _ _ (by simp [Event.is_lifecycle])
          (cleanup_state_release _ _ hinv)
  obtain ⟨⟨k1, k2⟩, kz, kobj⟩ := key
  refine ⟨k1, ?_, kobj⟩
  intro hc type h hh hm
  exact k2 (by rw [List.countP_append, kz]; exact hc) type h hh
    (List.mem_append.mpr (Or.inl hm))

/-- C11 amended, at a concrete input: a load whose one I/O-completion callback
obtains handle 1 and that is polled to its end; handle 1 is passed to
`image_transfer_free` once and the context is freed once. -/
theorem cleanup_exactly_once_witness :
    ∃ r, run_ops fresh_handle_codec
        [task_op.io_completion 0, task_op.poll false true, task_op.poll false true]
        (pushed_task fresh_handle_codec "a.png".toList 0) 0 = some r ∧
      Event.transfer_new IMAGE_TYPE_PNG 1 ∈ r.calls ∧
      (r.calls ++ (task_image_load_free fresh_handle_codec (some r.obj) r.world).calls).count
        Event.free_image = 1 ∧
      (r.calls ++ (task_image_load_free fresh_handle_codec (some r.obj) r.world).calls).count
        (Event.transfer_free 1) = 1 := by
  refine ⟨(run_ops fresh_handle_codec
      [task_op.io_completion 0, task_op.poll false true, task_op.poll false true]
      (pushed_task fresh_handle_codec "a.png".toList 0) 0).get (by decide), by simp,
    by decide, ?_, ?_⟩
  · exact (cleanup_exactly_once fresh_handle_codec ⟨true, true, true, false, 4096⟩
      "a.png".toList 0 0 0 0 (pushed_task fresh_handle_codec "a.png".toList 0)
      [task_op.io_completion 0, task_op.poll false true, task_op.poll false true] _ rfl
      (by simp)).1
  · exact (cleanup_exactly_once fresh_handle_codec ⟨true, true, true, false, 4096⟩
      "a.png".toList 0 0 0 0 (pushed_task fresh_handle_codec "a.png".toList 0)
      [task_op.io_completion 0, task_op.poll false true, task_op.poll false true] _ rfl
      (by simp)).2.1 (by decide) IMAGE_TYPE_PNG 1 (by decide) (by decide)

/-! ### A decode error in a burst -/

/-- Once an error code is recorded in `processing_final_state`, in status
`PROCESS_TRANSFER_PARSE` with the upload callback installed, no poll of any
sequence of polls calls `image_transfer_process`, and the context stays as it
is. -/
theorem recorded_error_stops_decoding (c : Codec σ) (inputs : List poll_input)
    (task : retro_task_t) (image : nbio_image_handle) (w : σ)
    (hi : task_image task = some image)
    (hs : image.status = IMAGE_STATUS_PROCESS_TRANSFER_PARSE)
    (hcb : image.cb = image_cb_t.cb_image_menu_upload_generic)
    (he : image.processing_final_state = IMAGE_PROCESS_ERROR
      ∨ image.processing_final_state = IMAGE_PROCESS_ERROR_END) :
    ∃ q, run_polls c inputs task w = some q ∧ (∀ e ∈ q.calls, e.is_process = false) ∧
      task_image q.obj = some image := by
  induction inputs generalizing task w with
  | nil => exact ⟨_, rfl, by simp, hi⟩
  | cons i is ih =>
    unfold task_image at hi
    cases hst : task.state with
    | none => simp [hst] at hi
    | some nbio =>
      simp only [hst] at hi
      have hsw : (task_image_load_switch c { nbio with data := some image } image w).obj
            = { nbio with data := some image } ∧
          ∀ e ∈ (task_image_load_switch c { nbio with data := some image } image w).calls,
            e.is_process = false := by
        unfold task_image_load_switch
        simp only [hs]
        by_cases hh : image.handle = 0
        · rw [invoke_cb_skip c _ image w (Or.inl hh)]
          exact ⟨rfl, by simp⟩
        · rw [invoke_cb_upload_error c nbio image w hh hcb he]
          exact ⟨rfl, by simp [Event.is_process]⟩
      obtain ⟨r, hr, hcalls, _, hstate, _⟩ := handler_step c i.malloc_ok
        { task with cancelled := i.cancelled } nbio image w hst hi
      rw [hsw.1] at hstate
      obtain ⟨q, hq, hqc, hqi⟩ := ih r.obj r.world (by simp [task_image, hstate])
      refine ⟨⟨r.val :: q.val, q.obj, q.world, r.calls ++ q.calls⟩, ?_, ?_, hqi⟩
      · rw [run_polls_cons c i is task w r hr, hq]
        rfl
      · intro e hm
        simp only [List.mem_append] at hm
        rcases hm with hm | hm
        · rw [hcalls] at hm
          exact hsw.2 e hm
        · exact hqc e hm

/-- A decode error in a `PROCESS_TRANSFER` burst is recorded and stops the decode
calls: after a poll in status `PROCESS_TRANSFER`, with the upload callback
installed, in which a call of `image_transfer_process` returned an error code,
`processing_final_state` holds the error code the call returned, the status is
`PROCESS_TRANSFER_PARSE`, and no later poll calls `image_transfer_process`. -/
theorem decode_error_in_burst_recorded (c : Codec σ) (malloc_ok : Bool) (task : retro_task_t)
    (nbio : nbio_handle_t) (image : nbio_image_handle) (w : σ)
    (hst : image.status = IMAGE_STATUS_PROCESS_TRANSFER)
    (hcb : image.cb = image_cb_t.cb_image_menu_upload_generic) :
    ∃ r image1, task_image_load_handler c malloc_ok
        { task with state := some { nbio with data := some image } } w = some r ∧
      task_image r.obj = some image1 ∧
      ((∃ e ∈ r.calls, e.is_process_error = true) →
        (image1.processing_final_state = IMAGE_PROCESS_ERROR
          ∨ image1.processing_final_state = IMAGE_PROCESS_ERROR_END) ∧
        Event.transfer_process image.handle image1.processing_final_state ∈ r.calls ∧
        image1.status = IMAGE_STATUS_PROCESS_TRANSFER_PARSE ∧
        ∀ inputs : List poll_input, ∃ q, run_polls c inputs r.obj r.world = some q ∧
          ∀ e ∈ q.calls, e.is_process = false) := by
  obtain ⟨r, hr, hcalls, _, hstate, _⟩ := handler_step c malloc_ok
    { task with state := some { nbio with data := some image } }
    { nbio with data := some image } image w rfl rfl
  have hframe := process_transfer_loop_frame c image.processing_pos_increment 0 image 0 0 w
  rcases process_transfer_loop_shape c image.processing_pos_increment 0 image 0 0 w with
    ⟨hc, _⟩ | ⟨hv, k, _, hc⟩
  · obtain ⟨image1, hd1, _⟩ := task_image_load_switch_status c nbio image w
    refine ⟨r, image1, hr, by simp [task_image, hstate, hd1], ?_⟩
    rintro ⟨e, hm, hpe⟩
    exfalso
    rw [hcalls] at hm
    have hm2 : e ∈ (process_transfer_loop c image.processing_pos_increment 0 image 0 0 w).calls := by
      simp only [task_image_load_switch, hst, task_image_iterate_process_transfer] at hm
      split at hm <;> exact hm
    rw [hc] at hm2
    rw [List.eq_of_mem_replicate hm2] at hpe
    simp [Event.is_process_error, IMAGE_PROCESS_NEXT, IMAGE_PROCESS_ERROR,
      IMAGE_PROCESS_ERROR_END] at hpe
  · have hsw : task_image_load_switch c { nbio with data := some image } image w =
        ⟨(), { nbio with data := some ({ (process_transfer_loop c
              image.processing_pos_increment 0 image 0 0 w).obj.1 with
              processing_final_state :=
                (process_transfer_loop c image.processing_pos_increment 0 image 0 0 w).val
              status := IMAGE_STATUS_PROCESS_TRANSFER_PARSE } : nbio_image_handle) },
          (process_transfer_loop c image.processing_pos_increment 0 image 0 0 w).world,
          (process_transfer_loop c image.processing_pos_increment 0 image 0 0 w).calls⟩ := by
      simp [task_image_load_switch, hst, task_image_iterate_process_transfer, hv]
    rw [hsw] at hcalls hstate
    simp only at hcalls hstate
    refine ⟨r, ({ (process_transfer_loop c image.processing_pos_increment 0 image 0 0 w).obj.1 with
        processing_final_state :=
          (process_transfer_loop c image.processing_pos_increment 0 image 0 0 w).val
        status := IMAGE_STATUS_PROCESS_TRANSFER_PARSE } : nbio_image_handle), hr,
      by simp only [task_image, hstate], ?_⟩
    rintro ⟨e, hm, hpe⟩
    rw [hcalls, hc] at hm
    have herr : (process_transfer_loop c image.processing_pos_increment 0 image 0 0 w).val
          = IMAGE_PROCESS_ERROR
        ∨ (process_transfer_loop c image.processing_pos_increment 0 image 0 0 w).val
          = IMAGE_PROCESS_ERROR_END := by
      simp only [List.mem_append, List.mem_singleton] at hm
      rcases hm with hm | hm
      · rw [List.eq_of_mem_replicate hm] at hpe
        simp [Event.is_process_error, IMAGE_PROCESS_NEXT, IMAGE_PROCESS_ERROR,
          IMAGE_PROCESS_ERROR_END] at hpe
      · rw [hm] at hpe
        simpa [Event.is_process_error] using hpe
    refine ⟨herr, by rw [hcalls, hc]; simp, rfl, ?_⟩
    intro inputs
    obtain ⟨q, hq, hqc, _⟩ := recorded_error_stops_decoding c inputs r.obj
      ({ (process_transfer_loop c image.processing_pos_increment 0 image 0 0 w).obj.1 with
        processing_final_state :=
          (process_transfer_loop c image.processing_pos_increment 0 image 0 0 w).val
        status := IMAGE_STATUS_PROCESS_TRANSFER_PARSE } : nbio_image_handle) r.world
      (by simp only [task_image, hstate]) rfl (by rw [hframe]; exact hcb) herr
    exact ⟨q, hq, hqc⟩

end Theorems

end TaskImage
